import Mathlib

/-!
Verification of the `crushtool` text/binary CRUSH-map compiler
(`src/crushtool.cc` of the libcrush repository).

The development shallowly embeds the tool:

* The command-line surface of `main` (crushtool.cc lines 654-745) is
  embedded as a pure function from parsed options and an abstract
  "world" (file-system / parse oracles) to an observable outcome record
  (exit code, messages on each stream, file writes).
* The compiler proper (`parse_device`, `parse_bucket_type`,
  `parse_bucket`, `parse_rule`, `parse_crush`) is embedded as explicit
  state passing over the process-wide tables the source keeps as
  globals, with `exit(1)` calls modelled as `Except` errors.
* The decompiler (`decompile_crush`) is embedded as a function from the
  in-memory map to the list of declarations its textual output denotes.

Parts of the repository that crushtool.cc links against but whose code
is not in the source tree (`CrushWrapper`, `crush/grammar.h`, the
encoder) are modelled from the specification; every such definition is
marked `Modelled from the spec:` in its doc comment.

Machine floats of the source are modelled as rationals: a decimal
literal of the text format denotes the exact rational it spells, and
the C cast `(unsigned)(x * 0x10000)` on a non-negative value is
truncation, i.e. the floor of the rational product.  All counterexample
inputs below are chosen so that the float computation of the source and
the rational computation agree.
-/

namespace Crushtool

attribute [local semireducible] Rat.add Rat.mul Rat.sub Rat.inv

/-- Decidable equality of `Except` results, for evaluating concrete
compiles. -/
instance {ε α : Type} [DecidableEq ε] [DecidableEq α] : DecidableEq (Except ε α) :=
  fun x y =>
    match x, y with
    | .error a, .error b =>
      if h : a = b then isTrue (h ▸ rfl) else isFalse fun he => h (Except.error.inj he)
    | .error _, .ok _ => isFalse Except.noConfusion
    | .ok _, .error _ => isFalse Except.noConfusion
    | .ok a, .ok b =>
      if h : a = b then isTrue (h ▸ rfl) else isFalse fun he => h (Except.ok.inj he)

/-- The C conversion `(unsigned)(x * 0x10000)` used by `parse_device`
(line 108) and `parse_bucket` (line 228): truncation of the 16.16
fixed-point product (for the non-negative values the grammar admits,
truncation toward zero is the floor). -/
def to_fixed (x : ℚ) : Int := ⌊x * 65536⌋

/-- The value printed by `print_fixedpoint` (lines 499-504):
`sprintf("%.3f", w / 65536.0)` rounds the fixed-point value to three
decimal places.  (`sprintf` rounds ties to even; the inputs used in the
theorems below are not ties, where `round` agrees.) -/
def print_fixed (w : Int) : ℚ := (round ((w : ℚ) * 1000 / 65536) : Int) / 1000

/-! ## Command-line surface (`main`, lines 654-745) -/

/-- Option state accumulated by the argument loop of `main`
(lines 666-685). -/
structure Opts where
  cinfn : Option String
  dinfn : Option String
  outfn : Option String
  clobber : Bool
  verbose : Int
deriving DecidableEq

/-- Initial option state of `main` (lines 667-670). -/
def initOpts : Opts := ⟨none, none, none, false, 0⟩

/-- Result of the argument loop: either `usage()` was called (which
prints to stdout and exits 1, lines 654-658) or the loop finished with
an option state. -/
inductive ArgsRes where
  | usage : ArgsRes
  | done : Opts → ArgsRes
deriving DecidableEq

/-- The argument loop of `main` (lines 672-685).  `args[++i]` past the
end of the vector is undefined behaviour in the source; that case is
`none` here. -/
def parseArgs : List String → Opts → Option ArgsRes
  | [], o => some (.done o)
  | a :: rest, o =>
    if a = "--clobber" then parseArgs rest { o with clobber := true }
    else if a = "-d" then
      match rest with
      | v :: rest2 => parseArgs rest2 { o with dinfn := some v }
      | [] => none
    else if a = "-o" then
      match rest with
      | v :: rest2 => parseArgs rest2 { o with outfn := some v }
      | [] => none
    else if a = "-c" then
      match rest with
      | v :: rest2 => parseArgs rest2 { o with cinfn := some v }
      | [] => none
    else if a = "-v" then parseArgs rest { o with verbose := o.verbose + 1 }
    else some .usage

/-- Outcome of `compile_crush_file` on a given input file, as decided
by the file system and the text: the file is missing (line 410,
`return -ENOENT`), the text fails to parse (line 458, `return 1`), or
the compile succeeds (line 465, `return 0`).  The parse-error case
carries the line number and offending text used by the message of
lines 456-457. -/
inductive CompileOutcome where
  | ok : CompileOutcome
  | parseError : Int → String → CompileOutcome
  | notFound : CompileOutcome
deriving DecidableEq

/-- The integer `compile_crush_file` returns in each outcome
(lines 410, 458, 465); `ENOENT` is 2. -/
def compileRet : CompileOutcome → Int
  | .ok => 0
  | .parseError _ _ => 1
  | .notFound => -2

/-- Abstract environment for a run of `main`: what compiling each text
file would yield, and which reads/opens/writes succeed. -/
structure World where
  compileOutcome : String → CompileOutcome
  readOk : String → Bool
  openOk : String → Bool
  writeOk : String → Bool

/-- Observable actions of a run: which inputs were actually compiled or
decompiled and which output files were written. -/
inductive Act where
  | compiled : String → Act
  | decompiled : String → Act
  | wroteText : String → Act
  | wroteBinary : String → Act
deriving DecidableEq

/-- Messages `main` can print, tagged by content (the exact strings are
in crushtool.cc at the cited lines). -/
inductive CliMsg where
  | usageMsg : CliMsg
  | inputNotFound : String → CliMsg
  | parseErr : String → Int → String → CliMsg
  | readErr : String → CliMsg
  | openErr : String → CliMsg
  | writeErr : String → CliMsg
  | decompileText : CliMsg
  | wroteMapMsg : String → CliMsg
  | successMsg : String → CliMsg
deriving DecidableEq

/-- Observable outcome of a run of `main`: exit status, the two output
streams, and the performed actions. -/
structure Outcome where
  exitCode : Int
  stdout : List CliMsg
  stderr : List CliMsg
  acts : List Act
deriving DecidableEq

/-- Outcome of `usage()` (lines 654-658): the usage text goes to
standard output (`cout`), and the process exits with status 1 having
compiled and written nothing. -/
def usageOutcome : Outcome := ⟨1, [.usageMsg], [], []⟩

/-- The decompile branch of `main` (lines 699-720), continued by `k`
(the compile branch; when `-c` was also given `main` has already
exited via usage, so in reality `k` is always the trivial
continuation there). -/
def runDecompile (o : Opts) (w : World) (f : String) (k : Outcome) : Outcome :=
  if w.readOk f = false then ⟨1, [], [.readErr f], []⟩
  else
    match o.outfn with
    | some out =>
      if w.openOk out = false then ⟨1, [], [.openErr out], []⟩
      else
        { k with acts := .decompiled f :: .wroteText out :: k.acts }
    | none =>
      { k with stdout := .decompileText :: k.stdout, acts := .decompiled f :: k.acts }

/-- The compile branch of `main` (lines 722-742), starting from the
return value of `compile_crush_file`.  Note the slip at line 726: the
branch tests `r < 0`, but a parse error makes `compile_crush_file`
return `1`, so a parse error falls through to the output path. -/
def runCompile (o : Opts) (w : World) (f : String) : Outcome :=
  let msgs : List CliMsg :=
    match w.compileOutcome f with
    | .ok => []
    | .parseError l t => [.parseErr f l t]
    | .notFound => [.inputNotFound f]
  let acts : List Act :=
    match w.compileOutcome f with
    | .ok => [.compiled f]
    | _ => []
  if compileRet (w.compileOutcome f) < 0 then ⟨1, [], msgs, acts⟩
  else
    match o.outfn with
    | some out =>
      if w.writeOk out = false then ⟨1, [], msgs ++ [.writeErr out], acts⟩
      else
        ⟨0, if o.verbose > 0 then [.wroteMapMsg out] else [], msgs,
          acts ++ [.wroteBinary out]⟩
    | none => ⟨0, [.successMsg f], msgs, acts⟩

/-- The body of `main` after argument parsing (lines 686-745):
mutual-exclusion checks, then the decompile branch, then the compile
branch, then `return 0`. -/
def runMain (o : Opts) (w : World) : Outcome :=
  if o.cinfn.isSome ∧ o.dinfn.isSome then usageOutcome
  else if o.cinfn.isNone ∧ o.dinfn.isNone then usageOutcome
  else
    match o.dinfn with
    | some f => runDecompile o w f ⟨0, [], [], []⟩
    | none =>
      match o.cinfn with
      | some f => runCompile o w f
      | none => ⟨0, [], [], []⟩

/-- Whole program: argument vector to outcome.  The undefined-behaviour
case of the argument loop (an option flag with no following value) is
reported as an arbitrary distinguished outcome. -/
def runArgs (args : List String) (w : World) : Outcome :=
  match parseArgs args initOpts with
  | none => ⟨-1, [], [], []⟩
  | some .usage => usageOutcome
  | some (.done o) => runMain o w

/-- Option state with the `--clobber` flag cleared, used to state that
the flag is never read. -/
def stripClobber (o : Opts) : Opts := { o with clobber := false }

/-- `stripClobber` applied across an argument-loop result. -/
def stripRes : Option ArgsRes → Option ArgsRes
  | some (.done o) => some (.done (stripClobber o))
  | x => x

/-- A world in which every file exists and every write succeeds. -/
def wAllOk : World := ⟨fun _ => .ok, fun _ => true, fun _ => true, fun _ => true⟩

/-- No output file (text or binary) appears among the actions. -/
def noWrites (l : List Act) : Prop :=
  ∀ g, Act.wroteText g ∉ l ∧ Act.wroteBinary g ∉ l

/-! ## Text format abstract syntax

Modelled from the spec: `crush/grammar.h` is not in the source tree, so
the text format is embedded at the level of parse trees, following the
grammar of spec §6 ("Text format"): `device <id> <name> [tag]`,
`type <id> <name>`, `<type-name> <bucket-name> { [id] alg item* }`
(the optional `id` line comes first, as in the spec example), and
`rule [name] { pool / type / min_size / max_size / step* }`.  A decimal
literal denotes the exact rational it spells. -/

/-- Device status tag (spec §6: `[offload 0.500 | load 0.500 | down]`). -/
inductive DevTag where
  | offl : ℚ → DevTag
  | load : ℚ → DevTag
  | down : DevTag
deriving DecidableEq

/-- One `device <id> <name> [tag]` line. -/
structure DeviceDecl where
  id : Int
  name : String
  tag : Option DevTag
deriving DecidableEq

/-- One `type <id> <name>` line. -/
structure TypeDecl where
  id : Int
  name : String
deriving DecidableEq

/-- One `item <name> [weight w] [pos p]` line of a bucket block. -/
structure ItemDecl where
  iname : String
  weight : Option ℚ
  pos : Option Int
deriving DecidableEq

/-- One bucket block. -/
structure BucketDecl where
  btype : String
  name : String
  bid : Option Int
  alg : String
  items : List ItemDecl
deriving DecidableEq

/-- Pool type of a rule.  The grammar only admits `replicated` and
`raid4`; `other` stands for the raw integer the decompiler prints for
any other mask type, which the grammar rejects on a recompile. -/
inductive PType where
  | replicated : PType
  | raid4 : PType
  | other : Int → PType
deriving DecidableEq

/-- Choose mode keyword. -/
inductive Mode where
  | firstn : Mode
  | indep : Mode
deriving DecidableEq

/-- One `step ...` line of a rule block.  `noop` stands for the
`step noop` line the decompiler prints for a `CRUSH_RULE_NOOP` slot,
which the grammar rejects on a recompile. -/
inductive StepDecl where
  | take : String → StepDecl
  | choose : Bool → Mode → Int → String → StepDecl
  | emit : StepDecl
  | noop : StepDecl
deriving DecidableEq

/-- One rule block. -/
structure RuleDecl where
  rname : Option String
  pool : Int
  ptype : PType
  minSize : Int
  maxSize : Int
  steps : List StepDecl
deriving DecidableEq

/-- A top-level declaration of the text format. -/
inductive Decl where
  | dev : DeviceDecl → Decl
  | typ : TypeDecl → Decl
  | buck : BucketDecl → Decl
  | rule : RuleDecl → Decl
deriving DecidableEq

/-! ## Compile errors

Each `cerr << ...; exit(1)` site of crushtool.cc becomes one error
constructor; `render` rebuilds the exact message text of the source
(C++ prints the offending float in decimal where the model prints the
exact rational; no message is affected in shape by this). -/

/-- The `exit(1)` error sites of the compiler. -/
inductive CErr where
  | dupItem : String → CErr
  | illegalOffload : ℚ → Int → String → CErr
  | badBucketType : String → CErr
  | dupBucket : String → CErr
  | badAlg : String → CErr
  | occupiedPos : String → String → Int → CErr
  | undefItem : String → String → CErr
  | posTooBig : String → String → Int → Int → CErr
  | dupRule : String → CErr
  | undefRuleItem : String → String → CErr
  | undefRuleType : String → String → CErr
  | grammarReject : CErr
deriving DecidableEq

/-- The message each error site prints to stderr (crushtool.cc lines
82, 104, 129, 136, 162, 174, 199, 219, 254, 295, 307).  `grammarReject`
stands for a text-level parse failure, which is reported through
`parseErrMsg` instead. -/
def render : CErr → String
  | .dupItem n => "item " ++ n ++ " defined twice"
  | .illegalOffload off id n =>
      "illegal device offload " ++ toString off ++ " on device " ++ toString id ++ " " ++ n
        ++ " (valid range is [0,1])"
  | .badBucketType t => "bucket type '" ++ t ++ "' is not defined"
  | .dupBucket n => "bucket or device '" ++ n ++ "' is already defined"
  | .badAlg a => "unknown bucket alg '" ++ a ++ "'"
  | .occupiedPos item bname p =>
      "item '" ++ item ++ "' in bucket '" ++ bname ++ "' has explicit pos " ++ toString p
        ++ ", which is occupied"
  | .undefItem item bname =>
      "item '" ++ item ++ "' in bucket '" ++ bname ++ "' is not defined"
  | .posTooBig item bname p sz =>
      "item '" ++ item ++ "' in bucket '" ++ bname ++ "' has pos " ++ toString p
        ++ " >= size " ++ toString sz
  | .dupRule n => "rule name '" ++ n ++ "' already defined"
  | .undefRuleItem rname item => "in rule '" ++ rname ++ "' item '" ++ item ++ "' not defined"
  | .undefRuleType rname t => "in rule '" ++ rname ++ "' type '" ++ t ++ "' not defined"
  | .grammarReject => ""

/-- The parse-error message of `compile_crush_file` (lines 456-457):
`<file>:<line> error: parse error at '<rest of line>'`. -/
def parseErrMsg (infn : String) (line : Int) (tail : String) : String :=
  infn ++ ":" ++ toString line ++ " error: parse error at '" ++ tail ++ "'"

/-! ## The in-memory map

Modelled from the spec: `CrushWrapper` and the crush structs are not in
the source tree.  Spec §3 ("Map") and §4.5 (binary layout) fix the
shape: a dense bucket table indexed by `-1-id`, a dense rule table, a
dense per-device offload array of length `max_devices`, and sorted
(`std::map`) name tables for types, items and rules. -/

/-- Bucket record (spec §3; per-kind precomputed tables are derived
data recomputed by `finalize` and carried implicitly). -/
structure CBucket where
  id : Int
  alg : Int
  type : Int
  size : Int
  items : List Int
  weights : List Int
deriving DecidableEq

/-- Rule step opcode (spec §3 "Steps"). -/
inductive StepOp where
  | noop : StepOp
  | take : StepOp
  | chooseFirstn : StepOp
  | chooseIndep : StepOp
  | chooseLeafFirstn : StepOp
  | chooseLeafIndep : StepOp
  | emit : StepOp
deriving DecidableEq

/-- One compiled rule step: `(op, arg1, arg2)` (spec §4.5). -/
structure CStep where
  op : StepOp
  arg1 : Int
  arg2 : Int
deriving DecidableEq

/-- Compiled rule: length, mask, steps (spec §3, §4.5). -/
structure CRule where
  len : Int
  pool : Int
  ptype : Int
  minSize : Int
  maxSize : Int
  steps : List CStep
deriving DecidableEq

/-- Placeholder rule used as the default of a guarded table read. -/
def dummyRule : CRule := ⟨0, 0, 0, 0, 0, []⟩

/-- The in-memory map (spec §3 "Map"). -/
structure CrushMap where
  max_devices : Int
  offload : List Int
  buckets : List (Option CBucket)
  rules : List CRule
  type_names : List (Int × String)
  item_names : List (Int × String)
  rule_names : List (Int × String)
deriving DecidableEq

/-- Insert into an id-keyed name table, keeping keys sorted ascending
and replacing an existing binding — the `std::map` behaviour assumed by
the decompiler's in-order walks. -/
def mput (k : Int) (v : String) : List (Int × String) → List (Int × String)
  | [] => [(k, v)]
  | (k2, v2) :: rest =>
    if k < k2 then (k, v) :: (k2, v2) :: rest
    else if k = k2 then (k, v) :: rest
    else (k2, v2) :: mput k v rest

/-- Modelled from the spec: `CrushWrapper::set_item_name`. -/
def CrushMap.set_item_name (m : CrushMap) (id : Int) (n : String) : CrushMap :=
  { m with item_names := mput id n m.item_names }

/-- Modelled from the spec: `CrushWrapper::set_type_name`. -/
def CrushMap.set_type_name (m : CrushMap) (id : Int) (n : String) : CrushMap :=
  { m with type_names := mput id n m.type_names }

/-- Modelled from the spec: `CrushWrapper::set_rule_name`. -/
def CrushMap.set_rule_name (m : CrushMap) (id : Int) (n : String) : CrushMap :=
  { m with rule_names := mput id n m.rule_names }

/-- Modelled from the spec: `CrushWrapper::set_max_devices` reallocates
the per-device offload array (spec §4.5: `offload: max_devices × u32`),
preserving existing entries and zero-filling new ones. -/
def CrushMap.set_max_devices (m : CrushMap) (n : Int) : CrushMap :=
  { m with max_devices := n,
           offload := m.offload.take n.toNat
             ++ List.replicate (n.toNat - m.offload.length) 0 }

/-- Modelled from the spec: `CrushWrapper::set_offload` writes one slot
of the offload array. -/
def CrushMap.set_offload (m : CrushMap) (i : Int) (v : Int) : CrushMap :=
  { m with offload := m.offload.set i.toNat v }

/-- Modelled from the spec: `CrushWrapper::get_device_offload`. -/
def CrushMap.get_device_offload (m : CrushMap) (i : Int) : Int :=
  m.offload.getD i.toNat 0

/-- Modelled from the spec: `CrushWrapper::add_bucket` stores the
bucket in the table slot indexed by `-1-id` (spec §3), growing the
table as needed. -/
def CrushMap.add_bucket (m : CrushMap) (id alg type size : Int)
    (items weights : List Int) : CrushMap :=
  let idx := (-1 - id).toNat
  let tbl := m.buckets ++ List.replicate (idx + 1 - m.buckets.length) none
  { m with buckets := tbl.set idx (some ⟨id, alg, type, size, items, weights⟩) }

/-- Modelled from the spec: `CrushWrapper::add_rule` with rule number
`-1` appends at the next free rule number and returns it. -/
def CrushMap.add_rule (m : CrushMap) (len pool ptype minS maxS : Int) :
    CrushMap × Int :=
  ({ m with rules := m.rules
      ++ [⟨len, pool, ptype, minS, maxS, List.replicate len.toNat ⟨.noop, 0, 0⟩⟩] },
    (m.rules.length : Int))

/-- Modelled from the spec: `CrushWrapper::set_rule_step` overwrites
one step slot of a rule. -/
def CrushMap.set_rule_step (m : CrushMap) (ruleno : Int) (j : Nat) (st : CStep) : CrushMap :=
  let r := m.rules.getD ruleno.toNat dummyRule
  { m with rules := m.rules.set ruleno.toNat { r with steps := r.steps.set j st } }

/-- Modelled from the spec: `finalize` recomputes the per-kind derived
tables (primes, sums, node weights, straws) from the children and
weights; on this representation, which carries only the defining data,
it is the identity. -/
def CrushMap.finalize (m : CrushMap) : CrushMap := m

/-- The empty map of `CrushWrapper::create`. -/
def initMap : CrushMap := ⟨0, [], [], [], [], [], []⟩

/-! ## The compiler state

The process-wide tables of crushtool.cc (lines 47-55) plus the map
being built.  The globals are association lists with newest binding
first (lookup agrees with `std::map` after overwrite). -/

/-- Compiler state: the globals `item_id`, `id_item`, `item_weight`,
`device_offload`, `type_id`, `rule_id` and the `CrushWrapper`. -/
structure CState where
  item_id : List (String × Int)
  id_item : List (Int × String)
  item_weight : List (Int × ℚ)
  device_offload : List (Int × Int)
  type_id : List (String × Int)
  rule_id : List (String × Int)
  crush : CrushMap
deriving DecidableEq

/-- The state of a fresh process. -/
def initState : CState := ⟨[], [], [], [], [], [], initMap⟩

/-- The offload value a device tag denotes (lines 92-98): `offload v`
is `v`, `load x` is `1 - x`, `down` is `1`. -/
def devOffloadVal : DevTag → ℚ
  | .offl v => v
  | .load v => 1 - v
  | .down => 1

/-- The trailing `max_devices` update of `parse_device`
(lines 112-113). -/
def devMaxStep (d : DeviceDecl) (s : CState) : CState :=
  if d.id ≥ s.crush.max_devices
  then { s with crush := s.crush.set_max_devices (d.id + 1) }
  else s

/-- `parse_device` (lines 74-114): register the name (the source calls
`set_item_name` before the duplicate check), reject a duplicate name,
record the offload tag (rejecting a value outside `[0,1]`), and bump
`max_devices`. -/
def parse_device (d : DeviceDecl) (s : CState) : Except CErr CState :=
  let s := { s with crush := s.crush.set_item_name d.id d.name }
  if (s.item_id.lookup d.name).isSome then .error (.dupItem d.name)
  else
    let s := { s with item_id := (d.name, d.id) :: s.item_id,
                      id_item := (d.id, d.name) :: s.id_item }
    match d.tag with
    | none => .ok (devMaxStep d s)
    | some t =>
      let off := devOffloadVal t
      if off < 0 ∨ off > 1 then .error (.illegalOffload off d.id d.name)
      else .ok (devMaxStep d
        { s with device_offload := (d.id, to_fixed off) :: s.device_offload })

/-- `parse_bucket_type` (lines 116-123): record the type name with no
duplicate check of any kind. -/
def parse_bucket_type (t : TypeDecl) (s : CState) : CState :=
  { s with type_id := (t.name, t.id) :: s.type_id,
           crush := s.crush.set_type_name t.id t.name }

/-- The bucket algorithm keyword table (lines 151-164); the codes are
`CRUSH_BUCKET_{UNIFORM,LIST,TREE,STRAW}` = 1, 2, 3, 4. -/
def algCode (a : String) : Option Int :=
  if a = "uniform" then some 1
  else if a = "list" then some 2
  else if a = "tree" then some 3
  else if a = "straw" then some 4
  else none

/-- First item pass of `parse_bucket` (lines 166-182): count the items
and collect the explicitly requested positions, rejecting a repeated
explicit `pos`. -/
def scanItems (bname : String) : List ItemDecl → List Int → Int →
    Except CErr (List Int × Int)
  | [], used, size => .ok (used, size)
  | it :: rest, used, size =>
    match it.pos with
    | some p =>
      if used.contains p then .error (.occupiedPos it.iname bname p)
      else scanItems bname rest (p :: used) (size + 1)
    | none => scanItems bname rest used (size + 1)

/-- Largest element of a nonempty list (`*used_items.rbegin()` on the
`std::set`, line 186). -/
def listMax : List Int → Int
  | [] => 0
  | x :: xs => xs.foldl max x

/-- The `while (used_items.count(curpos)) curpos++` scan of line 223,
with enough fuel to pass every occupied position. -/
def skipUsedF : Nat → List Int → Int → Int
  | 0, _, c => c
  | n + 1, used, c => if used.contains c then skipUsedF n used (c + 1) else c

/-- First position at or after `c` not in `used` (line 223). -/
def skipUsed (used : List Int) (c : Int) : Int :=
  skipUsedF (used.length + 1) used c

/-- The effective weight of one item line (lines 204-212): an explicit
`weight` wins; otherwise the `item_weight` entry of the named item (set
only for buckets); otherwise `1.0`. -/
def effW (s : CState) (itemid : Int) (it : ItemDecl) : ℚ :=
  it.weight.getD ((s.item_weight.lookup itemid).getD 1)

/-- Second item pass of `parse_bucket` (lines 190-231): resolve each
item name, fix its weight and position, and fill the `items` and
`weights` vectors, accumulating the bucket weight. -/
def placeItems (s : CState) (bname : String) (size : Int) (used : List Int) :
    List ItemDecl → List Int → List Int → Int → ℚ →
    Except CErr (List Int × List Int × ℚ)
  | [], items, weights, _, bw => .ok (items, weights, bw)
  | it :: rest, items, weights, curpos, bw =>
    match s.item_id.lookup it.iname with
    | none => .error (.undefItem it.iname bname)
    | some itemid =>
      let w := effW s itemid it
      let pos := it.pos.getD (-1)
      if pos ≥ size then .error (.posTooBig it.iname bname pos size)
      else
        let p := if pos < 0 then skipUsed used curpos else pos
        let curpos2 := if pos < 0 then p + 1 else curpos
        placeItems s bname size used rest (items.set p.toNat itemid)
          (weights.set p.toNat (to_fixed w)) curpos2 (bw + w)

/-- The auto-id probe of line 234: `for (id=-1; id_item.count(id); id--)`,
with enough fuel to pass every occupied id. -/
def probeIdF : Nat → List (Int × String) → Int → Int
  | 0, _, id => id
  | n + 1, tbl, id => if (tbl.lookup id).isSome then probeIdF n tbl (id - 1) else id

/-- First id in the sequence `-1, -2, -3, ...` with no `id_item`
binding (line 234). -/
def probeId (tbl : List (Int × String)) : Int :=
  probeIdF (tbl.length + 1) tbl (-1)

/-- `parse_bucket` (lines 125-245): resolve the bucket type, reject a
duplicate name, resolve the algorithm, scan the items twice, auto-assign
the id when none (or `id 0`) was given, record the bucket in the
globals, and add it to the map. -/
def parse_bucket (b : BucketDecl) (s : CState) : Except CErr CState :=
  match s.type_id.lookup b.btype with
  | none => .error (.badBucketType b.btype)
  | some type =>
    if (s.item_id.lookup b.name).isSome then .error (.dupBucket b.name)
    else
      match algCode b.alg with
      | none => .error (.badAlg b.alg)
      | some alg =>
        match scanItems b.name b.items [] 0 with
        | .error e => .error e
        | .ok (used, count) =>
          let size := if used.isEmpty then count else max count (listMax used)
          match placeItems s b.name size used b.items
              (List.replicate size.toNat 0) (List.replicate size.toNat 0) 0 0 with
          | .error e => .error e
          | .ok (items, weights, bw) =>
            let id := if b.bid.getD 0 = 0 then probeId s.id_item else b.bid.getD 0
            let s2 := { s with id_item := (id, b.name) :: s.id_item,
                               item_id := (b.name, id) :: s.item_id,
                               item_weight := (id, bw) :: s.item_weight }
            .ok { s2 with crush := (s2.crush.add_bucket id alg type size items
                    weights).set_item_name id b.name }

/-- Rule mask type codes `CEPH_PG_TYPE_REP` = 1 and
`CEPH_PG_TYPE_RAID4` = 2 (lines 267-272); any other keyword does not
parse. -/
def ptypeCode : PType → Option Int
  | .replicated => some 1
  | .raid4 => some 2
  | .other _ => none

/-- Opcode of a choose step (lines 302-326). -/
def stepOpOf (leaf : Bool) (m : Mode) : StepOp :=
  match leaf, m with
  | false, .firstn => .chooseFirstn
  | false, .indep => .chooseIndep
  | true, .firstn => .chooseLeafFirstn
  | true, .indep => .chooseLeafIndep

/-- The step loop of `parse_rule` (lines 286-336): resolve each step's
names and write the step slots in order. -/
def setRuleSteps (rname : String) (ruleno : Int) :
    List StepDecl → Nat → CState → Except CErr CState
  | [], _, s => .ok s
  | st :: rest, j, s =>
    match st with
    | .take item =>
      match s.item_id.lookup item with
      | none => .error (.undefRuleItem rname item)
      | some iid =>
        setRuleSteps rname ruleno rest (j + 1)
          { s with crush := s.crush.set_rule_step ruleno j ⟨.take, iid, 0⟩ }
    | .choose leaf mode n t =>
      match s.type_id.lookup t with
      | none => .error (.undefRuleType rname t)
      | some tid =>
        setRuleSteps rname ruleno rest (j + 1)
          { s with crush := s.crush.set_rule_step ruleno j ⟨stepOpOf leaf mode, n, tid⟩ }
    | .emit =>
      setRuleSteps rname ruleno rest (j + 1)
        { s with crush := s.crush.set_rule_step ruleno j ⟨.emit, 0, 0⟩ }
    | .noop => .error .grammarReject

/-- Body of `parse_rule` after the duplicate-name check (lines 263-337):
resolve the mask, allocate the rule, register its name, and write the
steps. -/
def parse_rule_body (r : RuleDecl) (nm : Option String) (s : CState) :
    Except CErr CState :=
  match ptypeCode r.ptype with
  | none => .error .grammarReject
  | some pt =>
    let p := s.crush.add_rule (r.steps.length : Int) r.pool pt r.minSize r.maxSize
    let s1 := { s with crush := p.1 }
    let s2 := match nm with
      | some n => { s1 with crush := s1.crush.set_rule_name p.2 n,
                            rule_id := (n, p.2) :: s1.rule_id }
      | none => s1
    setRuleSteps (nm.getD "") p.2 r.steps 0 s2

/-- `parse_rule` (lines 247-338): reject a duplicate rule name (named
rules only), then build the rule. -/
def parse_rule (r : RuleDecl) (s : CState) : Except CErr CState :=
  match r.rname with
  | some n =>
    if (s.rule_id.lookup n).isSome then .error (.dupRule n)
    else parse_rule_body r (some n) s
  | none => parse_rule_body r none s

/-- `find_used_bucket_ids` (lines 352-365): pre-register every
explicitly declared bucket id under the empty name.  The source only
inspects the first statement of each block; the grammar places the
optional `id` line first, so an explicit id is always found there. -/
def find_used_bucket_ids (decls : List Decl) (s : CState) : CState :=
  decls.foldl (fun s d =>
    match d with
    | .buck b =>
      match b.bid with
      | some id => { s with id_item := (id, "") :: s.id_item }
      | none => s
    | _ => s) s

/-- One top-level declaration, dispatched as in the switch of
`parse_crush` (lines 371-388). -/
def parse_one (s : CState) (d : Decl) : Except CErr CState :=
  match d with
  | .dev dv => parse_device dv s
  | .typ t => .ok (parse_bucket_type t s)
  | .buck b => parse_bucket b s
  | .rule r => parse_rule r s

/-- One step of the offload transfer loop (lines 392-394). -/
def offloadStep (dof : List (Int × Int)) (c : CrushMap) (i : Nat) : CrushMap :=
  match dof.lookup (i : Int) with
  | some v => c.set_offload (i : Int) v
  | none => c

/-- The offload transfer loop of `parse_crush` (lines 392-394). -/
def apply_offloads (s : CState) : CState :=
  let c2 := List.foldl (offloadStep s.device_offload) s.crush
    (List.range s.crush.max_devices.toNat)
  { s with crush := c2 }

/-- `parse_crush` (lines 367-396): pre-pass, declaration loop,
`finalize`, offload transfer. -/
def parse_crush (decls : List Decl) (s : CState) : Except CErr CState := do
  let s0 := find_used_bucket_ids decls s
  let s1 ← decls.foldlM parse_one s0
  pure (apply_offloads { s1 with crush := s1.crush.finalize })

/-- A whole compile from a fresh process state (the declaration-level
content of `compile_crush_file`, line 463). -/
def compile (decls : List Decl) : Except CErr CState :=
  parse_crush decls initState

/-- Whether a compile succeeded. -/
def compileOk : Except CErr CState → Bool
  | .ok _ => true
  | .error _ => false

/-- Strings whose character data contain no colon. -/
@[reducible] def colonFree (x : String) : Prop := ':' ∉ x.data

/-- The rendered pieces of each semantic error message: the
user-supplied names and the printed numbers. -/
def renderArgs : CErr → List String
  | .dupItem n => [n]
  | .illegalOffload off id n => [toString off, toString id, n]
  | .badBucketType t => [t]
  | .dupBucket n => [n]
  | .badAlg a => [a]
  | .occupiedPos item bname p => [item, bname, toString p]
  | .undefItem item bname => [item, bname]
  | .posTooBig item bname p sz => [item, bname, toString p, toString sz]
  | .dupRule n => [n]
  | .undefRuleItem rname item => [rname, item]
  | .undefRuleType rname t => [rname, t]
  | .grammarReject => []

/-- The id an item name resolves to (0 when undefined, unused then). -/
def resolvedId (s : CState) (it : ItemDecl) : Int :=
  (s.item_id.lookup it.iname).getD 0

/-- The effective weight of an item line, looked up by name. -/
def effWName (s : CState) (it : ItemDecl) : ℚ :=
  match s.item_id.lookup it.iname with
  | some iid => effW s iid it
  | none => 0

/-- Concrete states for the witnesses: after `device 0 osd0`. -/
def c10s1 : CState :=
  ⟨[("osd0", 0)], [(0, "osd0")], [], [], [], [],
    ⟨1, [0], [], [], [], [(0, "osd0")], []⟩⟩

/-- After `device 0 osd0` and `type 1 host`. -/
def c10s2 : CState :=
  ⟨[("osd0", 0)], [(0, "osd0")], [], [], [("host", 1)], [],
    ⟨1, [0], [], [], [(1, "host")], [(0, "osd0")], []⟩⟩

/-- A one-item straw bucket whose item line has no weight and no pos. -/
def c10b : BucketDecl := ⟨"host", "h1", some (-1), "straw", [⟨"osd0", none, none⟩]⟩

/-- After additionally compiling `c10b`. -/
def c10s3 : CState :=
  ⟨[("h1", -1), ("osd0", 0)], [(-1, "h1"), (0, "osd0")], [(-1, 1)], [], [("host", 1)], [],
    ⟨1, [0], [some ⟨-1, 4, 1, 1, [0], [65536]⟩], [], [(1, "host")],
      [(-1, "h1"), (0, "osd0")], []⟩⟩

/-- The explicitly declared bucket ids of a file, in order. -/
def explicitIds (decls : List Decl) : List Int :=
  decls.filterMap fun d => match d with | .buck b => b.bid | _ => none

/-- Number of bucket blocks in a file. -/
def bucketDeclCount (decls : List Decl) : Nat :=
  (decls.filterMap fun d => match d with | .buck b => some b.name | _ => none).length

/-- Number of occupied slots of the bucket table. -/
def countBuckets (tbl : List (Option CBucket)) : Nat :=
  (tbl.filterMap id).length

/-- The id `parse_bucket` gives a bucket block: an auto-probe when the
block has no id line (sentinel 0, lines 233-236), the explicit id
otherwise. -/
def bucketNewId (b : BucketDecl) (s : CState) : Int :=
  if b.bid.getD 0 = 0 then probeId s.id_item else b.bid.getD 0

/-! ## The decompiler (`decompile_crush`, lines 506-651)

The decompiler prints text; this embedding produces the declaration
list that text denotes.  Integer and name round-trips through the
concrete syntax are exact; fixed-point values pass through
`print_fixed` (three decimals), which is where precision is lost. -/

/-- `print_item_name` (lines 479-488). -/
def print_item_name (m : CrushMap) (t : Int) : String :=
  match m.item_names.lookup t with
  | some n => n
  | none => if t ≥ 0 then "device" ++ toString t else "bucket" ++ toString (-1 - t)

/-- `print_type_name` (lines 468-477). -/
def print_type_name (m : CrushMap) (t : Int) : String :=
  match m.type_names.lookup t with
  | some n => n
  | none => if t = 0 then "device" else "type" ++ toString t

/-- `crush_bucket_alg_name`.  Modelled from the spec: the function
lives in the crush core, outside src/; codes 1-4 are the four §3
kinds. -/
def crush_bucket_alg_name (alg : Int) : String :=
  if alg = 1 then "uniform"
  else if alg = 2 then "list"
  else if alg = 3 then "tree"
  else if alg = 4 then "straw"
  else "unknown"

/-- One device line (lines 512-520): name from `print_item_name`, an
`offload` tag when the stored value is non-zero. -/
def devDecl (m : CrushMap) (i : Nat) : Decl :=
  .dev ⟨(i : Int), print_item_name m (i : Int),
    if m.get_device_offload (i : Int) ≠ 0
    then some (.offl (print_fixed (m.get_device_offload (i : Int)))) else none⟩

/-- The device lines of the decompiler (lines 510-521): every id below
`max_devices` is printed. -/
def decompDevices (m : CrushMap) : List Decl :=
  (List.range m.max_devices.toNat).map (devDecl m)

/-- The type lines (lines 523-533): the names in id order, with the
synthetic `type 0 device` line when type 0 is unnamed.  (The C loop
index runs upward from 0 until all names are emitted; it does not
terminate if a type name has a negative id, so this model is faithful
for non-negative type ids, which the round-trip hypotheses require.) -/
def decompTypes (m : CrushMap) : List Decl :=
  (if (m.type_names.lookup 0).isNone then [Decl.typ ⟨0, "device"⟩] else []) ++
    m.type_names.map fun p => .typ ⟨p.1, p.2⟩

/-- One step of the item loop of a bucket block (lines 567-585): a
zero-weight slot is skipped and switches later items to explicit
`pos`; `dopos` starts true for uniform and tree buckets; a tree slot
prints pos `(j-1)/2` (C truncating division). -/
def decompItemsStep (m : CrushMap) (alg : Int) (bk : CBucket)
    (acc : List ItemDecl × Bool) (j : Nat) : List ItemDecl × Bool :=
  let w := bk.weights.getD j 0
  if w = 0 then (acc.1, true)
  else
    (acc.1 ++ [⟨print_item_name m (bk.items.getD j 0), some (print_fixed w),
      if acc.2 then some (if alg = 3 then Int.div ((j : Int) - 1) 2 else (j : Int))
      else none⟩],
      acc.2)

/-- The item lines of one bucket block (lines 550-585). -/
def decompItems (m : CrushMap) (bk : CBucket) : List ItemDecl :=
  (List.foldl (decompItemsStep m bk.alg bk) ([], bk.alg == 1 || bk.alg == 3)
    (List.range bk.size.toNat)).1

/-- The bucket block of one table slot (lines 537-587), when the slot
is occupied; the block carries its explicit `id` line. -/
def buckDecl (m : CrushMap) (idx : Nat) : Option Decl :=
  match m.buckets.getD idx none with
  | none => none
  | some bk =>
    some (.buck ⟨print_type_name m bk.type, print_item_name m (-1 - (idx : Int)),
      some (-1 - (idx : Int)), crush_bucket_alg_name bk.alg, decompItems m bk⟩)

/-- The bucket blocks (lines 535-587): ids from `-1` downward, i.e.
table indices upward, absent slots skipped. -/
def decompBuckets (m : CrushMap) : List Decl :=
  (List.range m.buckets.length).filterMap (buckDecl m)

/-- One rule step line (lines 604-646). -/
def decompStep (m : CrushMap) (st : CStep) : StepDecl :=
  match st.op with
  | .noop => .noop
  | .take => .take (print_item_name m st.arg1)
  | .chooseFirstn => .choose false .firstn st.arg1 (print_type_name m st.arg2)
  | .chooseIndep => .choose false .indep st.arg1 (print_type_name m st.arg2)
  | .chooseLeafFirstn => .choose true .firstn st.arg1 (print_type_name m st.arg2)
  | .chooseLeafIndep => .choose true .indep st.arg1 (print_type_name m st.arg2)
  | .emit => .emit

/-- The pool type keyword printed for a rule mask (lines 597-601): the
raw integer printed for any type other than 1 and 2 does not re-parse. -/
def decompPType (t : Int) : PType :=
  if t = 1 then .replicated else if t = 2 then .raid4 else .other t

/-- One rule block (lines 591-648); the name is printed only when the
rule has one. -/
def ruleDecl (m : CrushMap) (i : Nat) : Decl :=
  let r := m.rules.getD i dummyRule
  .rule ⟨m.rule_names.lookup (i : Int), r.pool, decompPType r.ptype,
    r.minSize, r.maxSize, r.steps.map (decompStep m)⟩

/-- The rule blocks (lines 589-648): in rule-number order (the rule
table is append-only, so every number exists). -/
def decompRules (m : CrushMap) : List Decl :=
  (List.range m.rules.length).map (ruleDecl m)

/-- `decompile_crush` (lines 506-651): devices, types, buckets, rules. -/
def decompile_crush (m : CrushMap) : List Decl :=
  decompDevices m ++ decompTypes m ++ decompBuckets m ++ decompRules m

/-! ## Binary encoding

Modelled from the spec: the encoder
(`CrushWrapper::encode`) is not in the source tree; §4.5 fixes the
layout.  The encoding is given as the sequence of 32-bit words (the
byte form is the little-endian rendering of each word, a bijection, so
word-sequence equality is byte equality).  Derived per-kind tables are
functions of the defining bucket data and are omitted: maps with equal
defining data have equal tables. -/

/-- Modelled from the spec: the version magic of §4.5/§6; the concrete
value stands in for the reference constant. -/
def CRUSH_MAGIC : Int := 65536

/-- Name-table entry encoding (§4.5): id, length, bytes. -/
def encodeName (p : Int × String) : List Int :=
  [p.1, (p.2.length : Int)] ++ p.2.data.map fun c => (c.toNat : Int)

/-- Name-table encoding (§4.5): count, entries. -/
def encodeNames (l : List (Int × String)) : List Int :=
  (l.length : Int) :: (l.map encodeName).join

/-- Bucket-slot encoding (§4.5): present flag, then kind, type, total
weight, size, children, weights. -/
def encodeBucket : Option CBucket → List Int
  | none => [0]
  | some b => [1, b.alg, b.type, b.weights.sum, b.size] ++ b.items ++ b.weights

/-- Rule-step encoding (§4.5): op, arg1, arg2. -/
def encodeStep (st : CStep) : List Int :=
  [match st.op with
    | .noop => 0 | .take => 1 | .chooseFirstn => 2 | .chooseIndep => 3
    | .chooseLeafFirstn => 6 | .chooseLeafIndep => 7 | .emit => 4,
    st.arg1, st.arg2]

/-- Rule-slot encoding (§4.5). -/
def encodeRule (r : CRule) : List Int :=
  [1, r.len, r.pool, r.ptype, r.minSize, r.maxSize] ++ (r.steps.map encodeStep).join

/-- Whole-map encoding (§4.5). -/
def encode (m : CrushMap) : List Int :=
  [CRUSH_MAGIC, (m.buckets.length : Int), (m.rules.length : Int), m.max_devices]
    ++ (m.buckets.map encodeBucket).join
    ++ (m.rules.map encodeRule).join
    ++ m.offload
    ++ encodeNames m.type_names ++ encodeNames m.item_names ++ encodeNames m.rule_names

/-- Counterexample file for the round trip: one device, the two types,
and a straw bucket whose item weight `0.0001` becomes the fixed-point
value 6. -/
def c1decls : List Decl :=
  [.dev ⟨0, "osd0", none⟩, .typ ⟨0, "device"⟩, .typ ⟨1, "host"⟩,
    .buck ⟨"host", "h1", some (-1), "straw", [⟨"osd0", some (1/10000), none⟩]⟩]

/-- The map `c1decls` compiles to: the item weight is stored as 6. -/
def c1m0 : CrushMap :=
  ⟨1, [0], [some ⟨-1, 4, 1, 1, [0], [6]⟩], [], [(0, "device"), (1, "host")],
    [(-1, "h1"), (0, "osd0")], []⟩

/-- The map the decompiled text recompiles to: the weight printed as
`0.000` came back as 0. -/
def c1m1 : CrushMap :=
  ⟨1, [0], [some ⟨-1, 4, 1, 1, [0], [0]⟩], [], [(0, "device"), (1, "host")],
    [(-1, "h1"), (0, "osd0")], []⟩

/-- A small canonical map for the round-trip witness: one device with
no offload, the two types, and one straw bucket holding the device at
weight `1.0` (fixed 65536, exact at three decimals). -/
def c1wm : CrushMap :=
  ⟨1, [0], [some ⟨-1, 4, 1, 1, [0], [65536]⟩], [], [(0, "device"), (1, "host")],
    [(-1, "h1"), (0, "osd0")], []⟩

/-- Left fold of `mput` over a list of bindings. -/
def mputs (l : List (Int × String)) (t : List (Int × String)) : List (Int × String) :=
  l.foldl (fun acc p => mput p.1 p.2 acc) t

/-- The `(name, id)` bindings the first `k` device lines put into
`item_id`, newest first. -/
def devItemId (m : CrushMap) (k : Nat) : List (String × Int) :=
  ((List.range k).map fun (i : Nat) =>
    (print_item_name m (i : Int), (i : Int))).reverse

/-- The `device_offload` bindings of the first `k` device lines, newest
first. -/
def devOffGlobal (m : CrushMap) (k : Nat) : List (Int × Int) :=
  ((List.range k).filterMap fun (i : Nat) =>
    if m.get_device_offload (i : Int) ≠ 0
    then some ((i : Int), m.get_device_offload (i : Int)) else none).reverse

/-- The name-table bindings of the first `k` device lines, in id
order. -/
def devEntries (m : CrushMap) (k : Nat) : List (Int × String) :=
  (List.range k).map fun (i : Nat) => ((i : Int), print_item_name m (i : Int))

/-- The item name registry rebuilt by the first `k` device lines. -/
def devNames (m : CrushMap) (k : Nat) : List (Int × String) :=
  mputs (devEntries m k) []

/-- The `(name, id)` bindings of the bucket blocks at table indices
below `idx`, newest first. -/
def buckItemId (m : CrushMap) (idx : Nat) : List (String × Int) :=
  ((List.range idx).filterMap fun (i : Nat) =>
    if m.buckets.getD i none ≠ none
    then some (print_item_name m (-1 - (i : Int)), -1 - (i : Int)) else none).reverse

/-- The name-table bindings of the bucket blocks below `idx`, in table
order. -/
def buckEntries (m : CrushMap) (idx : Nat) : List (Int × String) :=
  (List.range idx).filterMap fun (i : Nat) =>
    if m.buckets.getD i none ≠ none
    then some (-1 - (i : Int), print_item_name m (-1 - (i : Int))) else none

/-- The item name registry after the device lines and the bucket blocks
below `idx`. -/
def inTbl (m : CrushMap) (idx : Nat) : List (Int × String) :=
  mputs (buckEntries m idx) (devNames m m.max_devices.toNat)

/-- The `type_id` registry the type lines rebuild, newest first. -/
def typeIdList (m : CrushMap) : List (String × Int) :=
  (m.type_names.map fun p => (p.2, p.1)).reverse

/-- The `rule_id` bindings of the first `i` rule blocks, newest
first. -/
def ruleIdUpTo (m : CrushMap) (i : Nat) : List (String × Int) :=
  ((List.range i).filterMap fun (j : Nat) =>
    (m.rule_names.lookup (j : Int)).map fun n => (n, (j : Int))).reverse

/-- The rule name table rebuilt by the first `i` rule blocks. -/
def rnUpTo (m : CrushMap) (i : Nat) : List (Int × String) :=
  (List.range i).filterMap fun (j : Nat) =>
    (m.rule_names.lookup (j : Int)).map fun n => ((j : Int), n)

/-- The compiler state while the bucket blocks of a decompiled map are
re-parsed: blocks below `idx` done, the bucket table filled through
slot `k` (trailing absent slots are not yet materialised); `ii` and
`iw` stand for the `id_item` and `item_weight` tables, which the
re-parse writes but never reads. -/
def buckState (m : CrushMap) (idx k : Nat) (ii : List (Int × String))
    (iw : List (Int × ℚ)) : CState :=
  ⟨buckItemId m idx ++ devItemId m m.max_devices.toNat, ii, iw,
    devOffGlobal m m.max_devices.toNat, typeIdList m, [],
    ⟨m.max_devices, List.replicate m.max_devices.toNat 0, m.buckets.take k, [],
      m.type_names, inTbl m idx, []⟩⟩

/-- The compiler state while the rule blocks of a decompiled map are
re-parsed: blocks below `i` done. -/
def ruleState (m : CrushMap) (i : Nat) (ii : List (Int × String))
    (iw : List (Int × ℚ)) : CState :=
  ⟨buckItemId m m.buckets.length ++ devItemId m m.max_devices.toNat, ii, iw,
    devOffGlobal m m.max_devices.toNat, typeIdList m, ruleIdUpTo m i,
    ⟨m.max_devices, List.replicate m.max_devices.toNat 0, m.buckets,
      m.rules.take i, m.type_names, m.item_names, rnUpTo m i⟩⟩

/-- A map is in the image of the compiler and round-trip safe: device
slots dense and named, every fixed-point value exact at three decimals,
name tables sorted with distinct values, buckets of the list or straw
kind with positive exact weights and children declared earlier (larger
id), rules with compiled step shapes.  Uniform and tree buckets are
excluded: their per-kind item storage lives in the crush core, outside
src/. -/
structure Canonical (m : CrushMap) : Prop where
  max_nonneg : 0 ≤ m.max_devices
  off_len : m.offload.length = m.max_devices.toNat
  off_ok : ∀ v ∈ m.offload, 0 ≤ v ∧ v ≤ 65536 ∧ to_fixed (print_fixed v) = v
  inames_sorted : m.item_names.Chain' fun p q => p.1 < q.1
  inames_vals : (m.item_names.map Prod.snd).Nodup
  inames_keys : ∀ p ∈ m.item_names, (0 ≤ p.1 ∧ p.1 < m.max_devices) ∨
    (p.1 < 0 ∧ (-1 - p.1).toNat < m.buckets.length ∧
      m.buckets.getD (-1 - p.1).toNat none ≠ none)
  dev_named : ∀ i : Nat, i < m.max_devices.toNat →
    ((i : Int) ∈ m.item_names.map Prod.fst)
  buck_named : ∀ idx : Nat, idx < m.buckets.length →
    m.buckets.getD idx none ≠ none → ((-1 - (idx : Int)) ∈ m.item_names.map Prod.fst)
  tnames_sorted : m.type_names.Chain' fun p q => p.1 < q.1
  tnames_vals : (m.type_names.map Prod.snd).Nodup
  tnames_keys : ∀ p ∈ m.type_names, 0 ≤ p.1
  type0 : (m.type_names.lookup 0).isSome
  last_present : m.buckets = [] ∨ m.buckets.getD (m.buckets.length - 1) none ≠ none
  buckets_ok : ∀ (idx : Nat) (bk : CBucket), m.buckets.getD idx none = some bk →
    bk.id = -1 - (idx : Int) ∧ (bk.alg = 2 ∨ bk.alg = 4) ∧
    (bk.type ∈ m.type_names.map Prod.fst) ∧
    bk.size = (bk.items.length : Int) ∧ bk.weights.length = bk.items.length ∧
    (∀ w ∈ bk.weights, 0 < w ∧ to_fixed (print_fixed w) = w) ∧
    (∀ c ∈ bk.items, (0 ≤ c ∧ c < m.max_devices) ∨
      (c < 0 ∧ (-1 - c).toNat < idx ∧ m.buckets.getD (-1 - c).toNat none ≠ none))
  rules_ok : ∀ r ∈ m.rules, (r.ptype = 1 ∨ r.ptype = 2) ∧
    r.len = (r.steps.length : Int) ∧
    ∀ st ∈ r.steps,
      (st.op = .take → (st.arg1 ∈ m.item_names.map Prod.fst) ∧ st.arg2 = 0) ∧
      (st.op = .emit → st.arg1 = 0 ∧ st.arg2 = 0) ∧
      st.op ≠ .noop ∧
      ((st.op = .chooseFirstn ∨ st.op = .chooseIndep ∨ st.op = .chooseLeafFirstn ∨
        st.op = .chooseLeafIndep) → st.arg2 ∈ m.type_names.map Prod.fst)
  rnames_sorted : m.rule_names.Chain' fun p q => p.1 < q.1
  rnames_vals : (m.rule_names.map Prod.snd).Nodup
  rnames_keys : ∀ p ∈ m.rule_names, 0 ≤ p.1 ∧ p.1 < (m.rules.length : Int) ∧ p.2 ≠ ""

/-! ## Theorems -/

theorem parseArgs_append : ∀ (n : Nat) (pre : List String), pre.length ≤ n →
    ∀ (o o' : Opts), parseArgs pre o = some (.done o') →
    ∀ suf, parseArgs (pre ++ suf) o = parseArgs suf o' := by
  intro n
  induction n with
  | zero =>
    intro pre hlen o o' h suf
    have : pre = [] := List.eq_nil_of_length_eq_zero (Nat.le_zero.mp hlen)
    subst this
    simp only [parseArgs, Option.some.injEq, ArgsRes.done.injEq] at h
    subst h
    simp
  | succ n ih =>
    intro pre hlen o o' h suf
    match pre with
    | [] =>
      simp only [parseArgs, Option.some.injEq, ArgsRes.done.injEq] at h
      subst h
      simp
    | a :: rest =>
      simp only [List.cons_append]
      rw [parseArgs.eq_def] at h ⊢
      dsimp only at h ⊢
      by_cases h1 : a = "--clobber"
      · rw [if_pos h1] at h ⊢
        exact ih rest (Nat.le_of_succ_le_succ hlen) _ _ h suf
      · rw [if_neg h1] at h ⊢
        by_cases h2 : a = "-d"
        · rw [if_pos h2] at h ⊢
          match rest with
          | [] => exact absurd h (by simp)
          | v :: rest2 =>
            simp only at h ⊢
            exact ih rest2 (by simp at hlen; omega) _ _ h suf
        · rw [if_neg h2] at h ⊢
          by_cases h3 : a = "-o"
          · rw [if_pos h3] at h ⊢
            match rest with
            | [] => exact absurd h (by simp)
            | v :: rest2 =>
              simp only at h ⊢
              exact ih rest2 (by simp at hlen; omega) _ _ h suf
          · rw [if_neg h3] at h ⊢
            by_cases h4 : a = "-c"
            · rw [if_pos h4] at h ⊢
              match rest with
              | [] => exact absurd h (by simp)
              | v :: rest2 =>
                simp only at h ⊢
                exact ih rest2 (by simp at hlen; omega) _ _ h suf
            · rw [if_neg h4] at h ⊢
              by_cases h5 : a = "-v"
              · rw [if_pos h5] at h ⊢
                exact ih rest (Nat.le_of_succ_le_succ hlen) _ _ h suf
              · rw [if_neg h5] at h ⊢
                exact absurd h (by simp)

theorem stripClobber_update (o : Opts) (b : Bool) :
    stripClobber { o with clobber := b } = stripClobber o := rfl

theorem parseArgs_strip : ∀ (n : Nat) (args : List String), args.length ≤ n →
    ∀ (o₁ o₂ : Opts), stripClobber o₁ = stripClobber o₂ →
    stripRes (parseArgs args o₁) = stripRes (parseArgs args o₂) := by
  intro n
  induction n with
  | zero =>
    intro args hlen o₁ o₂ h
    have : args = [] := List.eq_nil_of_length_eq_zero (Nat.le_zero.mp hlen)
    subst this
    simp only [parseArgs, stripRes, h]
  | succ n ih =>
    intro args hlen o₁ o₂ h
    match args with
    | [] => simp only [parseArgs, stripRes, h]
    | a :: rest =>
      rw [parseArgs.eq_def, parseArgs.eq_def]
      dsimp only
      have hfields : o₁.cinfn = o₂.cinfn ∧ o₁.dinfn = o₂.dinfn ∧ o₁.outfn = o₂.outfn ∧
          o₁.verbose = o₂.verbose := by
        cases o₁; cases o₂
        simp only [stripClobber, Opts.mk.injEq] at h
        simp_all
      by_cases h1 : a = "--clobber"
      · rw [if_pos h1, if_pos h1]
        exact ih rest (Nat.le_of_succ_le_succ hlen) _ _ (by
          rw [stripClobber_update, stripClobber_update]; exact h)
      · rw [if_neg h1, if_neg h1]
        by_cases h2 : a = "-d"
        · rw [if_pos h2, if_pos h2]
          match rest with
          | [] => rfl
          | v :: rest2 =>
            simp only
            refine ih rest2 (by simp at hlen; omega) _ _ ?_
            cases o₁; cases o₂
            simp only [stripClobber, Opts.mk.injEq] at h ⊢
            simp_all
        · rw [if_neg h2, if_neg h2]
          by_cases h3 : a = "-o"
          · rw [if_pos h3, if_pos h3]
            match rest with
            | [] => rfl
            | v :: rest2 =>
              simp only
              refine ih rest2 (by simp at hlen; omega) _ _ ?_
              cases o₁; cases o₂
              simp only [stripClobber, Opts.mk.injEq] at h ⊢
              simp_all
          · rw [if_neg h3, if_neg h3]
            by_cases h4 : a = "-c"
            · rw [if_pos h4, if_pos h4]
              match rest with
              | [] => rfl
              | v :: rest2 =>
                simp only
                refine ih rest2 (by simp at hlen; omega) _ _ ?_
                cases o₁; cases o₂
                simp only [stripClobber, Opts.mk.injEq] at h ⊢
                simp_all
            · rw [if_neg h4, if_neg h4]
              by_cases h5 : a = "-v"
              · rw [if_pos h5, if_pos h5]
                refine ih rest (Nat.le_of_succ_le_succ hlen) _ _ ?_
                cases o₁; cases o₂
                simp only [stripClobber, Opts.mk.injEq] at h ⊢
                simp_all
              · rw [if_neg h5, if_neg h5]

/-- C2 (code bug): with `-c in.txt -o out.bin` on a text file that
fails to parse, the tool prints the parse error to stderr but then
exits with status 0 and writes the output file anyway, because `main`
(line 726) tests `r < 0` while a parse error makes `compile_crush_file`
return `1` (line 458).  Without `-o` it even prints the "successfully
compiled" message to stdout after reporting the parse error.  The claim
(exit 1 on any error) states the evident intent; the code contradicts
its own error report. -/
theorem c2_parse_error_exits_zero :
    runArgs ["-c", "in.txt", "-o", "out.bin"]
        ⟨fun _ => .parseError 3 "bad line", fun _ => true, fun _ => true, fun _ => true⟩ =
      ⟨0, [], [.parseErr "in.txt" 3 "bad line"], [.wroteBinary "out.bin"]⟩ ∧
    runArgs ["-c", "in.txt"]
        ⟨fun _ => .parseError 3 "bad line", fun _ => true, fun _ => true, fun _ => true⟩ =
      ⟨0, [.successMsg "in.txt"], [.parseErr "in.txt" 3 "bad line"], []⟩ := by
  constructor <;> rfl

/-- C3: giving both `-c` and `-d`, or neither, makes `main` print the
usage text and exit 1 without compiling, decompiling, or writing
anything (lines 686-689); `-c` without `-o` never writes an output file
and, when the compile succeeds, performs exactly the validation compile
(lines 739-741); `-d` without `-o` writes the decompiled text to
standard output (line 719). -/
theorem c3_flag_modes (o : Opts) (w : World) :
    ((o.cinfn.isSome ∧ o.dinfn.isSome) ∨ (o.cinfn.isNone ∧ o.dinfn.isNone) →
        runMain o w = usageOutcome) ∧
    (∀ f, o.cinfn = some f → o.outfn = none →
        noWrites (runMain o w).acts ∧
        (o.dinfn = none → w.compileOutcome f = .ok →
          (runMain o w).acts = [.compiled f])) ∧
    (∀ f, o.dinfn = some f → o.cinfn = none → o.outfn = none → w.readOk f = true →
        (runMain o w).stdout = [.decompileText] ∧
        (runMain o w).acts = [.decompiled f] ∧ noWrites (runMain o w).acts) := by
  refine ⟨?_, ?_, ?_⟩
  · rintro (⟨h1, h2⟩ | ⟨h1, h2⟩)
    · rw [runMain, if_pos ⟨h1, h2⟩]
    · rw [runMain, if_neg (by simp [Option.isNone_iff_eq_none] at h1; simp [h1]),
        if_pos ⟨h1, h2⟩]
  · intro f hc ho
    match hd : o.dinfn with
    | some g =>
      rw [runMain, if_pos ⟨by simp [hc], by simp [hd]⟩]
      exact ⟨fun g => by simp [usageOutcome, noWrites], fun h _ => by simp_all⟩
    | none =>
      rw [runMain, if_neg (by simp [hd]), if_neg (by simp [hc])]
      simp only [hd, hc]
      constructor
      · intro g
        rw [runCompile]
        cases hw : w.compileOutcome f <;>
          simp [compileRet, ho, hw]
      · intro _ hok
        rw [runCompile]
        simp [compileRet, ho, hok]
  · intro f hd hc ho hr
    have hrun : runMain o w = ⟨0, [.decompileText], [], [.decompiled f]⟩ := by
      rw [runMain, if_neg (by simp [hc]), if_neg (by simp [hd])]
      simp only [hd]
      rw [runDecompile.eq_def]
      simp [hr, ho]
    rw [hrun]
    exact ⟨rfl, rfl, fun g => by simp [noWrites]⟩

/-- C3 witness: the three modes at concrete inputs. -/
theorem c3_flag_modes_witness :
    runMain ⟨some "a", some "b", none, false, 0⟩ wAllOk = usageOutcome ∧
    noWrites (runMain ⟨some "a", none, none, false, 0⟩ wAllOk).acts ∧
    (runMain ⟨none, some "b", none, false, 0⟩ wAllOk).stdout = [.decompileText] :=
  ⟨(c3_flag_modes ⟨some "a", some "b", none, false, 0⟩ wAllOk).1 (Or.inl ⟨rfl, rfl⟩),
    ((c3_flag_modes ⟨some "a", none, none, false, 0⟩ wAllOk).2.1 "a" rfl rfl).1,
    ((c3_flag_modes ⟨none, some "b", none, false, 0⟩ wAllOk).2.2 "b" rfl rfl rfl rfl).1⟩

theorem runMain_strip (o₁ o₂ : Opts) (w : World)
    (h : stripClobber o₁ = stripClobber o₂) : runMain o₁ w = runMain o₂ w := by
  cases o₁; cases o₂
  simp only [stripClobber, Opts.mk.injEq] at h
  obtain ⟨h1, h2, h3, -, h4⟩ := h
  subst h1; subst h2; subst h3; subst h4
  rfl

/-- C9: inserting the `--clobber` flag at any flag position of the
argument vector changes nothing observable: the flag is recorded by the
argument loop (line 673-674) but never read again — output files are
opened with `ios::trunc` (line 711) or rewritten by `write_file`
unconditionally — so the same files are written, the same text is
printed on both streams, and the exit status is the same.  The
hypothesis restricts to insertion points where `--clobber` is parsed as
a flag rather than consumed as the filename argument of a preceding
`-c`/`-d`/`-o`. -/
theorem c9_clobber_noop (pre suf : List String) (o : Opts) (w : World)
    (h : parseArgs pre initOpts = some (.done o)) :
    runArgs (pre ++ "--clobber" :: suf) w = runArgs (pre ++ suf) w := by
  unfold runArgs
  rw [parseArgs_append pre.length pre le_rfl _ _ h ("--clobber" :: suf),
    parseArgs_append pre.length pre le_rfl _ _ h suf]
  have hstep : parseArgs ("--clobber" :: suf) o = parseArgs suf { o with clobber := true } := by
    rw [parseArgs.eq_def]
    simp
  rw [hstep]
  have hs := parseArgs_strip suf.length suf le_rfl { o with clobber := true } o
    (stripClobber_update o true)
  match h1 : parseArgs suf { o with clobber := true }, h2 : parseArgs suf o with
  | none, none => rfl
  | none, some r => rw [h1, h2] at hs; cases r <;> simp [stripRes] at hs
  | some r, none => rw [h1, h2] at hs; cases r <;> simp [stripRes] at hs
  | some .usage, some .usage => rfl
  | some .usage, some (.done b) => rw [h1, h2] at hs; simp [stripRes] at hs
  | some (.done b), some .usage => rw [h1, h2] at hs; simp [stripRes] at hs
  | some (.done a), some (.done b) =>
    rw [h1, h2] at hs
    simp only [stripRes, Option.some.injEq, ArgsRes.done.injEq] at hs
    exact runMain_strip a b w hs

/-- C9 witness: a concrete insertion of `--clobber`. -/
theorem c9_clobber_noop_witness :
    runArgs ["-c", "f", "--clobber"] wAllOk = runArgs ["-c", "f"] wAllOk :=
  c9_clobber_noop ["-c", "f"] [] ⟨some "f", none, none, false, 0⟩ wAllOk rfl

/-- C7 counterexample: the decimal `0.1` as a device offload is stored
as `⌊0.1 · 65536⌋ = 6553`, not `round(0.1 · 65536) = 6554`: the
conversion of line 108 (and line 228 for weights) is the truncating C
cast `(unsigned)(x * 0x10000)`, not rounding.  (In the source the
product is computed on `float`s; `0.1f · 65536 ≈ 6553.60009`, so float
and exact-rational truncation agree here.) -/
theorem c7_trunc_cx :
    (compile [.dev ⟨0, "osd0", some (.offl (1/10))⟩]).map (fun s => s.crush.offload) =
      .ok [6553] ∧
    round ((1/10 : ℚ) * 65536) = 6554 ∧ (6553 : Int) ≠ 6554 := by
  refine ⟨by decide, by decide, by decide⟩

/-- C7 amended: the compiler converts a decimal weight or offload `x`
to fixed point by truncation, `to_fixed x = ⌊x · 65536⌋`; this agrees
with the claimed `round(x · 65536)` exactly when the fractional part of
`x · 65536` is below one half. -/
theorem c7_trunc_amended (x : ℚ) (h0 : 0 ≤ x) :
    to_fixed x = round (x * 65536) ↔ Int.fract (x * 65536) < 1 / 2 := by
  clear h0
  rw [to_fixed, round_eq]
  have hsplit : x * 65536 + 1 / 2 = (⌊x * 65536⌋ : ℚ) + (Int.fract (x * 65536) + 1 / 2) := by
    rw [← add_assoc, Int.floor_add_fract]
  rw [hsplit, Int.floor_int_add]
  constructor
  · intro h
    have h0' : ⌊Int.fract (x * 65536) + 1 / 2⌋ = 0 := by omega
    have := Int.floor_eq_zero_iff.mp h0'
    rw [Set.mem_Ico] at this
    linarith [this.2]
  · intro h
    have h0' : ⌊Int.fract (x * 65536) + 1 / 2⌋ = 0 := by
      rw [Int.floor_eq_zero_iff, Set.mem_Ico]
      constructor
      · linarith [Int.fract_nonneg (x * 65536)]
      · linarith
    omega

/-- C7 witness: at `x = 1/4` the fractional part of `x · 65536` is `0`,
below one half, and truncation indeed agrees with rounding. -/
theorem c7_trunc_amended_witness :
    (0 : ℚ) ≤ 1 / 4 ∧
      (to_fixed (1 / 4) = round ((1 / 4 : ℚ) * 65536) ↔
        Int.fract ((1 / 4 : ℚ) * 65536) < 1 / 2) :=
  ⟨by norm_num, c7_trunc_amended (1 / 4) (by norm_num)⟩

/-- C5 counterexample: a file declaring the type name `host` twice
compiles successfully — `parse_bucket_type` (lines 116-123) performs no
duplicate check at all, and the later binding silently wins in
`type_id`. -/
theorem c5_dup_type_cx :
    compileOk (compile [.typ ⟨1, "host"⟩, .typ ⟨2, "host"⟩]) = true ∧
    (compile [.typ ⟨1, "host"⟩, .typ ⟨2, "host"⟩]).map (fun s => s.type_id.lookup "host") =
      .ok (some 2) := by
  refine ⟨by decide, by decide⟩

/-- C5 amended: duplicate names are rejected at compile time for
devices (lines 81-84), buckets (lines 135-138) and named rules
(lines 253-256), but a duplicate type name is silently accepted by
`parse_bucket_type` (lines 116-123), the later binding overwriting the
earlier one. -/
theorem c5_dup_names_amended :
    (∀ d s, (s.item_id.lookup d.name).isSome →
        parse_device d s = .error (.dupItem d.name)) ∧
    (∀ b s, (s.type_id.lookup b.btype).isSome → (s.item_id.lookup b.name).isSome →
        parse_bucket b s = .error (.dupBucket b.name)) ∧
    (∀ r s n, r.rname = some n → (s.rule_id.lookup n).isSome →
        parse_rule r s = .error (.dupRule n)) ∧
    (∀ t1 t2 s, parse_one s (.typ t1) = .ok (parse_bucket_type t1 s) ∧
        parse_one (parse_bucket_type t1 s) (.typ t2) =
          .ok (parse_bucket_type t2 (parse_bucket_type t1 s))) := by
  refine ⟨?_, ?_, ?_, ?_⟩
  · intro d s h
    rw [parse_device]
    simp only [h]
    rfl
  · intro b s h1 h2
    obtain ⟨ty, hty⟩ := Option.isSome_iff_exists.mp h1
    rw [parse_bucket, hty]
    simp only [h2]
    rfl
  · intro r s n hn h
    rw [parse_rule, hn]
    simp only [h]
    rfl
  · intro t1 t2 s
    exact ⟨rfl, rfl⟩

/-- C5 witness: the rejections and the type acceptance at concrete
inputs. -/
theorem c5_dup_names_amended_witness :
    parse_device ⟨1, "osd0", none⟩
        { initState with item_id := [("osd0", 0)] } = .error (.dupItem "osd0") ∧
    parse_bucket ⟨"host", "osd0", none, "straw", []⟩
        { initState with item_id := [("osd0", 0)], type_id := [("host", 1)] } =
      .error (.dupBucket "osd0") ∧
    parse_rule ⟨some "data", 0, .replicated, 1, 10, []⟩
        { initState with rule_id := [("data", 0)] } = .error (.dupRule "data") ∧
    parse_one initState (.typ ⟨1, "host"⟩) = .ok (parse_bucket_type ⟨1, "host"⟩ initState) :=
  ⟨c5_dup_names_amended.1 ⟨1, "osd0", none⟩ _ rfl,
    c5_dup_names_amended.2.1 ⟨"host", "osd0", none, "straw", []⟩ _ rfl rfl,
    c5_dup_names_amended.2.2.1 ⟨some "data", 0, .replicated, 1, 10, []⟩ _ "data" rfl rfl,
    (c5_dup_names_amended.2.2.2 ⟨1, "host"⟩ ⟨1, "host"⟩ initState).1⟩

/-- C6: for a device declaration with a fresh name and a status tag,
`parse_device` (lines 90-107) fails exactly when the offload value the
tag denotes (`offload v` is `v`, `load x` is `1 - x`, `down` is `1`)
lies outside `[0, 1]`. -/
theorem c6_offload_range (d : DeviceDecl) (t : DevTag) (s : CState)
    (hfresh : s.item_id.lookup d.name = none) (htag : d.tag = some t) :
    (∃ e, parse_device d s = .error e) ↔
      (devOffloadVal t < 0 ∨ 1 < devOffloadVal t) := by
  rw [parse_device]
  simp only [hfresh, htag, Option.isSome_none, Bool.false_eq_true, if_false]
  by_cases h : devOffloadVal t < 0 ∨ devOffloadVal t > 1
  · rw [if_pos h]
    exact ⟨fun _ => h, fun _ => ⟨_, rfl⟩⟩
  · rw [if_neg h]
    push_neg at h
    constructor
    · rintro ⟨e, he⟩
      exact absurd he (by simp)
    · intro hc
      rcases hc with hc | hc
      · exact absurd hc (by linarith [h.1])
      · exact absurd hc (by linarith [h.2])

/-- C6 witness: `down` denotes offload 1, inside the range, and is
accepted; the equivalence instantiates to two false sides. -/
theorem c6_offload_range_witness :
    (∃ e, parse_device ⟨0, "osd0", some .down⟩ initState = .error e) ↔
      (devOffloadVal .down < 0 ∨ 1 < devOffloadVal .down) :=
  c6_offload_range ⟨0, "osd0", some .down⟩ .down initState rfl rfl

/-- C4 counterexample: compiling a file that declares `osd0` twice
stops with the message `item osd0 defined twice` (line 82), which
contains no colon at all, hence is not of the form
`<file>:<line>: <message>` for any file name and line. -/
theorem c4_bare_message_cx :
    compile [.dev ⟨0, "osd0", none⟩, .dev ⟨1, "osd0", none⟩] = .error (.dupItem "osd0") ∧
    render (.dupItem "osd0") = "item osd0 defined twice" ∧
    ':' ∉ (render (.dupItem "osd0")).data ∧
    ¬ ∃ fl rest : String, render (.dupItem "osd0") = fl ++ ":" ++ rest := by
  refine ⟨by decide, rfl, by decide, ?_⟩
  rintro ⟨fl, rest, h⟩
  have hmem : ':' ∈ (render (.dupItem "osd0")).data := by
    rw [h, String.data_append, String.data_append]
    exact List.mem_append.mpr (Or.inl (List.mem_append.mpr (Or.inr (by decide))))
  exact absurd hmem (by decide)

/-- C4 amended: only the syntactic parse error is position-qualified —
`compile_crush_file` (lines 456-457) prints
`<file>:<line> error: parse error at '<text>'` (with no colon after the
line number) — while every semantic failure (undefined item, duplicate
name, bad algorithm name, illegal offload, occupied explicit pos, ...)
prints a bare message that names the construct but contains no colon,
hence no `<file>:<line>:` prefix, provided the user-chosen names it
embeds are colon-free. -/
theorem c4_message_forms_amended :
    (∀ f l t, (parseErrMsg f l t).data =
      f.data ++ [':'] ++ (toString l).data ++
        (" error: parse error at '" ++ t ++ "'").data) ∧
    (∀ e : CErr, e ≠ .grammarReject → (∀ x ∈ renderArgs e, colonFree x) →
      ':' ∉ (render e).data) := by
  constructor
  · intro f l t
    simp only [parseErrMsg, String.data_append, List.append_assoc]
  · intro e hne hargs
    cases e with
    | grammarReject => exact absurd rfl hne
    | dupItem n =>
      have h1 := hargs n (by simp [renderArgs])
      simp only [render, String.data_append, List.mem_append] at *
      rintro ((h | h) | h)
      · exact absurd h (by decide)
      · exact h1 h
      · exact absurd h (by decide)
    | badBucketType t =>
      have h1 := hargs t (by simp [renderArgs])
      simp only [render, String.data_append, List.mem_append] at *
      rintro ((h | h) | h)
      · exact absurd h (by decide)
      · exact h1 h
      · exact absurd h (by decide)
    | dupBucket n =>
      have h1 := hargs n (by simp [renderArgs])
      simp only [render, String.data_append, List.mem_append] at *
      rintro ((h | h) | h)
      · exact absurd h (by decide)
      · exact h1 h
      · exact absurd h (by decide)
    | badAlg a =>
      have h1 := hargs a (by simp [renderArgs])
      simp only [render, String.data_append, List.mem_append] at *
      rintro ((h | h) | h)
      · exact absurd h (by decide)
      · exact h1 h
      · exact absurd h (by decide)
    | dupRule n =>
      have h1 := hargs n (by simp [renderArgs])
      simp only [render, String.data_append, List.mem_append] at *
      rintro ((h | h) | h)
      · exact absurd h (by decide)
      · exact h1 h
      · exact absurd h (by decide)
    | illegalOffload off id n =>
      have h1 := hargs (toString off) (by simp [renderArgs])
      have h2 := hargs (toString id) (by simp [renderArgs])
      have h3 := hargs n (by simp [renderArgs])
      simp only [render, String.data_append, List.mem_append] at *
      rintro ((((((h | h) | h) | h) | h) | h) | h)
      · exact absurd h (by decide)
      · exact h1 h
      · exact absurd h (by decide)
      · exact h2 h
      · exact absurd h (by decide)
      · exact h3 h
      · exact absurd h (by decide)
    | occupiedPos item bname p =>
      have h1 := hargs item (by simp [renderArgs])
      have h2 := hargs bname (by simp [renderArgs])
      have h3 := hargs (toString p) (by simp [renderArgs])
      simp only [render, String.data_append, List.mem_append] at *
      rintro ((((((h | h) | h) | h) | h) | h) | h)
      · exact absurd h (by decide)
      · exact h1 h
      · exact absurd h (by decide)
      · exact h2 h
      · exact absurd h (by decide)
      · exact h3 h
      · exact absurd h (by decide)
    | undefItem item bname =>
      have h1 := hargs item (by simp [renderArgs])
      have h2 := hargs bname (by simp [renderArgs])
      simp only [render, String.data_append, List.mem_append] at *
      rintro ((((h | h) | h) | h) | h)
      · exact absurd h (by decide)
      · exact h1 h
      · exact absurd h (by decide)
      · exact h2 h
      · exact absurd h (by decide)
    | posTooBig item bname p sz =>
      have h1 := hargs item (by simp [renderArgs])
      have h2 := hargs bname (by simp [renderArgs])
      have h3 := hargs (toString p) (by simp [renderArgs])
      have h4 := hargs (toString sz) (by simp [renderArgs])
      simp only [render, String.data_append, List.mem_append] at *
      rintro (((((((h | h) | h) | h) | h) | h) | h) | h)
      · exact absurd h (by decide)
      · exact h1 h
      · exact absurd h (by decide)
      · exact h2 h
      · exact absurd h (by decide)
      · exact h3 h
      · exact absurd h (by decide)
      · exact h4 h
    | undefRuleItem rname item =>
      have h1 := hargs rname (by simp [renderArgs])
      have h2 := hargs item (by simp [renderArgs])
      simp only [render, String.data_append, List.mem_append] at *
      rintro ((((h | h) | h) | h) | h)
      · exact absurd h (by decide)
      · exact h1 h
      · exact absurd h (by decide)
      · exact h2 h
      · exact absurd h (by decide)
    | undefRuleType rname t =>
      have h1 := hargs rname (by simp [renderArgs])
      have h2 := hargs t (by simp [renderArgs])
      simp only [render, String.data_append, List.mem_append] at *
      rintro ((((h | h) | h) | h) | h)
      · exact absurd h (by decide)
      · exact h1 h
      · exact absurd h (by decide)
      · exact h2 h
      · exact absurd h (by decide)

theorem skipUsed_nil (c : Int) : skipUsed [] c = c := rfl

theorem set_append_len : ∀ (l1 l2 : List Int) (x v : Int),
    (l1 ++ x :: l2).set l1.length v = l1 ++ v :: l2 := by
  intro l1
  induction l1 with
  | nil => intro l2 x v; rfl
  | cons a l1 ih =>
    intro l2 x v
    simp only [List.cons_append, List.length_cons, List.set]
    rw [List.append_eq, ih]

theorem placeItems_bw (s : CState) (bname : String) (size : Int) (used : List Int) :
    ∀ (its : List ItemDecl) (items weights : List Int) (curpos : Int) (bw : ℚ)
      (out : List Int × List Int × ℚ),
      placeItems s bname size used its items weights curpos bw = .ok out →
      out.2.2 = bw + (its.map (effWName s)).sum := by
  intro its
  induction its with
  | nil =>
    intro items weights curpos bw out h
    simp only [placeItems, Except.ok.injEq] at h
    subst h
    simp
  | cons it rest ih =>
    intro items weights curpos bw out h
    rw [placeItems] at h
    cases hlk : s.item_id.lookup it.iname with
    | none => rw [hlk] at h; simp at h
    | some iid =>
      rw [hlk] at h
      simp only at h
      by_cases hpos : it.pos.getD (-1) ≥ size
      · rw [if_pos hpos] at h; simp at h
      · rw [if_neg hpos] at h
        have := ih _ _ _ _ _ h
        rw [this, List.map_cons, List.sum_cons]
        have heff : effWName s it = effW s iid it := by
          rw [effWName, hlk]
        rw [heff]
        ring

theorem placeItems_resolves (s : CState) (bname : String) (size : Int) (used : List Int) :
    ∀ (its : List ItemDecl) (items weights : List Int) (curpos : Int) (bw : ℚ)
      (out : List Int × List Int × ℚ),
      placeItems s bname size used its items weights curpos bw = .ok out →
      ∀ it ∈ its, (s.item_id.lookup it.iname).isSome := by
  intro its
  induction its with
  | nil => intro _ _ _ _ _ _ it hit; exact absurd hit (List.not_mem_nil it)
  | cons it rest ih =>
    intro items weights curpos bw out h x hx
    rw [placeItems] at h
    cases hlk : s.item_id.lookup it.iname with
    | none => rw [hlk] at h; simp at h
    | some iid =>
      rw [hlk] at h
      simp only at h
      by_cases hpos : it.pos.getD (-1) ≥ size
      · rw [if_pos hpos] at h; simp at h
      · rw [if_neg hpos] at h
        rcases List.mem_cons.mp hx with hx | hx
        · subst hx; rw [hlk]; rfl
        · exact ih _ _ _ _ _ h x hx

theorem placeItems_nopos (s : CState) (bname : String) (size : Int) (h0 : 0 ≤ size) :
    ∀ (its : List ItemDecl) (pre preW : List Int) (bw : ℚ),
      preW.length = pre.length →
      (∀ it ∈ its, it.pos = none ∧ (s.item_id.lookup it.iname).isSome) →
      placeItems s bname size [] its (pre ++ List.replicate its.length 0)
          (preW ++ List.replicate its.length 0) (pre.length : Int) bw =
        .ok (pre ++ its.map (resolvedId s),
             preW ++ its.map (fun it => to_fixed (effWName s it)),
             bw + (its.map (effWName s)).sum) := by
  intro its
  induction its with
  | nil =>
    intro pre preW bw _ _
    simp [placeItems]
  | cons it rest ih =>
    intro pre preW bw hw hall
    obtain ⟨hpos, hsome⟩ := hall it (List.mem_cons_self it rest)
    obtain ⟨iid, hlk⟩ := Option.isSome_iff_exists.mp hsome
    rw [List.length_cons, List.replicate_succ, placeItems, hlk]
    simp only [hpos, Option.getD_none]
    rw [if_neg (by omega)]
    simp only [show ((-1 : Int) < 0) = True from by simp, if_true]
    rw [skipUsed_nil]
    have htn : ((pre.length : Int)).toNat = pre.length := Int.toNat_ofNat _
    have hsetW := set_append_len preW (List.replicate rest.length 0) 0
      (to_fixed (effW s iid it))
    rw [hw] at hsetW
    rw [htn, set_append_len, hsetW]
    have heff : effWName s it = effW s iid it := by rw [effWName, hlk]
    have hres : resolvedId s it = iid := by rw [resolvedId, hlk]; rfl
    have hstep := ih (pre ++ [iid]) (preW ++ [to_fixed (effW s iid it)])
      (bw + effW s iid it) (by simp [hw])
      (fun x hx => hall x (List.mem_cons_of_mem it hx))
    rw [List.append_assoc, List.append_assoc] at hstep
    simp only [List.singleton_append, List.length_append, List.length_cons,
      List.length_nil, Nat.add_zero] at hstep
    have hcast : ((pre.length + 1 : Nat) : Int) = (pre.length : Int) + 1 := by
      push_cast; ring
    rw [hcast] at hstep
    rw [hstep]
    simp only [List.map_cons, List.sum_cons, List.append_assoc, List.singleton_append,
      Except.ok.injEq, heff, hres, true_and]
    ring

/-- C10: default item weights in `parse_bucket`.  (i) `parse_device`
never records an `item_weight` entry, so devices have none; (ii)
`parse_bucket` records exactly one new entry: the declared bucket's id
mapped to the sum of the effective weights of its item lines — the
bucket's total weight computed at its declaration (lines 229, 241);
(iii) on an item line with no explicit `weight`, the effective weight
is 1.0 — stored as 65536 fixed — when the named item has no
`item_weight` entry (a device), and the recorded total when it has one
(a previously declared bucket) (lines 204-206); (iv) for a bucket whose
item lines carry no explicit `pos`, the stored weight vector is exactly
the per-item effective weights in 16.16 fixed point. -/
theorem c10_default_weights :
    (∀ d s s', parse_device d s = .ok s' → s'.item_weight = s.item_weight) ∧
    (∀ b s s', parse_bucket b s = .ok s' →
      ∃ id, s'.item_id.lookup b.name = some id ∧
        s'.item_weight = (id, (b.items.map (effWName s)).sum) :: s.item_weight) ∧
    (∀ s it iid, it.weight = none → s.item_id.lookup it.iname = some iid →
      (s.item_weight.lookup iid = none → to_fixed (effW s iid it) = 65536) ∧
      (∀ bw, s.item_weight.lookup iid = some bw → effW s iid it = bw)) ∧
    (∀ b s s', parse_bucket b s = .ok s' →
      (∀ it ∈ b.items, it.pos = none) →
      ∃ id, s'.item_id.lookup b.name = some id ∧
        (s'.crush.buckets.getD (-1 - id).toNat none).map CBucket.weights =
          some (b.items.map (fun it => to_fixed (effWName s it)))) := by
  refine ⟨?_, ?_, ?_, ?_⟩
  · intro d s s' h
    rw [parse_device] at h
    by_cases hdup : (s.item_id.lookup d.name).isSome
    · simp only [hdup, if_pos] at h
      simp at h
    · simp only [hdup, Bool.false_eq_true, if_false] at h
      cases htag : d.tag with
      | none =>
        rw [htag] at h
        simp only [Except.ok.injEq] at h
        subst h
        rw [devMaxStep]
        split <;> rfl
      | some t =>
        rw [htag] at h
        simp only at h
        by_cases hrange : devOffloadVal t < 0 ∨ devOffloadVal t > 1
        · rw [if_pos hrange] at h; simp at h
        · rw [if_neg hrange] at h
          simp only [Except.ok.injEq] at h
          subst h
          rw [devMaxStep]
          split <;> rfl
  · intro b s s' h
    rw [parse_bucket] at h
    cases hty : s.type_id.lookup b.btype with
    | none => rw [hty] at h; simp at h
    | some ty =>
      rw [hty] at h
      by_cases hdup : (s.item_id.lookup b.name).isSome
      · simp only [hdup, if_pos] at h; simp at h
      · simp only [hdup, Bool.false_eq_true, if_false] at h
        cases halg : algCode b.alg with
        | none => rw [halg] at h; simp at h
        | some alg =>
          rw [halg] at h
          cases hscan : scanItems b.name b.items [] 0 with
          | error e => rw [hscan] at h; simp at h
          | ok uc =>
            obtain ⟨used, count⟩ := uc
            rw [hscan] at h
            simp only at h
            cases hplace : placeItems s b.name
                (if used.isEmpty then count else max count (listMax used)) used b.items
                (List.replicate (if used.isEmpty then count
                  else max count (listMax used)).toNat 0)
                (List.replicate (if used.isEmpty then count
                  else max count (listMax used)).toNat 0) 0 0 with
            | error e => rw [hplace] at h; simp at h
            | ok iwb =>
              obtain ⟨ivec, wvec, bwv⟩ := iwb
              rw [hplace] at h
              simp only [Except.ok.injEq] at h
              subst h
              have hbw := placeItems_bw s b.name _ _ _ _ _ _ _ _ hplace
              simp only at hbw
              refine ⟨if b.bid.getD 0 = 0 then probeId s.id_item else b.bid.getD 0,
                by simp [List.lookup], ?_⟩
              rw [hbw]
              simp
  · intro s it iid hw hlk
    constructor
    · intro hnone
      rw [effW, hw, hnone]
      simp only [Option.getD_none, Option.getD_none]
      decide
    · intro bw hsome
      rw [effW, hw, hsome]
      rfl
  · intro b s s' h hnopos
    rw [parse_bucket] at h
    cases hty : s.type_id.lookup b.btype with
    | none => rw [hty] at h; simp at h
    | some ty =>
      rw [hty] at h
      by_cases hdup : (s.item_id.lookup b.name).isSome
      · simp only [hdup, if_pos] at h; simp at h
      · simp only [hdup, Bool.false_eq_true, if_false] at h
        cases halg : algCode b.alg with
        | none => rw [halg] at h; simp at h
        | some alg =>
          rw [halg] at h
          have hscan : scanItems b.name b.items [] 0 =
              .ok ([], (b.items.length : Int)) := by
            have hgen : ∀ (its : List ItemDecl) (n : Int), (∀ it ∈ its, it.pos = none) →
                scanItems b.name its [] n = .ok ([], n + (its.length : Int)) := by
              intro its
              induction its with
              | nil => intro n _; simp [scanItems]
              | cons x xs ih =>
                intro n hall
                rw [scanItems, hall x (List.mem_cons_self x xs)]
                rw [ih (n + 1) (fun y hy => hall y (List.mem_cons_of_mem x hy))]
                simp only [Except.ok.injEq, Prod.mk.injEq, List.length_cons, true_and]
                push_cast
                ring
            have h0 := hgen b.items 0 hnopos
            rw [h0]
            norm_num
          rw [hscan] at h
          simp only [List.isEmpty_nil, if_pos] at h
          rw [Int.toNat_ofNat] at h
          cases hplace : placeItems s b.name (b.items.length : Int) [] b.items
              (List.replicate b.items.length 0) (List.replicate b.items.length 0) 0 0 with
          | error e => rw [hplace] at h; simp at h
          | ok iwb =>
            obtain ⟨ivec, wvec, bwv⟩ := iwb
            have hres := placeItems_resolves s b.name _ _ _ _ _ _ _ _ hplace
            have hnp := placeItems_nopos s b.name (b.items.length : Int)
              (by positivity) b.items [] [] 0 rfl
              (fun x hx => ⟨hnopos x hx, hres x hx⟩)
            simp only [List.nil_append, List.length_nil, Nat.cast_zero] at hnp
            rw [hplace] at hnp
            simp only [Except.ok.injEq, Prod.mk.injEq] at hnp
            obtain ⟨hiv, hwv, hbwv⟩ := hnp
            rw [hplace] at h
            simp only [Except.ok.injEq] at h
            subst h
            refine ⟨if b.bid.getD 0 = 0 then probeId s.id_item else b.bid.getD 0,
              by simp [List.lookup], ?_⟩
            simp only [CrushMap.set_item_name, CrushMap.add_bucket]
            rw [List.getD_eq_getElem?_getD]
            rw [List.getElem?_set_eq (by
              simp only [List.length_append, List.length_replicate]
              omega)]
            simp [hwv]

/-- C10 witness: compiling `device 0 osd0`, `type 1 host`, then a straw
bucket with the single line `item osd0` instantiates all four parts:
devices stay out of `item_weight`, the bucket records total 1, the
weightless device line defaults to 65536 fixed, and the stored weight
vector is `[65536]`. -/
theorem c10_default_weights_witness :
    c10s1.item_weight = initState.item_weight ∧
    (∃ id, c10s3.item_id.lookup c10b.name = some id ∧
      c10s3.item_weight = (id, (c10b.items.map (effWName c10s2)).sum) :: c10s2.item_weight) ∧
    to_fixed (effW c10s1 0 ⟨"osd0", none, none⟩) = 65536 ∧
    (∃ id, c10s3.item_id.lookup c10b.name = some id ∧
      (c10s3.crush.buckets.getD (-1 - id).toNat none).map CBucket.weights =
        some (c10b.items.map (fun it => to_fixed (effWName c10s2 it)))) :=
  ⟨c10_default_weights.1 ⟨0, "osd0", none⟩ initState c10s1 (by decide),
    c10_default_weights.2.1 c10b c10s2 c10s3 (by decide),
    (c10_default_weights.2.2.1 c10s1 ⟨"osd0", none, none⟩ 0 rfl (by decide)).1 (by decide),
    c10_default_weights.2.2.2 c10b c10s2 c10s3 (by decide) (by decide)⟩

/-- C4 witness: the two amended message forms at concrete inputs. -/
theorem c4_message_forms_amended_witness :
    (parseErrMsg "in.txt" 3 "bad").data =
      "in.txt".data ++ [':'] ++ (toString (3 : Int)).data ++
        (" error: parse error at '" ++ "bad" ++ "'").data ∧
    ':' ∉ (render (.undefItem "osd9" "h1")).data :=
  ⟨c4_message_forms_amended.1 "in.txt" 3 "bad",
    c4_message_forms_amended.2 (.undefItem "osd9" "h1") (by decide)
      (fun x hx => by
        simp only [renderArgs, List.mem_cons, List.not_mem_nil, or_false] at hx
        rcases hx with h | h <;> (subst h; decide))⟩

theorem lookup_cons_isSome {β : Type} (l : List (Int × β)) (k a : Int) (v : β)
    (h : (l.lookup k).isSome) : (((a, v) :: l).lookup k).isSome := by
  rw [List.lookup]
  by_cases hk : k == a
  · simp [hk]
  · simp only [hk]
    exact h

theorem lookup_isSome_mem (k : Int) :
    ∀ l : List (Int × String), (l.lookup k).isSome ↔ k ∈ l.map Prod.fst := by
  intro l
  induction l with
  | nil => simp [List.lookup]
  | cons a rest ih =>
    obtain ⟨a1, a2⟩ := a
    rw [List.lookup]
    by_cases hk : k == a1
    · simp only [hk]
      have : k = a1 := by exact beq_iff_eq.mp hk
      simp [this]
    · simp only [hk]
      have : ¬ k = a1 := by exact fun he => hk (beq_iff_eq.mpr he)
      simp [this, ih]

theorem nodup_subset_length {l1 l2 : List Int} (h : l1.Nodup) (hs : l1 ⊆ l2) :
    l1.length ≤ l2.length := by
  classical
  have h1 : l1.toFinset.card = l1.length := List.toFinset_card_of_nodup h
  have h2 : l1.toFinset ⊆ l2.toFinset := by
    intro x hx
    simp only [List.mem_toFinset] at hx ⊢
    exact hs hx
  have h3 := Finset.card_le_card h2
  have h4 := l2.toFinset_card_le
  omega

theorem probeIdF_spec : ∀ (n : Nat) (tbl : List (Int × String)) (start : Int),
    (∃ i : Nat, i < n ∧ (tbl.lookup (start - i)).isSome = false) →
    (tbl.lookup (probeIdF n tbl start)).isSome = false ∧
      probeIdF n tbl start ≤ start ∧
      ∀ j : Int, probeIdF n tbl start < j → j ≤ start → (tbl.lookup j).isSome := by
  intro n
  induction n with
  | zero =>
    intro tbl start h
    obtain ⟨i, hi, -⟩ := h
    exact absurd hi (by omega)
  | succ n ih =>
    intro tbl start h
    rw [probeIdF]
    by_cases hs : (tbl.lookup start).isSome
    · rw [if_pos hs]
      obtain ⟨i, hi, hfree⟩ := h
      have hine : i ≠ 0 := by
        rintro rfl
        simp only [Nat.cast_zero, sub_zero] at hfree
        rw [hfree] at hs
        exact absurd hs (by simp)
      obtain ⟨i2, rfl⟩ := Nat.exists_eq_succ_of_ne_zero hine
      have hstep := ih tbl (start - 1) ⟨i2, by omega, by
        have : start - 1 - (i2 : Int) = start - ((i2 + 1 : Nat) : Int) := by
          push_cast
          ring
        rw [this]
        exact hfree⟩
      refine ⟨hstep.1, by omega, ?_⟩
      intro j hj1 hj2
      by_cases hje : j = start
      · subst hje
        exact hs
      · exact hstep.2.2 j hj1 (by omega)
    · rw [if_neg hs]
      have hfalse : (tbl.lookup start).isSome = false := by
        revert hs
        cases (tbl.lookup start).isSome <;> simp
      refine ⟨hfalse, le_refl start, ?_⟩
      intro j hj1 hj2
      omega

theorem probeId_spec (tbl : List (Int × String)) :
    (tbl.lookup (probeId tbl)).isSome = false ∧ probeId tbl ≤ -1 ∧
      ∀ j : Int, probeId tbl < j → j ≤ -1 → (tbl.lookup j).isSome := by
  apply probeIdF_spec
  by_contra hcon
  push_neg at hcon
  have hall : ∀ i : Nat, i < tbl.length + 1 → ((-1 : Int) - (i : Int)) ∈ tbl.map Prod.fst := by
    intro i hi
    have hi2 := hcon i hi
    rw [← lookup_isSome_mem]
    revert hi2
    cases (tbl.lookup ((-1 : Int) - (i : Int))).isSome <;> simp
  have hsub : ((List.range (tbl.length + 1)).map (fun i : Nat => (-1 : Int) - (i : Int))) ⊆
      tbl.map Prod.fst := by
    intro x hx
    simp only [List.mem_map, List.mem_range] at hx
    obtain ⟨i, hi, rfl⟩ := hx
    exact hall i hi
  have hinj : Function.Injective (fun i : Nat => (-1 : Int) - (i : Int)) := by
    intro a b hab
    simp only at hab
    omega
  have hnd := List.Nodup.map hinj (List.nodup_range (tbl.length + 1))
  have := nodup_subset_length hnd hsub
  simp only [List.length_map, List.length_range] at this
  omega

theorem parse_device_shape (d : DeviceDecl) (s t : CState)
    (h : parse_device d s = .ok t) :
    t.crush.buckets = s.crush.buckets ∧ t.id_item = (d.id, d.name) :: s.id_item := by
  rw [parse_device] at h
  by_cases hdup : (s.item_id.lookup d.name).isSome
  · simp only [hdup, if_pos] at h; simp at h
  · simp only [hdup, Bool.false_eq_true, if_false] at h
    cases htag : d.tag with
    | none =>
      rw [htag] at h
      simp only [Except.ok.injEq] at h
      subst h
      rw [devMaxStep]
      split <;> exact ⟨rfl, rfl⟩
    | some tg =>
      rw [htag] at h
      simp only at h
      by_cases hrange : devOffloadVal tg < 0 ∨ devOffloadVal tg > 1
      · rw [if_pos hrange] at h; simp at h
      · rw [if_neg hrange] at h
        simp only [Except.ok.injEq] at h
        subst h
        rw [devMaxStep]
        split <;> exact ⟨rfl, rfl⟩

theorem parse_bucket_type_shape (t0 : TypeDecl) (s : CState) :
    (parse_bucket_type t0 s).crush.buckets = s.crush.buckets ∧
      (parse_bucket_type t0 s).id_item = s.id_item :=
  ⟨rfl, rfl⟩

theorem setRuleSteps_shape (rname : String) (ruleno : Int) :
    ∀ (steps : List StepDecl) (j : Nat) (s t : CState),
      setRuleSteps rname ruleno steps j s = .ok t →
      t.crush.buckets = s.crush.buckets ∧ t.id_item = s.id_item := by
  intro steps
  induction steps with
  | nil =>
    intro j s t h
    simp only [setRuleSteps, Except.ok.injEq] at h
    subst h
    exact ⟨rfl, rfl⟩
  | cons st rest ih =>
    intro j s t h
    rw [setRuleSteps.eq_def] at h
    cases st with
    | take item =>
      simp only at h
      cases hlk : s.item_id.lookup item with
      | none => rw [hlk] at h; simp at h
      | some iid =>
        rw [hlk] at h
        obtain ⟨h1, h2⟩ := ih _ _ _ h
        exact ⟨h1, h2⟩
    | choose leaf mode n ty =>
      simp only at h
      cases hlk : s.type_id.lookup ty with
      | none => rw [hlk] at h; simp at h
      | some tid =>
        rw [hlk] at h
        obtain ⟨h1, h2⟩ := ih _ _ _ h
        exact ⟨h1, h2⟩
    | emit =>
      simp only at h
      obtain ⟨h1, h2⟩ := ih _ _ _ h
      exact ⟨h1, h2⟩
    | noop => simp at h

theorem parse_rule_shape (r : RuleDecl) (s t : CState) (h : parse_rule r s = .ok t) :
    t.crush.buckets = s.crush.buckets ∧ t.id_item = s.id_item := by
  rw [parse_rule] at h
  have hbody : ∀ nm s0, parse_rule_body r nm s0 = .ok t →
      t.crush.buckets = s0.crush.buckets ∧ t.id_item = s0.id_item := by
    intro nm s0 hb
    rw [parse_rule_body] at hb
    cases hpt : ptypeCode r.ptype with
    | none => rw [hpt] at hb; simp at hb
    | some pt =>
      rw [hpt] at hb
      simp only at hb
      cases nm with
      | none =>
        obtain ⟨h1, h2⟩ := setRuleSteps_shape _ _ _ _ _ _ hb
        exact ⟨h1, h2⟩
      | some n =>
        obtain ⟨h1, h2⟩ := setRuleSteps_shape _ _ _ _ _ _ hb
        exact ⟨h1, h2⟩
  cases hn : r.rname with
  | none => rw [hn] at h; exact hbody none s h
  | some n =>
    rw [hn] at h
    by_cases hdup : (s.rule_id.lookup n).isSome
    · simp only [hdup, if_pos] at h; simp at h
    · simp only [hdup, Bool.false_eq_true, if_false] at h
      exact hbody (some n) s h

theorem parse_bucket_shape (b : BucketDecl) (s t : CState)
    (h : parse_bucket b s = .ok t) :
    ∃ (alg ty sz : Int) (items ws : List Int),
      t.id_item = (bucketNewId b s, b.name) :: s.id_item ∧
      t.crush.buckets = (s.crush.buckets ++
          List.replicate ((-1 - bucketNewId b s).toNat + 1 - s.crush.buckets.length)
            none).set
        (-1 - bucketNewId b s).toNat
        (some ⟨bucketNewId b s, alg, ty, sz, items, ws⟩) := by
  rw [parse_bucket] at h
  cases hty : s.type_id.lookup b.btype with
  | none => rw [hty] at h; simp at h
  | some ty =>
    rw [hty] at h
    by_cases hdup : (s.item_id.lookup b.name).isSome
    · simp only [hdup, if_pos] at h; simp at h
    · simp only [hdup, Bool.false_eq_true, if_false] at h
      cases halg : algCode b.alg with
      | none => rw [halg] at h; simp at h
      | some alg =>
        rw [halg] at h
        cases hscan : scanItems b.name b.items [] 0 with
        | error e => rw [hscan] at h; simp at h
        | ok uc =>
          obtain ⟨used, count⟩ := uc
          rw [hscan] at h
          simp only at h
          cases hplace : placeItems s b.name
              (if used.isEmpty then count else max count (listMax used)) used b.items
              (List.replicate (if used.isEmpty then count
                else max count (listMax used)).toNat 0)
              (List.replicate (if used.isEmpty then count
                else max count (listMax used)).toNat 0) 0 0 with
          | error e => rw [hplace] at h; simp at h
          | ok iwb =>
            obtain ⟨ivec, wvec, bwv⟩ := iwb
            rw [hplace] at h
            simp only [Except.ok.injEq] at h
            subst h
            refine ⟨alg, ty, if used.isEmpty then count else max count (listMax used),
              ivec, wvec, rfl, rfl⟩

theorem countBuckets_replicate_none (n : Nat) :
    countBuckets (List.replicate n (none : Option CBucket)) = 0 := by
  induction n with
  | zero => rfl
  | succ n ih => simpa [countBuckets, List.replicate_succ, List.filterMap_cons] using ih

theorem countBuckets_append (l1 l2 : List (Option CBucket)) :
    countBuckets (l1 ++ l2) = countBuckets l1 + countBuckets l2 := by
  simp [countBuckets, List.filterMap_append]

theorem countBuckets_set_of_none :
    ∀ (tbl : List (Option CBucket)) (idx : Nat) (bk : CBucket),
      tbl[idx]? = some none →
      countBuckets (tbl.set idx (some bk)) = countBuckets tbl + 1 := by
  intro tbl
  induction tbl with
  | nil => intro idx bk h; simp at h
  | cons a t ih =>
    intro idx bk h
    cases idx with
    | zero =>
      simp only [List.getElem?_cons_zero, Option.some.injEq] at h
      subst h
      simp [countBuckets, List.filterMap_cons, List.set]
    | succ idx =>
      simp only [List.getElem?_cons_succ] at h
      have := ih idx bk h
      cases a with
      | none => simpa [countBuckets, List.filterMap_cons, List.set] using this
      | some b2 => simpa [countBuckets, List.filterMap_cons, List.set] using this

theorem countBuckets_replicate_set (n k : Nat) (bk : CBucket) (h : k < n) :
    countBuckets ((List.replicate n (none : Option CBucket)).set k (some bk)) = 1 := by
  have h2 : (List.replicate n (none : Option CBucket))[k]? = some none :=
    List.getElem?_replicate_of_lt h
  rw [countBuckets_set_of_none _ _ _ h2, countBuckets_replicate_none]

theorem countBuckets_grow (tbl : List (Option CBucket)) (idx : Nat) (bk : CBucket)
    (h : tbl[idx]? = some none ∨ tbl.length ≤ idx) :
    countBuckets ((tbl ++ List.replicate (idx + 1 - tbl.length) none).set idx (some bk)) =
      countBuckets tbl + 1 := by
  rcases h with h | h
  · have hlt : idx < tbl.length := by
      by_contra hge
      rw [List.getElem?_eq_none (by omega)] at h
      exact absurd h (by simp)
    have hz : idx + 1 - tbl.length = 0 := by omega
    rw [hz]
    simp only [List.replicate_zero, List.append_nil]
    exact countBuckets_set_of_none _ _ _ h
  · rw [List.set_append_right _ _ h]
    rw [countBuckets_append]
    rw [countBuckets_replicate_set _ _ _ (by omega)]

theorem lookup_cons_self {β : Type} (l : List (Int × β)) (k : Int) (v : β) :
    (((k, v) :: l).lookup k).isSome := by
  rw [List.lookup]
  simp

theorem fold_inv : ∀ (ds : List Decl) (s : CState) (doneExp : List Int) (s' : CState),
    List.foldlM parse_one s ds = .ok s' →
    (doneExp ++ explicitIds ds).Nodup →
    (∀ e ∈ doneExp ++ explicitIds ds, e < 0) →
    (∀ e ∈ explicitIds ds, (s.id_item.lookup e).isSome) →
    (∀ (idx : Nat) (bk : CBucket), s.crush.buckets[idx]? = some (some bk) →
      bk.id = -1 - (idx : Int) ∧ bk.id < 0 ∧ (s.id_item.lookup bk.id).isSome ∧
      (bk.id ∈ doneExp ∨ bk.id ∉ explicitIds ds)) →
    countBuckets s'.crush.buckets = countBuckets s.crush.buckets + bucketDeclCount ds ∧
    (∀ (idx : Nat) (bk : CBucket), s'.crush.buckets[idx]? = some (some bk) →
      bk.id = -1 - (idx : Int) ∧ bk.id < 0) := by
  intro ds
  induction ds with
  | nil =>
    intro s doneExp s' h _ _ _ hids
    simp only [List.foldlM_nil, pure, Except.pure, Except.ok.injEq] at h
    subst h
    refine ⟨by simp [bucketDeclCount], ?_⟩
    intro idx bk hb
    exact ⟨(hids idx bk hb).1, (hids idx bk hb).2.1⟩
  | cons d rest ih =>
    intro s doneExp s' h hall hneg hexp hids
    rw [List.foldlM_cons] at h
    cases hstep : parse_one s d with
    | error e =>
      rw [hstep] at h
      exact absurd h (fun hh => Except.noConfusion hh)
    | ok s2 =>
      rw [hstep] at h
      replace h : List.foldlM parse_one s2 rest = .ok s' := h
      cases d with
      | dev dv =>
        have hsh := parse_device_shape dv s s2 hstep
        have hexpEq : explicitIds (Decl.dev dv :: rest) = explicitIds rest := by
          simp [explicitIds, List.filterMap_cons]
        rw [hexpEq] at hall hneg hexp hids
        have := ih s2 doneExp s' h hall hneg
          (fun e he => hsh.2 ▸ lookup_cons_isSome _ _ _ _ (hexp e he))
          (fun idx bk hb => by
            rw [hsh.1] at hb
            obtain ⟨h1, h2, h3, h4⟩ := hids idx bk hb
            exact ⟨h1, h2, hsh.2 ▸ lookup_cons_isSome _ _ _ _ h3, h4⟩)
        rw [hsh.1] at this
        simpa [bucketDeclCount, List.filterMap_cons] using this
      | typ t0 =>
        have hsh := parse_bucket_type_shape t0 s
        have hok : s2 = parse_bucket_type t0 s := by
          simp only [parse_one, Except.ok.injEq] at hstep
          exact hstep.symm
        subst hok
        have hexpEq : explicitIds (Decl.typ t0 :: rest) = explicitIds rest := by
          simp [explicitIds, List.filterMap_cons]
        rw [hexpEq] at hall hneg hexp hids
        have := ih _ doneExp s' h hall hneg
          (fun e he => hsh.2 ▸ hexp e he)
          (fun idx bk hb => by
            rw [hsh.1] at hb
            obtain ⟨h1, h2, h3, h4⟩ := hids idx bk hb
            exact ⟨h1, h2, hsh.2 ▸ h3, h4⟩)
        rw [hsh.1] at this
        simpa [bucketDeclCount, List.filterMap_cons] using this
      | rule r =>
        have hsh := parse_rule_shape r s s2 hstep
        have hexpEq : explicitIds (Decl.rule r :: rest) = explicitIds rest := by
          simp [explicitIds, List.filterMap_cons]
        rw [hexpEq] at hall hneg hexp hids
        have := ih s2 doneExp s' h hall hneg
          (fun e he => hsh.2 ▸ hexp e he)
          (fun idx bk hb => by
            rw [hsh.1] at hb
            obtain ⟨h1, h2, h3, h4⟩ := hids idx bk hb
            exact ⟨h1, h2, hsh.2 ▸ h3, h4⟩)
        rw [hsh.1] at this
        simpa [bucketDeclCount, List.filterMap_cons] using this
      | buck b =>
        obtain ⟨alg, ty, sz, items, ws, hidit, hbuck⟩ := parse_bucket_shape b s s2 hstep
        have hnidneg : bucketNewId b s < 0 := by
          rw [bucketNewId]
          cases hbid : b.bid with
          | none =>
            simp only [Option.getD_none, if_pos]
            have := (probeId_spec s.id_item).2.1
            omega
          | some e =>
            have he : e ∈ explicitIds (Decl.buck b :: rest) := by
              simp [explicitIds, List.filterMap_cons, hbid]
            have hlt := hneg e (List.mem_append_right _ he)
            simp only [Option.getD_some]
            rw [if_neg (by omega)]
            exact hlt
        have htn : (((-1 - bucketNewId b s).toNat : Int)) = -1 - bucketNewId b s :=
          Int.toNat_of_nonneg (by omega)
        have hfresh : s.crush.buckets[(-1 - bucketNewId b s).toNat]? = some none ∨
            s.crush.buckets.length ≤ (-1 - bucketNewId b s).toNat := by
          by_cases hrange : (-1 - bucketNewId b s).toNat < s.crush.buckets.length
          · left
            cases hget : s.crush.buckets[(-1 - bucketNewId b s).toNat]? with
            | none =>
              have := List.getElem?_eq_none_iff.mp hget
              omega
            | some a =>
              cases a with
              | none => rfl
              | some bk =>
                obtain ⟨hid1, hid2, hid3, hid4⟩ := hids _ bk hget
                have hbkid : bk.id = bucketNewId b s := by rw [hid1, htn]; ring
                exfalso
                rw [bucketNewId] at hbkid
                cases hbid : b.bid with
                | none =>
                  rw [hbid] at hbkid
                  simp only [Option.getD_none, if_pos] at hbkid
                  rw [hbkid] at hid3
                  rw [(probeId_spec s.id_item).1] at hid3
                  exact absurd hid3 (by simp)
                | some e =>
                  have he : e ∈ explicitIds (Decl.buck b :: rest) := by
                    simp [explicitIds, List.filterMap_cons, hbid]
                  have hlt := hneg e (List.mem_append_right _ he)
                  rw [hbid] at hbkid
                  simp only [Option.getD_some] at hbkid
                  rw [if_neg (by omega)] at hbkid
                  rcases hid4 with hmem | hnotin
                  · rw [hbkid] at hmem
                    exact (List.disjoint_of_nodup_append hall) hmem he
                  · rw [hbkid] at hnotin
                    exact hnotin he
          · right
            omega
        have hlen2 : (-1 - bucketNewId b s).toNat <
            (s.crush.buckets ++ List.replicate ((-1 - bucketNewId b s).toNat + 1 -
              s.crush.buckets.length) none).length := by
          simp only [List.length_append, List.length_replicate]
          omega
        have hset : s2.crush.buckets[(-1 - bucketNewId b s).toNat]? =
            some (some ⟨bucketNewId b s, alg, ty, sz, items, ws⟩) := by
          rw [hbuck]
          exact List.getElem?_set_eq hlen2
        have hother : ∀ idx, idx ≠ (-1 - bucketNewId b s).toNat →
            s2.crush.buckets[idx]? =
              (s.crush.buckets ++ List.replicate ((-1 - bucketNewId b s).toNat + 1 -
                s.crush.buckets.length) none)[idx]? := by
          intro idx hne
          rw [hbuck]
          exact List.getElem?_set_ne (fun hh => hne hh.symm)
        have hcount : countBuckets s2.crush.buckets = countBuckets s.crush.buckets + 1 := by
          rw [hbuck]
          exact countBuckets_grow _ _ _ hfresh
        have hprobeNomem : b.bid = none → bucketNewId b s ∉ explicitIds rest := by
          intro hbid hmem
          have hEq : explicitIds (Decl.buck b :: rest) = explicitIds rest := by
            simp [explicitIds, List.filterMap_cons, hbid]
          have := hexp _ (hEq ▸ hmem)
          have hprobe : bucketNewId b s = probeId s.id_item := by
            rw [bucketNewId, hbid]
            simp
          rw [hprobe] at this
          rw [(probeId_spec s.id_item).1] at this
          exact absurd this (by simp)
        cases hbid : b.bid with
        | none =>
          have hEq : explicitIds (Decl.buck b :: rest) = explicitIds rest := by
            simp [explicitIds, List.filterMap_cons, hbid]
          rw [hEq] at hall hneg hexp hids
          have hres := ih s2 doneExp s' h hall hneg
            (fun e he => hidit ▸ lookup_cons_isSome _ _ _ _ (hexp e he))
            (fun idx bk hb => by
              by_cases hne : idx = (-1 - bucketNewId b s).toNat
              · subst hne
                rw [hset] at hb
                simp only [Option.some.injEq] at hb
                subst hb
                refine ⟨by rw [htn]; ring, hnidneg, ?_, ?_⟩
                · rw [hidit]
                  exact lookup_cons_self _ _ _
                · exact Or.inr (hprobeNomem hbid)
              · rw [hother idx hne] at hb
                by_cases hr : idx < s.crush.buckets.length
                · rw [List.getElem?_append_left hr] at hb
                  obtain ⟨h1, h2, h3, h4⟩ := hids idx bk hb
                  exact ⟨h1, h2, hidit ▸ lookup_cons_isSome _ _ _ _ h3, h4⟩
                · rw [List.getElem?_append_right (by omega)] at hb
                  by_cases hr2 : idx - s.crush.buckets.length <
                      (-1 - bucketNewId b s).toNat + 1 - s.crush.buckets.length
                  · rw [List.getElem?_replicate_of_lt hr2] at hb
                    simp at hb
                  · rw [List.getElem?_eq_none (by
                      simp only [List.length_replicate]
                      omega)] at hb
                    simp at hb)
          refine ⟨?_, hres.2⟩
          rw [hres.1, hcount]
          simp only [bucketDeclCount, List.filterMap_cons]
          simp [bucketDeclCount]
          omega
        | some e =>
          have hEq : explicitIds (Decl.buck b :: rest) = e :: explicitIds rest := by
            simp [explicitIds, List.filterMap_cons, hbid]
          rw [hEq] at hall hneg hexp hids
          have hnide : bucketNewId b s = e := by
            rw [bucketNewId, hbid]
            simp only [Option.getD_some]
            rw [if_neg ?_]
            have := hneg e (List.mem_append_right _ (List.mem_cons_self _ _))
            omega
          have hallp : (doneExp ++ [e]) ++ explicitIds rest = doneExp ++ e :: explicitIds rest := by
            simp
          have hres := ih s2 (doneExp ++ [e]) s' h (by rw [hallp]; exact hall)
            (by rw [hallp]; exact hneg)
            (fun e2 he2 => hidit ▸ lookup_cons_isSome _ _ _ _
              (hexp e2 (List.mem_cons_of_mem _ he2)))
            (fun idx bk hb => by
              by_cases hne : idx = (-1 - bucketNewId b s).toNat
              · subst hne
                rw [hset] at hb
                simp only [Option.some.injEq] at hb
                subst hb
                refine ⟨by rw [htn]; ring, hnidneg, ?_, ?_⟩
                · rw [hidit]
                  exact lookup_cons_self _ _ _
                · left
                  rw [hnide]
                  simp
              · rw [hother idx hne] at hb
                by_cases hr : idx < s.crush.buckets.length
                · rw [List.getElem?_append_left hr] at hb
                  obtain ⟨h1, h2, h3, h4⟩ := hids idx bk hb
                  refine ⟨h1, h2, hidit ▸ lookup_cons_isSome _ _ _ _ h3, ?_⟩
                  rcases h4 with hm | hm
                  · exact Or.inl (List.mem_append_left _ hm)
                  · exact Or.inr (fun hc => hm (List.mem_cons_of_mem _ hc))
                · rw [List.getElem?_append_right (by omega)] at hb
                  by_cases hr2 : idx - s.crush.buckets.length <
                      (-1 - bucketNewId b s).toNat + 1 - s.crush.buckets.length
                  · rw [List.getElem?_replicate_of_lt hr2] at hb
                    simp at hb
                  · rw [List.getElem?_eq_none (by
                      simp only [List.length_replicate]
                      omega)] at hb
                    simp at hb)
          refine ⟨?_, hres.2⟩
          rw [hres.1, hcount]
          simp only [bucketDeclCount, List.filterMap_cons]
          simp [bucketDeclCount]
          omega

theorem find_used_mono (e : Int) : ∀ (ds : List Decl) (s : CState),
    (s.id_item.lookup e).isSome →
    ((find_used_bucket_ids ds s).id_item.lookup e).isSome := by
  intro ds
  induction ds with
  | nil => intro s h; exact h
  | cons d rest ih =>
    intro s h
    rw [find_used_bucket_ids] at *
    rw [List.foldl_cons]
    cases d with
    | dev dv => exact ih s h
    | typ t0 => exact ih s h
    | rule r => exact ih s h
    | buck b =>
      cases hbid : b.bid with
      | none => simp only [hbid]; exact ih s h
      | some k =>
        simp only [hbid]
        exact ih _ (lookup_cons_isSome _ _ _ _ h)

theorem find_used_covers : ∀ (ds : List Decl) (s : CState) (e : Int),
    e ∈ explicitIds ds →
    ((find_used_bucket_ids ds s).id_item.lookup e).isSome := by
  intro ds
  induction ds with
  | nil => intro s e he; simp [explicitIds] at he
  | cons d rest ih =>
    intro s e he
    rw [find_used_bucket_ids] at *
    rw [List.foldl_cons]
    cases d with
    | dev dv =>
      simp only [explicitIds, List.filterMap_cons] at he
      exact ih s e he
    | typ t0 =>
      simp only [explicitIds, List.filterMap_cons] at he
      exact ih s e he
    | rule r =>
      simp only [explicitIds, List.filterMap_cons] at he
      exact ih s e he
    | buck b =>
      cases hbid : b.bid with
      | none =>
        simp only [explicitIds, List.filterMap_cons, hbid] at he
        simp only [hbid]
        exact ih s e he
      | some k =>
        simp only [explicitIds, List.filterMap_cons, hbid] at he
        simp only [hbid]
        rcases List.mem_cons.mp he with rfl | he2
        · have hm := find_used_mono e rest ({ s with id_item := (e, "") :: s.id_item })
            (by exact lookup_cons_self _ _ _)
          rw [find_used_bucket_ids] at hm
          exact hm
        · exact ih _ e he2

theorem find_used_crush : ∀ (ds : List Decl) (s : CState),
    (find_used_bucket_ids ds s).crush = s.crush := by
  intro ds
  induction ds with
  | nil => intro s; rfl
  | cons d rest ih =>
    intro s
    rw [find_used_bucket_ids] at *
    rw [List.foldl_cons]
    cases d with
    | dev dv => exact ih s
    | typ t0 => exact ih s
    | rule r => exact ih s
    | buck b =>
      cases hbid : b.bid with
      | none => simp only [hbid]; exact ih s
      | some k => simp only [hbid]; exact ih _

theorem foldl_offloadStep_buckets (dof : List (Int × Int)) :
    ∀ (l : List Nat) (c : CrushMap),
      (List.foldl (offloadStep dof) c l).buckets = c.buckets := by
  intro l
  induction l with
  | nil => intro c; rfl
  | cons i rest ih =>
    intro c
    rw [List.foldl_cons]
    rw [ih]
    rw [offloadStep]
    cases dof.lookup (i : Int) with
    | none => rfl
    | some v => rfl

theorem apply_offloads_buckets (s : CState) :
    (apply_offloads s).crush.buckets = s.crush.buckets := by
  rw [apply_offloads]
  exact foldl_offloadStep_buckets _ _ _

/-- C8: bucket id assignment.  (a) The auto-id probe of line 234 yields
the first id of the sequence `-1, -2, -3, ...` with no `id_item`
binding: the probed id is free, and everything strictly between `-1`
and it is taken.  (b) A bucket block that omits its id line is assigned
exactly that probed id.  At probe time `id_item` holds every explicitly
declared bucket id of the whole file (the `find_used_bucket_ids`
pre-pass) and every previously assigned bucket id, plus the device ids,
which are non-negative in the grammar and never probed.  (c) Whenever a
file with pairwise-distinct, negative explicit bucket ids compiles, the
compiled map has exactly one bucket table slot per bucket block, every
bucket id is negative, and the id of the slot at index `idx` is
`-1-idx`, so all bucket ids are pairwise distinct. -/
theorem c8_bucket_ids :
    (∀ tbl : List (Int × String),
      (tbl.lookup (probeId tbl)).isSome = false ∧ probeId tbl ≤ -1 ∧
        ∀ j : Int, probeId tbl < j → j ≤ -1 → (tbl.lookup j).isSome) ∧
    (∀ b s s', b.bid = none → parse_bucket b s = .ok s' →
      s'.item_id.lookup b.name = some (probeId s.id_item)) ∧
    (∀ decls m, compile decls = .ok m →
      (explicitIds decls).Nodup → (∀ e ∈ explicitIds decls, e < 0) →
      countBuckets m.crush.buckets = bucketDeclCount decls ∧
      ∀ (idx : Nat) (bk : CBucket), m.crush.buckets[idx]? = some (some bk) →
        bk.id = -1 - (idx : Int) ∧ bk.id < 0) := by
  refine ⟨probeId_spec, ?_, ?_⟩
  · intro b s s' hbid h
    rw [parse_bucket] at h
    cases hty : s.type_id.lookup b.btype with
    | none => rw [hty] at h; simp at h
    | some ty =>
      rw [hty] at h
      by_cases hdup : (s.item_id.lookup b.name).isSome
      · simp only [hdup, if_pos] at h; simp at h
      · simp only [hdup, Bool.false_eq_true, if_false] at h
        cases halg : algCode b.alg with
        | none => rw [halg] at h; simp at h
        | some alg =>
          rw [halg] at h
          cases hscan : scanItems b.name b.items [] 0 with
          | error e => rw [hscan] at h; simp at h
          | ok uc =>
            obtain ⟨used, count⟩ := uc
            rw [hscan] at h
            simp only at h
            cases hplace : placeItems s b.name
                (if used.isEmpty then count else max count (listMax used)) used b.items
                (List.replicate (if used.isEmpty then count
                  else max count (listMax used)).toNat 0)
                (List.replicate (if used.isEmpty then count
                  else max count (listMax used)).toNat 0) 0 0 with
            | error e => rw [hplace] at h; simp at h
            | ok iwb =>
              obtain ⟨ivec, wvec, bwv⟩ := iwb
              rw [hplace] at h
              simp only [Except.ok.injEq] at h
              subst h
              simp only [hbid, Option.getD_none, if_pos]
              rw [List.lookup]
              simp
  · intro decls m h hnd hneg
    rw [compile, parse_crush] at h
    cases hf : List.foldlM parse_one (find_used_bucket_ids decls initState) decls with
    | error e =>
      rw [hf] at h
      exact absurd h (fun hh => Except.noConfusion hh)
    | ok s1 =>
      rw [hf] at h
      replace h : Except.ok (apply_offloads { s1 with crush := s1.crush.finalize }) =
          Except.ok m := h
      simp only [Except.ok.injEq] at h
      subst h
      have hinv := fold_inv decls (find_used_bucket_ids decls initState) [] s1 hf
        (by simpa using hnd) (by simpa using hneg)
        (fun e he => find_used_covers decls initState e he)
        (fun idx bk hb => by
          rw [find_used_crush] at hb
          simp [initState, initMap] at hb)
      have hb0 : (find_used_bucket_ids decls initState).crush.buckets = [] := by
        rw [find_used_crush]
        rfl
      rw [hb0] at hinv
      have hm : (apply_offloads { s1 with crush := s1.crush.finalize }).crush.buckets =
          s1.crush.buckets := by
        rw [apply_offloads_buckets]
        rfl
      rw [hm]
      refine ⟨?_, hinv.2⟩
      rw [hinv.1]
      simp [countBuckets]

/-- C8 witness: the probe on the empty table, the auto assignment of
id `-1` to the first id-less bucket, and a whole compile of one device,
one type, one auto-id bucket. -/
theorem c8_bucket_ids_witness :
    ((([] : List (Int × String)).lookup (probeId [])).isSome = false ∧
      probeId ([] : List (Int × String)) ≤ -1 ∧
      ∀ j : Int, probeId ([] : List (Int × String)) < j → j ≤ -1 →
        (([] : List (Int × String)).lookup j).isSome) ∧
    c10s3.item_id.lookup "h1" = some (probeId c10s2.id_item) ∧
    (countBuckets c10s3.crush.buckets =
        bucketDeclCount [Decl.dev ⟨0, "osd0", none⟩, Decl.typ ⟨1, "host"⟩,
          Decl.buck ⟨"host", "h1", none, "straw", [⟨"osd0", none, none⟩]⟩] ∧
      ∀ (idx : Nat) (bk : CBucket), c10s3.crush.buckets[idx]? = some (some bk) →
        bk.id = -1 - (idx : Int) ∧ bk.id < 0) :=
  ⟨c8_bucket_ids.1 [],
    c8_bucket_ids.2.1 ⟨"host", "h1", none, "straw", [⟨"osd0", none, none⟩]⟩ c10s2 c10s3
      rfl (by decide),
    c8_bucket_ids.2.2 [Decl.dev ⟨0, "osd0", none⟩, Decl.typ ⟨1, "host"⟩,
        Decl.buck ⟨"host", "h1", none, "straw", [⟨"osd0", none, none⟩]⟩] c10s3
      (by decide) (by decide) (by decide)⟩


theorem c1_roundtrip_cx :
    (compile c1decls).map (fun s => s.crush) = .ok c1m0 ∧
    (compile (decompile_crush c1m0)).map (fun s => s.crush) = .ok c1m1 ∧
    encode c1m0 ≠ encode c1m1 := by
  refine ⟨by decide, by decide, by decide⟩

theorem mput_lookup_self (k : Int) (v : String) :
    ∀ l : List (Int × String), (mput k v l).lookup k = some v := by
  intro l
  induction l with
  | nil => simp [mput, List.lookup]
  | cons p rest ih =>
    obtain ⟨k2, v2⟩ := p
    rw [mput]
    by_cases h1 : k < k2
    · rw [if_pos h1]
      rw [List.lookup]
      simp
    · rw [if_neg h1]
      by_cases h2 : k = k2
      · rw [if_pos h2]
        rw [List.lookup]
        simp
      · rw [if_neg h2]
        rw [List.lookup]
        have : (k == k2) = false := by simp [h2]
        rw [this]
        exact ih

theorem mput_lookup_ne (k k2 : Int) (v : String) (hne : k2 ≠ k) :
    ∀ l : List (Int × String), (mput k v l).lookup k2 = l.lookup k2 := by
  intro l
  induction l with
  | nil =>
    simp only [mput, List.lookup]
    have : (k2 == k) = false := by simp [hne]
    rw [this]
  | cons p rest ih =>
    obtain ⟨k3, v3⟩ := p
    rw [mput]
    by_cases h1 : k < k3
    · rw [if_pos h1]
      rw [List.lookup]
      have : (k2 == k) = false := by simp [hne]
      rw [this]
    · rw [if_neg h1]
      by_cases h2 : k = k3
      · rw [if_pos h2]
        rw [List.lookup, List.lookup]
        have : (k2 == k) = false := by simp [hne]
        subst h2
        rw [this]
      · rw [if_neg h2]
        rw [List.lookup, List.lookup]
        by_cases h3 : k2 = k3
        · simp [h3]
        · have e1 : (k2 == k3) = false := by simp [h3]
          rw [e1, ih]

theorem mput_append_gt (k : Int) (v : String) :
    ∀ l : List (Int × String), (∀ q ∈ l, q.1 < k) → mput k v l = l ++ [(k, v)] := by
  intro l
  induction l with
  | nil => intro _; rfl
  | cons p rest ih =>
    intro hall
    obtain ⟨k2, v2⟩ := p
    have hk2 : k2 < k := hall (k2, v2) (List.mem_cons_self _ _)
    rw [mput, if_neg (by omega), if_neg (by omega)]
    rw [ih (fun q hq => hall q (List.mem_cons_of_mem _ hq))]
    simp

theorem mput_sorted (k : Int) (v : String) :
    ∀ l : List (Int × String), l.Chain' (fun p q => p.1 < q.1) →
      (mput k v l).Chain' (fun p q => p.1 < q.1) := by
  intro l
  induction l with
  | nil => intro _; simp [mput]
  | cons p rest ih =>
    intro hs
    obtain ⟨k2, v2⟩ := p
    rw [mput]
    by_cases h1 : k < k2
    · rw [if_pos h1]
      exact List.Chain'.cons h1 hs
    · rw [if_neg h1]
      by_cases h2 : k = k2
      · rw [if_pos h2]
        subst h2
        cases rest with
        | nil => simp
        | cons q rest2 =>
          rw [List.chain'_cons] at hs ⊢
          exact hs
      · rw [if_neg h2]
        cases rest with
        | nil =>
          simp only [mput]
          exact List.chain'_pair.mpr (by omega)
        | cons q rest2 =>
          rw [List.chain'_cons] at hs
          have hmain := ih hs.2
          rw [List.chain'_cons']
          refine ⟨?_, hmain⟩
          intro y hy
          obtain ⟨q1, q2⟩ := q
          rw [mput] at hy
          by_cases h3 : k < q1
          · rw [if_pos h3] at hy
            simp only [List.head?_cons, Option.mem_some_iff] at hy
            subst hy
            simp only
            omega
          · rw [if_neg h3] at hy
            by_cases h4 : k = q1
            · rw [if_pos h4] at hy
              simp only [List.head?_cons, Option.mem_some_iff] at hy
              subst hy
              simp only
              omega
            · rw [if_neg h4] at hy
              simp only [List.head?_cons, Option.mem_some_iff] at hy
              subst hy
              exact hs.1

theorem chain_head_lt :
    ∀ (l : List (Int × String)) (k : Int) (v : String),
      ((k, v) :: l).Chain' (fun p q => p.1 < q.1) → ∀ r ∈ l, k < r.1 := by
  intro l
  induction l with
  | nil => intro k v _ r hr; exact absurd hr (List.not_mem_nil r)
  | cons q rest ih =>
    intro k v h r hr
    rw [List.chain'_cons] at h
    rcases List.mem_cons.mp hr with rfl | hr2
    · exact h.1
    · have := ih q.1 q.2 h.2 r hr2
      have h1 := h.1
      simp only at h1 this ⊢
      omega

theorem sorted_lookup_none (k : Int) :
    ∀ l : List (Int × String), l.Chain' (fun p q => p.1 < q.1) →
      (∀ p ∈ l, k < p.1) → l.lookup k = none := by
  intro l
  induction l with
  | nil => intro _ _; rfl
  | cons p rest ih =>
    intro hs hall
    obtain ⟨k2, v2⟩ := p
    rw [List.lookup]
    have hx : (k == k2) = false := by
      have := hall (k2, v2) (List.mem_cons_self _ _)
      simp only at this
      simp only [beq_eq_false_iff_ne, ne_eq]
      omega
    rw [hx]
    exact ih (List.Chain'.tail hs) (fun q hq => hall q (List.mem_cons_of_mem _ hq))

theorem sorted_assoc_ext :
    ∀ (l1 l2 : List (Int × String)),
      l1.Chain' (fun p q => p.1 < q.1) → l2.Chain' (fun p q => p.1 < q.1) →
      (∀ k, l1.lookup k = l2.lookup k) → l1 = l2 := by
  intro l1
  induction l1 with
  | nil =>
    intro l2 _ hs2 hk
    cases l2 with
    | nil => rfl
    | cons q rest2 =>
      exfalso
      obtain ⟨qk, qv⟩ := q
      have hthis := hk qk
      rw [List.lookup, List.lookup] at hthis
      simp at hthis
  | cons p rest ih =>
    intro l2 hs1 hs2 hk
    obtain ⟨k1, v1⟩ := p
    cases l2 with
    | nil =>
      exfalso
      have hthis := hk k1
      rw [List.lookup, List.lookup] at hthis
      simp at hthis
    | cons q rest2 =>
      obtain ⟨k2, v2⟩ := q
      have hk1l2 : ((k2, v2) :: rest2).lookup k1 = some v1 := by
        rw [← hk k1, List.lookup]
        simp
      have hk2l1 : ((k1, v1) :: rest).lookup k2 = some v2 := by
        rw [hk k2, List.lookup]
        simp
      have heq : k1 = k2 := by
        by_contra hne
        rcases lt_or_gt_of_ne hne with hlt | hgt
        · rw [List.lookup] at hk1l2
          have e1 : (k1 == k2) = false := by
            simp only [beq_eq_false_iff_ne, ne_eq]
            omega
          rw [e1] at hk1l2
          have hnone : rest2.lookup k1 = none := by
            refine sorted_lookup_none k1 rest2 (List.Chain'.tail hs2) ?_
            intro r hr
            have := chain_head_lt rest2 k2 v2 hs2 r hr
            omega
          rw [hnone] at hk1l2
          simp at hk1l2
        · rw [List.lookup] at hk2l1
          have e1 : (k2 == k1) = false := by
            simp only [beq_eq_false_iff_ne, ne_eq]
            omega
          rw [e1] at hk2l1
          have hnone : rest.lookup k2 = none := by
            refine sorted_lookup_none k2 rest (List.Chain'.tail hs1) ?_
            intro r hr
            have := chain_head_lt rest k1 v1 hs1 r hr
            omega
          rw [hnone] at hk2l1
          simp at hk2l1
      subst heq
      have hv : v1 = v2 := by
        rw [List.lookup] at hk1l2
        simp at hk1l2
        exact hk1l2.symm
      subst hv
      congr 1
      refine ih rest2 (List.Chain'.tail hs1) (List.Chain'.tail hs2) ?_
      intro k
      by_cases hke : k = k1
      · subst hke
        rw [sorted_lookup_none k rest (List.Chain'.tail hs1)
            (fun r hr => chain_head_lt rest k v1 hs1 r hr),
          sorted_lookup_none k rest2 (List.Chain'.tail hs2)
            (fun r hr => chain_head_lt rest2 k v1 hs2 r hr)]
      · have hthis := hk k
        rw [List.lookup, List.lookup] at hthis
        have e1 : (k == k1) = false := by simp [hke]
        rw [e1] at hthis
        exact hthis

theorem lookup_mem_of {α β : Type} [BEq α] [LawfulBEq α] :
    ∀ (l : List (α × β)) (k : α) (v : β), l.lookup k = some v → (k, v) ∈ l := by
  intro l
  induction l with
  | nil => intro k v h; rw [List.lookup] at h; exact absurd h (by simp)
  | cons p rest ih =>
    intro k v h
    obtain ⟨k2, v2⟩ := p
    rw [List.lookup] at h
    by_cases he : k = k2
    · subst he
      simp at h
      subst h
      exact List.mem_cons_self _ _
    · have : (k == k2) = false := by simp [he]
      rw [this] at h
      exact List.mem_cons_of_mem _ (ih k v h)

theorem lookup_none_not_mem {α β : Type} [BEq α] [LawfulBEq α] :
    ∀ (l : List (α × β)) (k : α), k ∉ l.map Prod.fst → l.lookup k = none := by
  intro l
  induction l with
  | nil => intro _ _; rfl
  | cons p rest ih =>
    intro k hk
    obtain ⟨k2, v2⟩ := p
    simp only [List.map_cons, List.mem_cons, not_or] at hk
    rw [List.lookup]
    have : (k == k2) = false := by simp [hk.1]
    rw [this]
    exact ih k hk.2

theorem lookup_isSome_of_mem {α β : Type} [BEq α] [LawfulBEq α] :
    ∀ (l : List (α × β)) (k : α), k ∈ l.map Prod.fst → (l.lookup k).isSome := by
  intro l
  induction l with
  | nil => intro k hk; exact absurd hk (by simp)
  | cons p rest ih =>
    intro k hk
    obtain ⟨k2, v2⟩ := p
    rw [List.lookup]
    by_cases he : k = k2
    · subst he; simp
    · have : (k == k2) = false := by simp [he]
      rw [this]
      apply ih
      simp only [List.map_cons, List.mem_cons] at hk
      exact hk.resolve_left he

theorem lookup_of_mem_nodup {α β : Type} [BEq α] [LawfulBEq α] :
    ∀ (l : List (α × β)) (k : α) (v : β), (l.map Prod.fst).Nodup →
      (k, v) ∈ l → l.lookup k = some v := by
  intro l
  induction l with
  | nil => intro k v _ hm; exact absurd hm (List.not_mem_nil _)
  | cons p rest ih =>
    intro k v hnd hm
    obtain ⟨k2, v2⟩ := p
    simp only [List.map_cons, List.nodup_cons] at hnd
    rw [List.lookup]
    rcases List.mem_cons.mp hm with he | hm2
    · rw [Prod.mk.injEq] at he
      obtain ⟨he1, he2⟩ := he
      subst he1; subst he2
      simp
    · have hke : k ≠ k2 := by
        intro he
        subst he
        exact hnd.1 (List.mem_map.mpr ⟨(k, v), hm2, rfl⟩)
      have : (k == k2) = false := by simp [hke]
      rw [this]
      exact ih k v hnd.2 hm2

theorem lookup_append_some {α β : Type} [BEq α] :
    ∀ (l1 l2 : List (α × β)) (k : α) (v : β), l1.lookup k = some v →
      (l1 ++ l2).lookup k = some v := by
  intro l1
  induction l1 with
  | nil => intro l2 k v h; rw [List.lookup] at h; exact absurd h (by simp)
  | cons p rest ih =>
    intro l2 k v h
    obtain ⟨k2, v2⟩ := p
    rw [List.lookup] at h
    rw [List.cons_append, List.lookup]
    cases hb : k == k2 with
    | true => rw [hb] at h; exact h
    | false => rw [hb] at h; exact ih l2 k v h

theorem lookup_append_none {α β : Type} [BEq α] :
    ∀ (l1 l2 : List (α × β)) (k : α), l1.lookup k = none →
      (l1 ++ l2).lookup k = l2.lookup k := by
  intro l1
  induction l1 with
  | nil => intro l2 k _; rfl
  | cons p rest ih =>
    intro l2 k h
    obtain ⟨k2, v2⟩ := p
    rw [List.lookup] at h
    rw [List.cons_append, List.lookup]
    cases hb : k == k2 with
    | true => rw [hb] at h; exact absurd h (by simp)
    | false => rw [hb] at h; exact ih l2 k h

theorem snd_inj_of_nodup {α β : Type} :
    ∀ (l : List (α × β)) (a b : α) (v : β), (l.map Prod.snd).Nodup →
      (a, v) ∈ l → (b, v) ∈ l → a = b := by
  intro l
  induction l with
  | nil => intro a b v _ ha; exact absurd ha (List.not_mem_nil _)
  | cons p rest ih =>
    intro a b v hnd ha hb
    simp only [List.map_cons, List.nodup_cons] at hnd
    rcases List.mem_cons.mp ha with ha1 | ha2 <;>
      rcases List.mem_cons.mp hb with hb1 | hb2
    · rw [← hb1] at ha1
      exact congrArg Prod.fst ha1
    · exfalso
      apply hnd.1
      have : p.2 = v := by rw [← ha1]
      rw [this]
      exact List.mem_map.mpr ⟨(b, v), hb2, rfl⟩
    · exfalso
      apply hnd.1
      have : p.2 = v := by rw [← hb1]
      rw [this]
      exact List.mem_map.mpr ⟨(a, v), ha2, rfl⟩
    · exact ih a b v hnd.2 ha2 hb2

theorem mputs_append (l1 l2 t : List (Int × String)) :
    mputs (l1 ++ l2) t = mputs l2 (mputs l1 t) := by
  rw [mputs, mputs, mputs, List.foldl_append]

theorem mputs_sorted :
    ∀ (l t : List (Int × String)), t.Chain' (fun p q => p.1 < q.1) →
      (mputs l t).Chain' (fun p q => p.1 < q.1) := by
  intro l
  induction l with
  | nil => intro t h; exact h
  | cons p rest ih =>
    intro t h
    rw [mputs, List.foldl_cons]
    exact ih (mput p.1 p.2 t) (mput_sorted p.1 p.2 t h)

theorem mputs_lookup_not_mem :
    ∀ (l t : List (Int × String)) (k : Int), k ∉ l.map Prod.fst →
      (mputs l t).lookup k = t.lookup k := by
  intro l
  induction l with
  | nil => intro t k _; rfl
  | cons p rest ih =>
    intro t k hk
    simp only [List.map_cons, List.mem_cons, not_or] at hk
    rw [mputs, List.foldl_cons]
    rw [show List.foldl (fun acc q => mput q.1 q.2 acc) (mput p.1 p.2 t) rest =
      mputs rest (mput p.1 p.2 t) from rfl]
    rw [ih (mput p.1 p.2 t) k hk.2]
    exact mput_lookup_ne p.1 k p.2 hk.1 t

theorem mputs_lookup_of_mem :
    ∀ (l t : List (Int × String)) (k : Int) (v : String), (l.map Prod.fst).Nodup →
      (k, v) ∈ l → (mputs l t).lookup k = some v := by
  intro l
  induction l with
  | nil => intro t k v _ hm; exact absurd hm (List.not_mem_nil _)
  | cons p rest ih =>
    intro t k v hnd hm
    simp only [List.map_cons, List.nodup_cons] at hnd
    rw [mputs, List.foldl_cons]
    rw [show List.foldl (fun acc q => mput q.1 q.2 acc) (mput p.1 p.2 t) rest =
      mputs rest (mput p.1 p.2 t) from rfl]
    rcases List.mem_cons.mp hm with he | hm2
    · rw [← he] at hnd
      rw [show p = (k, v) from he.symm]
      rw [mputs_lookup_not_mem rest (mput (k, v).1 (k, v).2 t) k hnd.1]
      exact mput_lookup_self k v t
    · exact ih (mput p.1 p.2 t) k v hnd.2 hm2

theorem chain'_iff_pairwise_keys {β : Type} (l : List (Int × β)) :
    l.Chain' (fun p q => p.1 < q.1) ↔ l.Pairwise (fun p q => p.1 < q.1) := by
  haveI : IsTrans (Int × β) (fun p q => p.1 < q.1) := ⟨fun a b c h1 h2 => by omega⟩
  exact List.chain'_iff_pairwise

theorem mputs_asc :
    ∀ (l t : List (Int × String)), (t ++ l).Chain' (fun p q => p.1 < q.1) →
      mputs l t = t ++ l := by
  intro l
  induction l with
  | nil => intro t _; rw [mputs, List.foldl_nil, List.append_nil]
  | cons p rest ih =>
    intro t h
    rw [mputs, List.foldl_cons]
    rw [show List.foldl (fun acc q => mput q.1 q.2 acc) (mput p.1 p.2 t) rest =
      mputs rest (mput p.1 p.2 t) from rfl]
    have hlt : ∀ q ∈ t, q.1 < p.1 := by
      intro q hq
      have hpw := (chain'_iff_pairwise_keys _).mp h
      rw [List.pairwise_append] at hpw
      exact hpw.2.2 q hq p (List.mem_cons_self _ _)
    rw [mput_append_gt p.1 p.2 t hlt]
    have heta : ((p.1, p.2) : Int × String) = p := rfl
    rw [heta]
    rw [ih (t ++ [p])]
    · rw [List.append_assoc, List.singleton_append]
    · rw [List.append_assoc, List.singleton_append]
      exact h

theorem pin_lookup (m : CrushMap) (a : Int) (ha : a ∈ m.item_names.map Prod.fst) :
    m.item_names.lookup a = some (print_item_name m a) := by
  have hs := lookup_isSome_of_mem m.item_names a ha
  obtain ⟨v, hv⟩ := Option.isSome_iff_exists.mp hs
  rw [hv, print_item_name, hv]

theorem pin_inj (m : CrushMap) (hvnd : (m.item_names.map Prod.snd).Nodup)
    (a b : Int) (ha : a ∈ m.item_names.map Prod.fst) (hb : b ∈ m.item_names.map Prod.fst)
    (h : print_item_name m a = print_item_name m b) : a = b := by
  have hma := lookup_mem_of _ _ _ (pin_lookup m a ha)
  have hmb := lookup_mem_of _ _ _ (pin_lookup m b hb)
  rw [h] at hma
  exact snd_inj_of_nodup _ a b _ hvnd hma hmb

theorem ptn_lookup (m : CrushMap) (a : Int) (ha : a ∈ m.type_names.map Prod.fst) :
    m.type_names.lookup a = some (print_type_name m a) := by
  have hs := lookup_isSome_of_mem m.type_names a ha
  obtain ⟨v, hv⟩ := Option.isSome_iff_exists.mp hs
  rw [hv, print_type_name, hv]

theorem ptn_inj (m : CrushMap) (hvnd : (m.type_names.map Prod.snd).Nodup)
    (a b : Int) (ha : a ∈ m.type_names.map Prod.fst) (hb : b ∈ m.type_names.map Prod.fst)
    (h : print_type_name m a = print_type_name m b) : a = b := by
  have hma := lookup_mem_of _ _ _ (ptn_lookup m a ha)
  have hmb := lookup_mem_of _ _ _ (ptn_lookup m b hb)
  rw [h] at hma
  exact snd_inj_of_nodup _ a b _ hvnd hma hmb

theorem print_fixed_range (v : Int) (h0 : 0 ≤ v) (h1 : v ≤ 65536) :
    0 ≤ print_fixed v ∧ print_fixed v ≤ 1 := by
  rw [print_fixed]
  have hx0 : (0 : ℚ) ≤ (v : ℚ) * 1000 / 65536 := by
    apply div_nonneg _ (by norm_num)
    have : (0 : ℚ) ≤ (v : ℚ) := by exact_mod_cast h0
    linarith
  have hx1 : (v : ℚ) * 1000 / 65536 ≤ 1000 := by
    rw [div_le_iff (by norm_num : (0 : ℚ) < 65536)]
    have : (v : ℚ) ≤ 65536 := by exact_mod_cast h1
    linarith
  rw [round_eq]
  have hr0 : 0 ≤ ⌊(v : ℚ) * 1000 / 65536 + 1 / 2⌋ := by
    rw [Int.le_floor]
    push_cast
    linarith
  have hrle : (⌊(v : ℚ) * 1000 / 65536 + 1 / 2⌋ : ℚ) ≤ (v : ℚ) * 1000 / 65536 + 1 / 2 :=
    Int.floor_le _
  have hr1 : ⌊(v : ℚ) * 1000 / 65536 + 1 / 2⌋ < 1001 := by
    have hlt : ((⌊(v : ℚ) * 1000 / 65536 + 1 / 2⌋ : Int) : ℚ) < 1001 := by linarith
    exact_mod_cast hlt
  constructor
  · apply div_nonneg _ (by norm_num)
    exact_mod_cast hr0
  · rw [div_le_one (by norm_num : (0 : ℚ) < 1000)]
    have : ((⌊(v : ℚ) * 1000 / 65536 + 1 / 2⌋ : Int) : ℚ) ≤ 1000 := by
      exact_mod_cast Int.lt_add_one_iff.mp hr1
    exact this

theorem set_len_append {α : Type} : ∀ (l t : List α) (x v : α),
    (l ++ x :: t).set l.length v = l ++ v :: t := by
  intro l
  induction l with
  | nil => intro t x v; rfl
  | cons a l ih =>
    intro t x v
    simp only [List.cons_append, List.length_cons, List.set]
    rw [List.append_eq, ih]

theorem getD_len_append {α : Type} : ∀ (l t : List α) (x d : α),
    (l ++ x :: t).getD l.length d = x := by
  intro l
  induction l with
  | nil => intro t x d; rfl
  | cons a l ih =>
    intro t x d
    simp only [List.cons_append, List.length_cons, List.getD]
    exact ih t x d

theorem take_succ_set {α : Type} : ∀ (l : List α) (j : Nat) (v : α), j < l.length →
    (l.set j v).take (j + 1) = l.take j ++ [v] := by
  intro l
  induction l with
  | nil => intro j v h; exact absurd h (by simp)
  | cons a l ih =>
    intro j v h
    cases j with
    | zero => rfl
    | succ j =>
      simp only [List.set, List.take, List.cons_append]
      rw [ih j v (by simpa using h)]

theorem range_map_getD {α : Type} (d : α) : ∀ (l : List α),
    (List.range l.length).map (fun j => l.getD j d) = l := by
  intro l
  apply List.ext_getElem
  · simp
  · intro i h1 h2
    simp only [List.getElem_map, List.getElem_range]
    rw [List.getD_eq_getElem l d h2]

theorem find_used_fields : ∀ (ds : List Decl) (s : CState),
    ∃ ii, find_used_bucket_ids ds s = { s with id_item := ii } := by
  intro ds
  induction ds with
  | nil => intro s; exact ⟨s.id_item, rfl⟩
  | cons d rest ih =>
    intro s
    rw [find_used_bucket_ids] at *
    rw [List.foldl_cons]
    cases d with
    | dev dv => exact ih s
    | typ t0 => exact ih s
    | rule r => exact ih s
    | buck b =>
      cases hbid : b.bid with
      | none => simp only [hbid]; exact ih s
      | some k => simp only [hbid]; exact ih _

theorem devItemId_succ (m : CrushMap) (k : Nat) :
    devItemId m (k + 1) =
      (print_item_name m (k : Int), (k : Int)) :: devItemId m k := by
  rw [devItemId, devItemId, List.range_succ, List.map_append, List.reverse_append]
  rfl

theorem devOffGlobal_succ (m : CrushMap) (k : Nat) :
    devOffGlobal m (k + 1) =
      (if m.get_device_offload (k : Int) ≠ 0
       then [((k : Int), m.get_device_offload (k : Int))] else [])
        ++ devOffGlobal m k := by
  rw [devOffGlobal, devOffGlobal, List.range_succ, List.filterMap_append,
    List.reverse_append]
  by_cases h : m.get_device_offload (k : Int) = 0
  · simp [h]
  · simp [h]

theorem devEntries_succ (m : CrushMap) (k : Nat) :
    devEntries m (k + 1) = devEntries m k ++ [((k : Int), print_item_name m (k : Int))] := by
  rw [devEntries, devEntries, List.range_succ, List.map_append]
  rfl

theorem devNames_succ (m : CrushMap) (k : Nat) :
    devNames m (k + 1) = mput (k : Int) (print_item_name m (k : Int)) (devNames m k) := by
  rw [devNames, devNames, devEntries_succ, mputs_append]
  rfl

theorem devItemId_keys (m : CrushMap) (k : Nat) (x : String) :
    x ∈ (devItemId m k).map Prod.fst ↔
      ∃ i : Nat, i < k ∧ x = print_item_name m (i : Int) := by
  rw [devItemId]
  simp only [List.map_reverse, List.mem_reverse, List.map_map, List.mem_map,
    List.mem_range]
  constructor
  · rintro ⟨i, hi, he⟩
    exact ⟨i, hi, he.symm⟩
  · rintro ⟨i, hi, he⟩
    exact ⟨i, hi, he.symm⟩

theorem devItemId_fresh (m : CrushMap) (hC : Canonical m) (k : Nat)
    (hk : k < m.max_devices.toNat) :
    (devItemId m k).lookup (print_item_name m (k : Int)) = none := by
  apply lookup_none_not_mem
  rw [devItemId_keys]
  rintro ⟨i, hi, he⟩
  have hik : (i : Int) = (k : Int) := by
    apply pin_inj m hC.inames_vals _ _ _ _ he.symm
    · apply hC.dev_named
      omega
    · exact hC.dev_named k hk
  omega

theorem devItemId_lookup (m : CrushMap) (hC : Canonical m) :
    ∀ (k : Nat) (c : Int), 0 ≤ c → c < (k : Int) → (k : Int) ≤ m.max_devices →
      (devItemId m k).lookup (print_item_name m c) = some c := by
  intro k
  induction k with
  | zero => intro c h0 h1 _; omega
  | succ k ih =>
    intro c h0 h1 hle
    rw [devItemId_succ, List.lookup]
    by_cases hc : c = (k : Int)
    · subst hc
      simp
    · have hne : (print_item_name m c == print_item_name m (k : Int)) = false := by
        simp only [beq_eq_false_iff_ne, ne_eq]
        intro he
        apply hc
        apply pin_inj m hC.inames_vals _ _ _ _ he
        · have hc2 : c = ((c.toNat : Nat) : Int) := (Int.toNat_of_nonneg h0).symm
          rw [hc2]
          apply hC.dev_named
          omega
        · apply hC.dev_named
          omega
      rw [hne]
      apply ih c h0 (by omega) (by omega)

theorem dev_step (m : CrushMap) (hC : Canonical m) (k : Nat) (ii : List (Int × String))
    (hk : k < m.max_devices.toNat) :
    parse_one ⟨devItemId m k, ii, [], devOffGlobal m k, [], [],
        ⟨(k : Int), List.replicate k 0, [], [], [], devNames m k, []⟩⟩ (devDecl m k)
      = .ok ⟨devItemId m (k + 1), ((k : Int), print_item_name m (k : Int)) :: ii, [],
          devOffGlobal m (k + 1), [], [],
          ⟨((k + 1 : Nat) : Int), List.replicate (k + 1) 0, [], [], [],
            devNames m (k + 1), []⟩⟩ := by
  have hfresh := devItemId_fresh m hC k hk
  have hmax : ((k : Int) + 1).toNat = k + 1 := by omega
  have hoffl : (List.replicate k (0 : Int)).take ((k : Int) + 1).toNat
      ++ List.replicate (((k : Int) + 1).toNat - (List.replicate k (0 : Int)).length) 0
      = List.replicate (k + 1) (0 : Int) := by
    rw [hmax, List.length_replicate, List.take_replicate]
    have hmin : min (k + 1) k = k := by omega
    rw [hmin, show k + 1 - k = 1 from by omega, ← List.replicate_add]
  have hcast : ((k + 1 : Nat) : Int) = (k : Int) + 1 := by push_cast; ring
  rw [devDecl]
  rw [show ∀ s dv, parse_one s (.dev dv) = parse_device dv s from fun _ _ => rfl]
  rw [parse_device]
  simp only [CrushMap.set_item_name]
  rw [hfresh]
  simp only [Option.isSome_none, Bool.false_eq_true, if_false]
  by_cases hoff : m.get_device_offload (k : Int) = 0
  · rw [if_neg (by simp [hoff])]
    simp only [devMaxStep, CrushMap.set_max_devices]
    rw [if_pos (by omega : ((k : Int)) ≥ (k : Int))]
    rw [devItemId_succ, devNames_succ, devOffGlobal_succ, hcast, hoffl]
    rw [if_neg (by simp [hoff]), List.nil_append]
  · rw [if_pos (by simp [hoff])]
    have hin : m.get_device_offload (k : Int) ∈ m.offload := by
      rw [CrushMap.get_device_offload]
      have hlt : ((k : Int)).toNat < m.offload.length := by
        rw [hC.off_len]; omega
      rw [List.getD_eq_getElem _ _ hlt]
      exact List.getElem_mem hlt
    obtain ⟨hv0, hv1, hrt⟩ := hC.off_ok _ hin
    obtain ⟨hpf0, hpf1⟩ := print_fixed_range _ hv0 hv1
    simp only [devOffloadVal]
    rw [if_neg (by push_neg; exact ⟨hpf0, hpf1⟩)]
    simp only [devMaxStep, CrushMap.set_max_devices]
    rw [if_pos (by omega : ((k : Int)) ≥ (k : Int))]
    rw [devItemId_succ, devNames_succ, devOffGlobal_succ, hcast, hoffl, hrt]
    rw [if_pos (by simp [hoff]), List.singleton_append]

theorem dev_phase (m : CrushMap) (hC : Canonical m) :
    ∀ (r k : Nat) (ii : List (Int × String)), k + r = m.max_devices.toNat →
      ∃ ii2, (((List.range' k r).map (devDecl m)).foldlM parse_one
          ⟨devItemId m k, ii, [], devOffGlobal m k, [], [],
            ⟨(k : Int), List.replicate k 0, [], [], [], devNames m k, []⟩⟩ :
              Except CErr CState)
        = .ok ⟨devItemId m m.max_devices.toNat, ii2, [],
            devOffGlobal m m.max_devices.toNat, [], [],
            ⟨m.max_devices, List.replicate m.max_devices.toNat 0, [], [], [],
              devNames m m.max_devices.toNat, []⟩⟩ := by
  intro r
  induction r with
  | zero =>
    intro k ii hk
    rw [Nat.add_zero] at hk
    subst hk
    refine ⟨ii, ?_⟩
    rw [show List.range' m.max_devices.toNat 0 = [] from rfl, List.map_nil,
      List.foldlM_nil]
    rw [show ((m.max_devices.toNat : Nat) : Int) = m.max_devices from
      Int.toNat_of_nonneg hC.max_nonneg]
    rfl
  | succ r ihr =>
    intro k ii hk
    rw [List.range'_succ, List.map_cons, List.foldlM_cons,
      dev_step m hC k ii (by omega)]
    exact ihr (k + 1) (((k : Int), print_item_name m (k : Int)) :: ii) (by omega)

theorem except_bind_ok {ε α β : Type} (a : α) (f : α → Except ε β) :
    (Except.ok a >>= f) = f a := rfl

theorem typ_phase : ∀ (l : List (Int × String)) (s : CState),
    (((l.map fun p => Decl.typ ⟨p.1, p.2⟩).foldlM parse_one s) : Except CErr CState) =
      .ok { s with type_id := (l.map fun p => (p.2, p.1)).reverse ++ s.type_id,
                   crush := { s.crush with
                     type_names := mputs l s.crush.type_names } } := by
  intro l
  induction l with
  | nil =>
    intro s
    rw [List.map_nil, List.foldlM_nil, List.map_nil, List.reverse_nil, List.nil_append]
    rfl
  | cons p rest ih =>
    intro s
    rw [List.map_cons, List.foldlM_cons,
      show parse_one s (.typ ⟨p.1, p.2⟩) = .ok (parse_bucket_type ⟨p.1, p.2⟩ s) from rfl,
      except_bind_ok, ih, parse_bucket_type]
    simp only [Except.ok.injEq, CState.mk.injEq, CrushMap.mk.injEq,
      CrushMap.set_type_name, true_and, and_true]
    constructor
    · rw [List.map_cons, List.reverse_cons, List.append_assoc, List.singleton_append]
    · rw [mputs, mputs, List.foldl_cons]

theorem buckItemId_succ (m : CrushMap) (idx : Nat) :
    buckItemId m (idx + 1) =
      (if m.buckets.getD idx none ≠ none
       then [(print_item_name m (-1 - (idx : Int)), -1 - (idx : Int))] else [])
        ++ buckItemId m idx := by
  rw [buckItemId, buckItemId, List.range_succ, List.filterMap_append,
    List.reverse_append]
  by_cases h : m.buckets.getD idx none = none
  · rw [List.getD_eq_getElem?_getD] at h
    simp [h]
  · rw [List.getD_eq_getElem?_getD] at h
    simp [h]

theorem buckEntries_succ (m : CrushMap) (idx : Nat) :
    buckEntries m (idx + 1) =
      buckEntries m idx ++
        (if m.buckets.getD idx none ≠ none
         then [(-1 - (idx : Int), print_item_name m (-1 - (idx : Int)))] else []) := by
  rw [buckEntries, buckEntries, List.range_succ, List.filterMap_append]
  by_cases h : m.buckets.getD idx none = none
  · rw [List.getD_eq_getElem?_getD] at h
    simp [h]
  · rw [List.getD_eq_getElem?_getD] at h
    simp [h]

theorem neg_key_valid (m : CrushMap) (hC : Canonical m) (c : Int) (hc : c < 0)
    (hlt : (-1 - c).toNat < m.buckets.length)
    (hp : m.buckets.getD (-1 - c).toNat none ≠ none) :
    c ∈ m.item_names.map Prod.fst := by
  have he : c = -1 - (((-1 - c).toNat : Nat) : Int) := by omega
  rw [he]
  exact hC.buck_named (-1 - c).toNat hlt hp

theorem buckItemId_lookup (m : CrushMap) (hC : Canonical m) :
    ∀ (idx : Nat), idx ≤ m.buckets.length → ∀ c : Int, c < 0 →
      (-1 - c).toNat < idx → m.buckets.getD (-1 - c).toNat none ≠ none →
      (buckItemId m idx).lookup (print_item_name m c) = some c := by
  intro idx
  induction idx with
  | zero => intro _ c _ h2 _; omega
  | succ idx ih =>
    intro hle c hc h2 hp
    rw [buckItemId_succ]
    by_cases hpi : m.buckets.getD idx none = none
    · rw [if_neg (by rw [List.getD_eq_getElem?_getD] at hpi; simp [hpi]), List.nil_append]
      have hne : (-1 - c).toNat ≠ idx := by
        intro he
        rw [he] at hp
        exact hp hpi
      exact ih (by omega) c hc (by omega) hp
    · rw [if_pos hpi, List.singleton_append, List.lookup]
      by_cases hce : c = -1 - (idx : Int)
      · have hbeq : (print_item_name m c == print_item_name m (-1 - (idx : Int))) = true := by
          rw [hce]
          simp
        rw [hbeq, hce]
      · have hbeq : (print_item_name m c == print_item_name m (-1 - (idx : Int))) = false := by
          simp only [beq_eq_false_iff_ne, ne_eq]
          intro he
          apply hce
          apply pin_inj m hC.inames_vals _ _ _ _ he
          · exact neg_key_valid m hC c hc (by omega) hp
          · exact hC.buck_named idx (by omega) hpi
        rw [hbeq]
        have hne : (-1 - c).toNat ≠ idx := by omega
        exact ih (by omega) c hc (by omega) hp

theorem buckItemId_lookup_none (m : CrushMap) (hC : Canonical m) :
    ∀ (idx : Nat), idx ≤ m.buckets.length → ∀ c : Int,
      c ∈ m.item_names.map Prod.fst →
      (¬(c < 0 ∧ (-1 - c).toNat < idx ∧ m.buckets.getD (-1 - c).toNat none ≠ none)) →
      (buckItemId m idx).lookup (print_item_name m c) = none := by
  intro idx
  induction idx with
  | zero => intro _ c _ _; rfl
  | succ idx ih =>
    intro hle c hcv hno
    rw [buckItemId_succ]
    by_cases hpi : m.buckets.getD idx none = none
    · rw [if_neg (by rw [List.getD_eq_getElem?_getD] at hpi; simp [hpi]), List.nil_append]
      refine ih (by omega) c hcv ?_
      rintro ⟨h1, h2, h3⟩
      exact hno ⟨h1, by omega, h3⟩
    · rw [if_pos hpi, List.singleton_append, List.lookup]
      have hbeq : (print_item_name m c == print_item_name m (-1 - (idx : Int))) = false := by
        simp only [beq_eq_false_iff_ne, ne_eq]
        intro he
        have hceq : c = -1 - (idx : Int) := by
          apply pin_inj m hC.inames_vals _ _ hcv _ he
          exact hC.buck_named idx (by omega) hpi
        apply hno
        refine ⟨by omega, by omega, ?_⟩
        rw [show (-1 - c).toNat = idx from by omega]
        exact hpi
      rw [hbeq]
      refine ih (by omega) c hcv ?_
      rintro ⟨h1, h2, h3⟩
      exact hno ⟨h1, by omega, h3⟩

theorem devItemId_lookup_none (m : CrushMap) (hC : Canonical m) :
    ∀ (k : Nat), (k : Int) ≤ m.max_devices → ∀ c : Int,
      c ∈ m.item_names.map Prod.fst → (c < 0 ∨ (k : Int) ≤ c) →
      (devItemId m k).lookup (print_item_name m c) = none := by
  intro k
  induction k with
  | zero => intro _ c _ _; rfl
  | succ k ih =>
    intro hle c hcv hout
    rw [devItemId_succ, List.lookup]
    have hbeq : (print_item_name m c == print_item_name m (k : Int)) = false := by
      simp only [beq_eq_false_iff_ne, ne_eq]
      intro he
      have hceq : c = (k : Int) := by
        apply pin_inj m hC.inames_vals _ _ hcv _ he
        apply hC.dev_named
        omega
      omega
    rw [hbeq]
    refine ih (by omega) c hcv (by omega)

theorem itemId_lookup_dev (m : CrushMap) (hC : Canonical m) (idx : Nat)
    (hidx : idx ≤ m.buckets.length) (c : Int) (h0 : 0 ≤ c) (h1 : c < m.max_devices) :
    (buckItemId m idx ++ devItemId m m.max_devices.toNat).lookup (print_item_name m c)
      = some c := by
  have hcv : c ∈ m.item_names.map Prod.fst := by
    have hc2 : c = ((c.toNat : Nat) : Int) := by omega
    rw [hc2]
    exact hC.dev_named c.toNat (by omega)
  rw [lookup_append_none _ _ _
    (buckItemId_lookup_none m hC idx hidx c hcv (by rintro ⟨h, _, _⟩; omega))]
  exact devItemId_lookup m hC m.max_devices.toNat c h0 (by omega) (by omega)

theorem itemId_lookup_buck (m : CrushMap) (hC : Canonical m) (idx : Nat)
    (hidx : idx ≤ m.buckets.length) (c : Int) (hc : c < 0)
    (h2 : (-1 - c).toNat < idx) (hp : m.buckets.getD (-1 - c).toNat none ≠ none) :
    (buckItemId m idx ++ devItemId m m.max_devices.toNat).lookup (print_item_name m c)
      = some c :=
  lookup_append_some _ _ _ _ (buckItemId_lookup m hC idx hidx c hc h2 hp)

theorem itemId_fresh_buck (m : CrushMap) (hC : Canonical m) (idx : Nat)
    (hlt : idx < m.buckets.length) (hpi : m.buckets.getD idx none ≠ none) :
    (buckItemId m idx ++ devItemId m m.max_devices.toNat).lookup
      (print_item_name m (-1 - (idx : Int))) = none := by
  have hcv := hC.buck_named idx hlt hpi
  rw [lookup_append_none _ _ _
    (buckItemId_lookup_none m hC idx (by omega) _ hcv (by rintro ⟨_, h2, _⟩; omega))]
  exact devItemId_lookup_none m hC m.max_devices.toNat
    (le_of_eq (Int.toNat_of_nonneg hC.max_nonneg)) _ hcv (Or.inl (by omega))

theorem typeIdList_lookup (m : CrushMap) (hC : Canonical m) (t : Int)
    (ht : t ∈ m.type_names.map Prod.fst) :
    (typeIdList m).lookup (print_type_name m t) = some t := by
  apply lookup_of_mem_nodup
  · rw [typeIdList, List.map_reverse, List.nodup_reverse, List.map_map]
    have he : (Prod.fst ∘ fun p : Int × String => (p.2, p.1)) = Prod.snd := rfl
    rw [he]
    exact hC.tnames_vals
  · rw [typeIdList, List.mem_reverse, List.mem_map]
    refine ⟨(t, print_type_name m t), ?_, rfl⟩
    exact lookup_mem_of _ _ _ (ptn_lookup m t ht)

theorem algCode_inv (a : Int) (h : a = 2 ∨ a = 4) :
    algCode (crush_bucket_alg_name a) = some a := by
  rcases h with rfl | rfl <;> decide

theorem decompItems_fold (m : CrushMap) (alg : Int) (bk : CBucket) :
    ∀ (r a : Nat) (acc : List ItemDecl),
      (∀ j : Nat, a ≤ j → j < a + r → bk.weights.getD j 0 ≠ 0) →
      List.foldl (decompItemsStep m alg bk) (acc, false) (List.range' a r)
        = (acc ++ (List.range' a r).map (fun (j : Nat) =>
            (⟨print_item_name m (bk.items.getD j 0),
              some (print_fixed (bk.weights.getD j 0)), none⟩ : ItemDecl)), false) := by
  intro r
  induction r with
  | zero =>
    intro a acc _
    rw [show List.range' a 0 = [] from rfl, List.foldl_nil, List.map_nil,
      List.append_nil]
  | succ r ih =>
    intro a acc hnz
    rw [List.range'_succ, List.foldl_cons, List.map_cons]
    rw [show decompItemsStep m alg bk (acc, false) a =
      (acc ++ [⟨print_item_name m (bk.items.getD a 0),
        some (print_fixed (bk.weights.getD a 0)), none⟩], false) from by
        rw [decompItemsStep]
        rw [if_neg (hnz a (by omega) (by omega))]
        simp]
    rw [ih (a + 1) _ (fun j hj1 hj2 => hnz j (by omega) (by omega))]
    rw [List.append_assoc, List.singleton_append]

theorem decompItems_eq (m : CrushMap) (bk : CBucket) (halg : bk.alg = 2 ∨ bk.alg = 4)
    (hsz : bk.size = (bk.items.length : Int)) (hwl : bk.weights.length = bk.items.length)
    (hwpos : ∀ w ∈ bk.weights, 0 < w) :
    decompItems m bk = (List.range bk.items.length).map (fun (j : Nat) =>
      (⟨print_item_name m (bk.items.getD j 0),
        some (print_fixed (bk.weights.getD j 0)), none⟩ : ItemDecl)) := by
  rw [decompItems]
  have hflag : (bk.alg == 1 || bk.alg == 3) = false := by
    rcases halg with h | h <;> rw [h] <;> rfl
  rw [hflag]
  have hsn : bk.size.toNat = bk.items.length := by omega
  rw [hsn, List.range_eq_range']
  rw [decompItems_fold m bk.alg bk bk.items.length 0 []
    (fun j hj1 hj2 => by
      have hjw : j < bk.weights.length := by omega
      rw [List.getD_eq_getElem _ _ hjw]
      have := hwpos _ (List.getElem_mem hjw)
      omega)]
  rw [List.nil_append]

theorem scanItems_nopos (bname : String) :
    ∀ (its : List ItemDecl) (used : List Int) (size : Int),
      (∀ it ∈ its, it.pos = none) →
      scanItems bname its used size = .ok (used, size + (its.length : Int)) := by
  intro its
  induction its with
  | nil =>
    intro used size _
    rw [scanItems]
    simp
  | cons it rest ih =>
    intro used size hall
    rw [scanItems, hall it (List.mem_cons_self _ _)]
    rw [ih used (size + 1) (fun x hx => hall x (List.mem_cons_of_mem _ hx))]
    simp only [Except.ok.injEq, Prod.mk.injEq, true_and, List.length_cons]
    push_cast
    ring

theorem buckTbl_step (m : CrushMap) (idx k : Nat) (bk : CBucket)
    (hlen : idx < m.buckets.length) (hk : k ≤ idx)
    (habs : ∀ j : Nat, k ≤ j → j < idx → m.buckets.getD j none = none)
    (hpres : m.buckets.getD idx none = some bk) :
    (m.buckets.take k ++ List.replicate (idx + 1 - k) none).set idx (some bk)
      = m.buckets.take (idx + 1) := by
  have htkl : (m.buckets.take k).length = k := by
    rw [List.length_take]
    omega
  have hal : (m.buckets.take k ++ List.replicate (idx + 1 - k)
      (none : Option CBucket)).length = idx + 1 := by
    rw [List.length_append, htkl, List.length_replicate]
    omega
  apply List.ext_getElem?
  intro j
  by_cases hji : j = idx
  · subst hji
    rw [List.getElem?_set_self' ]
    rw [List.getElem?_take_of_lt (by omega)]
    have hjl : j < (m.buckets.take k ++ List.replicate (j + 1 - k)
        (none : Option CBucket)).length := by omega
    rw [List.getElem?_eq_getElem hjl, List.getElem?_eq_getElem hlen]
    rw [List.getD_eq_getElem _ _ hlen] at hpres
    simp [hpres]
  · rw [List.getElem?_set_ne (by omega)]
    by_cases hjk : j < k
    · rw [List.getElem?_append_left (by omega), List.getElem?_take_of_lt (by omega),
        List.getElem?_take_of_lt (by omega)]
    · by_cases hjle : j ≤ idx
      · rw [List.getElem?_append_right (by omega), htkl]
        rw [List.getElem?_replicate_of_lt (by omega)]
        rw [List.getElem?_take_of_lt (by omega)]
        have hjlen : j < m.buckets.length := by omega
        rw [List.getElem?_eq_getElem hjlen]
        have := habs j (by omega) (by omega)
        rw [List.getD_eq_getElem _ _ hjlen] at this
        rw [this]
      · rw [List.getElem?_eq_none_iff.mpr (by omega)]
        rw [List.getElem?_eq_none_iff.mpr (by rw [List.length_take]; omega)]

theorem inTbl_succ_present (m : CrushMap) (idx : Nat)
    (hpi : m.buckets.getD idx none ≠ none) :
    inTbl m (idx + 1) = mput (-1 - (idx : Int)) (print_item_name m (-1 - (idx : Int)))
      (inTbl m idx) := by
  rw [inTbl, inTbl, buckEntries_succ, if_pos hpi, mputs_append]
  rfl

theorem inTbl_succ_absent (m : CrushMap) (idx : Nat)
    (hpi : m.buckets.getD idx none = none) :
    inTbl m (idx + 1) = inTbl m idx := by
  rw [inTbl, inTbl, buckEntries_succ, if_neg (fun h => h hpi), List.append_nil]

theorem buckItemId_succ_absent (m : CrushMap) (idx : Nat)
    (hpi : m.buckets.getD idx none = none) :
    buckItemId m (idx + 1) = buckItemId m idx := by
  rw [buckItemId_succ, if_neg (fun h => h hpi), List.nil_append]

theorem effWName_some (s : CState) (it : ItemDecl) (iid : Int)
    (h : s.item_id.lookup it.iname = some iid) : effWName s it = effW s iid it := by
  rw [effWName, h]

theorem buck_step (m : CrushMap) (hC : Canonical m) (idx k : Nat)
    (ii : List (Int × String)) (iw : List (Int × ℚ)) (bk : CBucket)
    (hlen : idx < m.buckets.length) (hk : k ≤ idx)
    (habs : ∀ j : Nat, k ≤ j → j < idx → m.buckets.getD j none = none)
    (hpres : m.buckets.getD idx none = some bk) :
    ∃ ii2 iw2, parse_bucket ⟨print_type_name m bk.type,
        print_item_name m (-1 - (idx : Int)), some (-1 - (idx : Int)),
        crush_bucket_alg_name bk.alg, decompItems m bk⟩ (buckState m idx k ii iw)
      = .ok (buckState m (idx + 1) (idx + 1) ii2 iw2) := by
  obtain ⟨hid, halg, htyp, hsz, hwl, hwts, hch⟩ := hC.buckets_ok idx bk hpres
  have hpi : m.buckets.getD idx none ≠ none := by rw [hpres]; simp
  have hwpos : ∀ w ∈ bk.weights, 0 < w := fun w hw => (hwts w hw).1
  rw [decompItems_eq m bk halg hsz hwl hwpos]
  rw [parse_bucket]
  rw [show (buckState m idx k ii iw).type_id = typeIdList m from rfl]
  rw [typeIdList_lookup m hC bk.type htyp]
  simp only
  rw [show (buckState m idx k ii iw).item_id
    = buckItemId m idx ++ devItemId m m.max_devices.toNat from rfl]
  rw [itemId_fresh_buck m hC idx hlen hpi]
  simp only [Option.isSome_none, Bool.false_eq_true, if_false]
  rw [algCode_inv bk.alg halg]
  simp only
  have hall_pos : ∀ it ∈ (List.range bk.items.length).map (fun (j : Nat) =>
      (⟨print_item_name m (bk.items.getD j 0),
        some (print_fixed (bk.weights.getD j 0)), none⟩ : ItemDecl)), it.pos = none := by
    intro it hit
    obtain ⟨j, _, hj⟩ := List.mem_map.mp hit
    rw [← hj]
  rw [scanItems_nopos _ _ [] 0 hall_pos]
  simp only [List.length_map, List.length_range, zero_add, List.isEmpty_nil, if_true]
  have hL0 : (0 : Int) ≤ (bk.items.length : Int) := by omega
  have hallres : ∀ it ∈ (List.range bk.items.length).map (fun (j : Nat) =>
      (⟨print_item_name m (bk.items.getD j 0),
        some (print_fixed (bk.weights.getD j 0)), none⟩ : ItemDecl)),
      it.pos = none ∧ ((buckState m idx k ii iw).item_id.lookup it.iname).isSome := by
    intro it hit
    obtain ⟨j, hjr, hj⟩ := List.mem_map.mp hit
    rw [← hj]
    refine ⟨rfl, ?_⟩
    rw [List.mem_range] at hjr
    have hmem : bk.items.getD j 0 ∈ bk.items := by
      rw [List.getD_eq_getElem _ _ (by omega)]
      exact List.getElem_mem (by omega)
    rw [show (buckState m idx k ii iw).item_id
      = buckItemId m idx ++ devItemId m m.max_devices.toNat from rfl]
    rcases hch _ hmem with ⟨h0, h1⟩ | ⟨h0, h1, h2⟩
    · rw [itemId_lookup_dev m hC idx (by omega) _ h0 h1]
      rfl
    · rw [itemId_lookup_buck m hC idx (by omega) _ h0 (by omega) h2]
      rfl
  have hplace := placeItems_nopos (buckState m idx k ii iw)
    (print_item_name m (-1 - (idx : Int))) (bk.items.length : Int) hL0
    ((List.range bk.items.length).map (fun (j : Nat) =>
      (⟨print_item_name m (bk.items.getD j 0),
        some (print_fixed (bk.weights.getD j 0)), none⟩ : ItemDecl)))
    [] [] 0 rfl hallres
  simp only [List.nil_append, List.length_map, List.length_range, List.length_nil,
    Nat.cast_zero, zero_add, Int.toNat_natCast] at hplace
  rw [show ((bk.items.length : Int)).toNat = bk.items.length from Int.toNat_natCast _]
  rw [hplace]
  simp only
  have hresolve : ((List.range bk.items.length).map (fun (j : Nat) =>
      (⟨print_item_name m (bk.items.getD j 0),
        some (print_fixed (bk.weights.getD j 0)), none⟩ : ItemDecl))).map
      (resolvedId (buckState m idx k ii iw)) = bk.items := by
    rw [List.map_map]
    have hpt : ∀ j ∈ List.range bk.items.length,
        (resolvedId (buckState m idx k ii iw) ∘ fun (j : Nat) =>
          (⟨print_item_name m (bk.items.getD j 0),
            some (print_fixed (bk.weights.getD j 0)), none⟩ : ItemDecl)) j
        = bk.items.getD j 0 := by
      intro j hjr
      rw [List.mem_range] at hjr
      have hmem : bk.items.getD j 0 ∈ bk.items := by
        rw [List.getD_eq_getElem _ _ (by omega)]
        exact List.getElem_mem (by omega)
      simp only [Function.comp_apply, resolvedId]
      rw [show (buckState m idx k ii iw).item_id
        = buckItemId m idx ++ devItemId m m.max_devices.toNat from rfl]
      rcases hch _ hmem with ⟨h0, h1⟩ | ⟨h0, h1, h2⟩
      · rw [itemId_lookup_dev m hC idx (by omega) _ h0 h1]
        rfl
      · rw [itemId_lookup_buck m hC idx (by omega) _ h0 (by omega) h2]
        rfl
    rw [List.map_congr_left hpt]
    exact range_map_getD 0 bk.items
  have hweights : ((List.range bk.items.length).map (fun (j : Nat) =>
      (⟨print_item_name m (bk.items.getD j 0),
        some (print_fixed (bk.weights.getD j 0)), none⟩ : ItemDecl))).map
      (fun it => to_fixed (effWName (buckState m idx k ii iw) it)) = bk.weights := by
    rw [List.map_map]
    have hpt : ∀ j ∈ List.range bk.items.length,
        ((fun it => to_fixed (effWName (buckState m idx k ii iw) it)) ∘ fun (j : Nat) =>
          (⟨print_item_name m (bk.items.getD j 0),
            some (print_fixed (bk.weights.getD j 0)), none⟩ : ItemDecl)) j
        = bk.weights.getD j 0 := by
      intro j hjr
      rw [List.mem_range] at hjr
      have hmem : bk.items.getD j 0 ∈ bk.items := by
        rw [List.getD_eq_getElem _ _ (by omega)]
        exact List.getElem_mem (by omega)
      have hwmem : bk.weights.getD j 0 ∈ bk.weights := by
        rw [List.getD_eq_getElem _ _ (by omega)]
        exact List.getElem_mem (by omega)
      simp only [Function.comp_apply]
      rcases hch _ hmem with ⟨h0, h1⟩ | ⟨h0, h1, h2⟩
      · rw [effWName_some _ _ _ (by
          rw [show (buckState m idx k ii iw).item_id
            = buckItemId m idx ++ devItemId m m.max_devices.toNat from rfl]
          exact itemId_lookup_dev m hC idx (by omega) _ h0 h1)]
        rw [effW]
        simp only [Option.getD_some]
        exact (hwts _ hwmem).2
      · rw [effWName_some _ _ _ (by
          rw [show (buckState m idx k ii iw).item_id
            = buckItemId m idx ++ devItemId m m.max_devices.toNat from rfl]
          exact itemId_lookup_buck m hC idx (by omega) _ h0 (by omega) h2)]
        rw [effW]
        simp only [Option.getD_some]
        exact (hwts _ hwmem).2
    rw [List.map_congr_left hpt]
    have hll : bk.weights.length = bk.items.length := hwl
    rw [show List.range bk.items.length = List.range bk.weights.length from by rw [hll]]
    exact range_map_getD 0 bk.weights
  rw [hresolve, hweights]
  rw [show (some (-1 - (idx : Int))).getD 0 = -1 - (idx : Int) from rfl]
  rw [if_neg (by omega : ¬(-1 - (idx : Int) = 0))]
  refine ⟨(-1 - (idx : Int), print_item_name m (-1 - (idx : Int))) :: ii,
    (-1 - (idx : Int),
      0 + (((List.range bk.items.length).map (fun (j : Nat) =>
        (⟨print_item_name m (bk.items.getD j 0),
          some (print_fixed (bk.weights.getD j 0)), none⟩ : ItemDecl))).map
        (effWName (buckState m idx k ii iw))).sum) :: iw, ?_⟩
  simp only [Except.ok.injEq]
  have hbk : (⟨-1 - (idx : Int), bk.alg, bk.type, (bk.items.length : Int),
      bk.items, bk.weights⟩ : CBucket) = bk := by
    obtain ⟨a, b, c, d, e, f⟩ := bk
    simp only at hid hsz
    rw [hid, hsz]
  simp only [buckState]
  simp only [CState.mk.injEq, true_and, and_true]
  refine ⟨?_, by rw [zero_add], ?_⟩
  · rw [buckItemId_succ, if_pos hpi, List.singleton_append, List.cons_append]
  · simp only [CrushMap.add_bucket, CrushMap.set_item_name]
    have hidx2 : (-1 - (-1 - (idx : Int))).toNat = idx := by omega
    rw [hidx2]
    have htkl : (m.buckets.take k).length = k := by
      rw [List.length_take]
      omega
    rw [htkl, hbk]
    simp only [CrushMap.mk.injEq, true_and, and_true]
    refine ⟨?_, ?_⟩
    · exact buckTbl_step m idx k bk hlen hk habs hpres
    · rw [inTbl_succ_present m idx hpi]

theorem buck_phase (m : CrushMap) (hC : Canonical m) :
    ∀ (r idx k : Nat) (ii : List (Int × String)) (iw : List (Int × ℚ)),
      idx + r = m.buckets.length → k ≤ idx →
      (∀ j : Nat, k ≤ j → j < idx → m.buckets.getD j none = none) →
      ∃ ii2 iw2 k2, k2 ≤ m.buckets.length ∧
        (∀ j : Nat, k2 ≤ j → j < m.buckets.length → m.buckets.getD j none = none) ∧
        (((List.range' idx r).filterMap (buckDecl m)).foldlM parse_one
            (buckState m idx k ii iw) : Except CErr CState)
          = .ok (buckState m m.buckets.length k2 ii2 iw2) := by
  intro r
  induction r with
  | zero =>
    intro idx k ii iw hlen hk habs
    rw [Nat.add_zero] at hlen
    subst hlen
    exact ⟨ii, iw, k, by omega, habs, rfl⟩
  | succ r ihr =>
    intro idx k ii iw hlen hk habs
    rw [List.range'_succ]
    cases hget : m.buckets.getD idx none with
    | none =>
      have hbd : buckDecl m idx = none := by
        rw [buckDecl.eq_def, hget]
      rw [List.filterMap_cons_none hbd]
      have hse : buckState m (idx + 1) k ii iw = buckState m idx k ii iw := by
        rw [buckState, buckState, buckItemId_succ_absent m idx hget,
          inTbl_succ_absent m idx hget]
      have habs2 : ∀ j : Nat, k ≤ j → j < idx + 1 → m.buckets.getD j none = none := by
        intro j hj1 hj2
        by_cases hje : j = idx
        · rw [hje]
          exact hget
        · exact habs j hj1 (by omega)
      obtain ⟨ii2, iw2, k2, h1, h2, h3⟩ := ihr (idx + 1) k ii iw (by omega) (by omega) habs2
      rw [hse] at h3
      exact ⟨ii2, iw2, k2, h1, h2, h3⟩
    | some bk =>
      have hbd : buckDecl m idx = some (.buck ⟨print_type_name m bk.type,
          print_item_name m (-1 - (idx : Int)), some (-1 - (idx : Int)),
          crush_bucket_alg_name bk.alg, decompItems m bk⟩) := by
        rw [buckDecl.eq_def, hget]
      rw [List.filterMap_cons_some hbd]
      rw [List.foldlM_cons]
      obtain ⟨ii2, iw2, hstep⟩ := buck_step m hC idx k ii iw bk (by omega) hk habs hget
      rw [show parse_one (buckState m idx k ii iw) (Decl.buck ⟨print_type_name m bk.type,
          print_item_name m (-1 - (idx : Int)), some (-1 - (idx : Int)),
          crush_bucket_alg_name bk.alg, decompItems m bk⟩)
        = parse_bucket ⟨print_type_name m bk.type, print_item_name m (-1 - (idx : Int)),
            some (-1 - (idx : Int)), crush_bucket_alg_name bk.alg, decompItems m bk⟩
            (buckState m idx k ii iw) from rfl, hstep, except_bind_ok]
      exact ihr (idx + 1) (idx + 1) ii2 iw2 (by omega) (by omega)
        (fun j hj1 hj2 => absurd hj2 (by omega))

theorem devEntries_sorted (m : CrushMap) (k : Nat) :
    (devEntries m k).Chain' (fun p q => p.1 < q.1) := by
  rw [chain'_iff_pairwise_keys, devEntries, List.pairwise_map]
  apply (List.pairwise_lt_range k).imp
  intro a b h
  simp only
  exact_mod_cast h

theorem devNames_eq (m : CrushMap) (k : Nat) : devNames m k = devEntries m k := by
  rw [devNames, mputs_asc _ _ (by rw [List.nil_append]; exact devEntries_sorted m k)]
  rw [List.nil_append]

theorem inTbl_sorted (m : CrushMap) (idx : Nat) :
    (inTbl m idx).Chain' (fun p q => p.1 < q.1) := by
  rw [inTbl]
  apply mputs_sorted
  rw [devNames_eq]
  exact devEntries_sorted m m.max_devices.toNat

theorem devEntries_keys_mem (m : CrushMap) (k : Nat) (x : Int) :
    x ∈ (devEntries m k).map Prod.fst ↔ ∃ i : Nat, i < k ∧ x = (i : Int) := by
  rw [devEntries, List.map_map]
  simp only [List.mem_map, Function.comp_apply, List.mem_range]
  constructor
  · rintro ⟨i, hi, hx⟩
    exact ⟨i, hi, hx.symm⟩
  · rintro ⟨i, hi, hx⟩
    exact ⟨i, hi, hx.symm⟩

theorem buckEntries_keys_mem (m : CrushMap) (idx : Nat) (x : Int) :
    x ∈ (buckEntries m idx).map Prod.fst ↔
      ∃ i : Nat, i < idx ∧ m.buckets.getD i none ≠ none ∧ x = -1 - (i : Int) := by
  rw [buckEntries, List.map_filterMap]
  simp only [List.mem_filterMap, List.mem_range]
  constructor
  · rintro ⟨i, hi, hx⟩
    by_cases h : m.buckets.getD i none ≠ none
    · rw [if_pos h] at hx
      simp only [Option.map_some', Option.mem_def, Option.some.injEq] at hx
      exact ⟨i, hi, h, hx.symm⟩
    · rw [if_neg h] at hx
      simp at hx
  · rintro ⟨i, hi, hp, hx⟩
    refine ⟨i, hi, ?_⟩
    rw [if_pos hp]
    simp [hx]

theorem devEntries_keys_nodup (m : CrushMap) (k : Nat) :
    ((devEntries m k).map Prod.fst).Nodup := by
  rw [devEntries, List.map_map]
  have he : (Prod.fst ∘ fun (i : Nat) => ((i : Int), print_item_name m (i : Int)))
      = fun (i : Nat) => (i : Int) := rfl
  rw [he]
  exact List.Nodup.map (fun a b h => by exact_mod_cast h) (List.nodup_range k)

theorem buckEntries_keys_nodup (m : CrushMap) (idx : Nat) :
    ((buckEntries m idx).map Prod.fst).Nodup := by
  rw [buckEntries, List.map_filterMap]
  apply List.Nodup.filterMap _ (List.nodup_range idx)
  intro a b x hxa hxb
  by_cases h1 : m.buckets.getD a none ≠ none
  · rw [if_pos h1] at hxa
    by_cases h2 : m.buckets.getD b none ≠ none
    · rw [if_pos h2] at hxb
      simp only [Option.map_some', Option.mem_def, Option.some.injEq] at hxa hxb
      have : -1 - (a : Int) = -1 - (b : Int) := by rw [hxa, hxb]
      omega
    · rw [if_neg h2] at hxb
      simp at hxb
  · rw [if_neg h1] at hxa
    simp at hxa

theorem inTbl_lookup_mem (m : CrushMap) (hC : Canonical m) (a : Int)
    (ha : a ∈ m.item_names.map Prod.fst) :
    (inTbl m m.buckets.length).lookup a = some (print_item_name m a) := by
  obtain ⟨p, hp, hpa⟩ := List.mem_map.mp ha
  rcases hC.inames_keys p hp with ⟨h0, h1⟩ | ⟨h0, h1, h2⟩
  · rw [hpa] at h0 h1
    rw [inTbl, mputs_lookup_not_mem _ _ a (by
      rw [buckEntries_keys_mem]
      rintro ⟨i, _, _, hx⟩
      omega)]
    rw [devNames_eq]
    apply lookup_of_mem_nodup _ _ _ (devEntries_keys_nodup m _)
    rw [devEntries]
    refine List.mem_map.mpr ⟨a.toNat, List.mem_range.mpr (by omega), ?_⟩
    rw [show ((a.toNat : Nat) : Int) = a from by omega]
  · rw [hpa] at h0 h1 h2
    rw [inTbl]
    apply mputs_lookup_of_mem _ _ _ _ (buckEntries_keys_nodup m _)
    rw [buckEntries]
    refine List.mem_filterMap.mpr ⟨(-1 - a).toNat, List.mem_range.mpr (by omega), ?_⟩
    rw [if_pos h2]
    rw [show -1 - (((-1 - a).toNat : Nat) : Int) = a from by omega]

theorem inTbl_lookup_notmem (m : CrushMap) (hC : Canonical m) (a : Int)
    (ha : a ∉ m.item_names.map Prod.fst) :
    (inTbl m m.buckets.length).lookup a = none := by
  rw [inTbl, mputs_lookup_not_mem _ _ a (by
    rw [buckEntries_keys_mem]
    rintro ⟨i, hi, hp, hx⟩
    apply ha
    rw [hx]
    exact hC.buck_named i hi hp)]
  rw [devNames_eq]
  apply lookup_none_not_mem
  rw [devEntries_keys_mem]
  rintro ⟨i, hi, hx⟩
  apply ha
  rw [hx]
  exact hC.dev_named i hi

theorem inTbl_full (m : CrushMap) (hC : Canonical m) :
    inTbl m m.buckets.length = m.item_names := by
  apply sorted_assoc_ext _ _ (inTbl_sorted m _) hC.inames_sorted
  intro a
  by_cases ha : a ∈ m.item_names.map Prod.fst
  · rw [inTbl_lookup_mem m hC a ha, pin_lookup m a ha]
  · rw [inTbl_lookup_notmem m hC a ha, lookup_none_not_mem _ _ ha]

theorem rnUpTo_succ_some (m : CrushMap) (i : Nat) (n : String)
    (h : m.rule_names.lookup (i : Int) = some n) :
    rnUpTo m (i + 1) = rnUpTo m i ++ [((i : Int), n)] := by
  rw [rnUpTo, rnUpTo, List.range_succ, List.filterMap_append]
  congr 1
  rw [List.filterMap, List.filterMap, h]
  rfl

theorem rnUpTo_succ_none (m : CrushMap) (i : Nat)
    (h : m.rule_names.lookup (i : Int) = none) :
    rnUpTo m (i + 1) = rnUpTo m i := by
  rw [rnUpTo, rnUpTo, List.range_succ, List.filterMap_append]
  rw [List.filterMap, List.filterMap, h]
  simp

theorem ruleIdUpTo_succ_some (m : CrushMap) (i : Nat) (n : String)
    (h : m.rule_names.lookup (i : Int) = some n) :
    ruleIdUpTo m (i + 1) = (n, (i : Int)) :: ruleIdUpTo m i := by
  rw [ruleIdUpTo, ruleIdUpTo, List.range_succ, List.filterMap_append,
    List.reverse_append]
  rw [List.filterMap, List.filterMap, h]
  rfl

theorem ruleIdUpTo_succ_none (m : CrushMap) (i : Nat)
    (h : m.rule_names.lookup (i : Int) = none) :
    ruleIdUpTo m (i + 1) = ruleIdUpTo m i := by
  rw [ruleIdUpTo, ruleIdUpTo, List.range_succ, List.filterMap_append,
    List.reverse_append]
  rw [List.filterMap, List.filterMap, h]
  simp

theorem rnUpTo_mem (m : CrushMap) (i : Nat) (p : Int × String)
    (hp : p ∈ rnUpTo m i) :
    ∃ j : Nat, j < i ∧ (j : Int) = p.1 ∧ m.rule_names.lookup (j : Int) = some p.2 := by
  rw [rnUpTo] at hp
  obtain ⟨j, hj, hfj⟩ := List.mem_filterMap.mp hp
  rw [List.mem_range] at hj
  cases h : m.rule_names.lookup (j : Int) with
  | none => rw [h] at hfj; exact absurd hfj (by simp)
  | some n =>
    rw [h] at hfj
    simp only [Option.map_some', Option.some.injEq] at hfj
    rw [← hfj]
    exact ⟨j, hj, rfl, h⟩

theorem ruleIdUpTo_fresh (m : CrushMap) (hC : Canonical m) (i : Nat) (n : String)
    (h : m.rule_names.lookup (i : Int) = some n) :
    (ruleIdUpTo m i).lookup n = none := by
  apply lookup_none_not_mem
  intro hmem
  obtain ⟨p, hp, hpn⟩ := List.mem_map.mp hmem
  rw [ruleIdUpTo, List.mem_reverse] at hp
  obtain ⟨j, hj, hfj⟩ := List.mem_filterMap.mp hp
  rw [List.mem_range] at hj
  cases hl : m.rule_names.lookup (j : Int) with
  | none => rw [hl] at hfj; exact absurd hfj (by simp)
  | some n2 =>
    rw [hl] at hfj
    simp only [Option.map_some', Option.some.injEq] at hfj
    have hn2 : n2 = n := by rw [← hpn, ← hfj]
    rw [hn2] at hl
    have hmi := lookup_mem_of _ _ _ h
    have hmj := lookup_mem_of _ _ _ hl
    have := snd_inj_of_nodup _ _ _ _ hC.rnames_vals hmi hmj
    omega

theorem itemId_lookup_valid (m : CrushMap) (hC : Canonical m) (c : Int)
    (hc : c ∈ m.item_names.map Prod.fst) :
    (buckItemId m m.buckets.length ++ devItemId m m.max_devices.toNat).lookup
      (print_item_name m c) = some c := by
  obtain ⟨p, hp, hpa⟩ := List.mem_map.mp hc
  rcases hC.inames_keys p hp with ⟨h0, h1⟩ | ⟨h0, h1, h2⟩
  · rw [hpa] at h0 h1
    exact itemId_lookup_dev m hC m.buckets.length (le_refl _) c h0 h1
  · rw [hpa] at h0 h1 h2
    exact itemId_lookup_buck m hC m.buckets.length (le_refl _) c h0 h1 h2

theorem set_rule_step_last (c : CrushMap) (pre : List CRule) (r0 : CRule)
    (hrules : c.rules = pre ++ [r0]) (j : Nat) (stv : CStep) :
    c.set_rule_step (pre.length : Int) j stv
      = { c with rules := pre ++ [{ r0 with steps := r0.steps.set j stv }] } := by
  rw [CrushMap.set_rule_step, hrules, Int.toNat_natCast, getD_len_append,
    set_len_append]

theorem setRuleSteps_fill (m : CrushMap) (hC : Canonical m) (rname : String) :
    ∀ (sts : List CStep) (j : Nat) (s : CState) (pre : List CRule) (r0 : CRule),
      s.item_id = buckItemId m m.buckets.length ++ devItemId m m.max_devices.toNat →
      s.type_id = typeIdList m →
      s.crush.rules = pre ++ [r0] →
      r0.steps.length = j + sts.length →
      (∀ st ∈ sts,
        (st.op = .take → (st.arg1 ∈ m.item_names.map Prod.fst) ∧ st.arg2 = 0) ∧
        (st.op = .emit → st.arg1 = 0 ∧ st.arg2 = 0) ∧
        st.op ≠ .noop ∧
        ((st.op = .chooseFirstn ∨ st.op = .chooseIndep ∨ st.op = .chooseLeafFirstn ∨
          st.op = .chooseLeafIndep) → st.arg2 ∈ m.type_names.map Prod.fst)) →
      setRuleSteps rname (pre.length : Int) (sts.map (decompStep m)) j s
        = .ok { s with crush := { s.crush with
            rules := pre ++ [{ r0 with steps := r0.steps.take j ++ sts }] } } := by
  intro sts
  induction sts with
  | nil =>
    intro j s pre r0 hii hti hrules hlen _
    rw [List.length_nil, Nat.add_zero] at hlen
    rw [List.map_nil, setRuleSteps, List.append_nil]
    rw [show r0.steps.take j = r0.steps from by
      rw [← hlen]
      exact List.take_length r0.steps]
    rw [← hrules]
  | cons st rest ih =>
    intro j s pre r0 hii hti hrules hlen hv
    obtain ⟨hvt, hve, hvn, hvc⟩ := hv st (List.mem_cons_self _ _)
    have hvrest := fun x hx => hv x (List.mem_cons_of_mem _ hx)
    have hlen2 : r0.steps.length = j + (rest.length + 1) := by
      rw [hlen, List.length_cons]
    obtain ⟨op, a1, a2⟩ := st
    rw [List.map_cons]
    cases op with
    | noop => exact absurd rfl hvn
    | take =>
      obtain ⟨hval, ha2⟩ := hvt rfl
      simp only at hval ha2
      subst ha2
      rw [show decompStep m ⟨.take, a1, 0⟩ = .take (print_item_name m a1) from rfl]
      have hlk : s.item_id.lookup (print_item_name m a1) = some a1 := by
        rw [hii]
        exact itemId_lookup_valid m hC a1 hval
      rw [setRuleSteps, hlk]
      simp only
      rw [set_rule_step_last s.crush pre r0 hrules j ⟨.take, a1, 0⟩]
      rw [ih (j + 1)
        { s with crush := { s.crush with
            rules := pre ++ [{ r0 with steps := r0.steps.set j ⟨.take, a1, 0⟩ }] } }
        pre { r0 with steps := r0.steps.set j ⟨.take, a1, 0⟩ }
        hii hti rfl (by simp only [List.length_set]; omega) hvrest]
      rw [show (r0.steps.set j (⟨.take, a1, 0⟩ : CStep)).take (j + 1)
        = r0.steps.take j ++ [(⟨.take, a1, 0⟩ : CStep)] from
          take_succ_set _ _ _ (by omega)]
      rw [List.append_assoc, List.singleton_append]
    | chooseFirstn =>
      have hval := hvc (Or.inl rfl)
      simp only at hval
      rw [show decompStep m ⟨.chooseFirstn, a1, a2⟩
        = .choose false .firstn a1 (print_type_name m a2) from rfl]
      have hlk : s.type_id.lookup (print_type_name m a2) = some a2 := by
        rw [hti]
        exact typeIdList_lookup m hC a2 hval
      rw [setRuleSteps, hlk]
      simp only
      rw [set_rule_step_last s.crush pre r0 hrules j ⟨stepOpOf false .firstn, a1, a2⟩]
      rw [ih (j + 1)
        { s with crush := { s.crush with
            rules := pre ++ [{ r0 with steps := r0.steps.set j ⟨stepOpOf false .firstn, a1, a2⟩ }] } }
        pre { r0 with steps := r0.steps.set j ⟨stepOpOf false .firstn, a1, a2⟩ }
        hii hti rfl (by simp only [List.length_set]; omega) hvrest]
      rw [show (r0.steps.set j (⟨stepOpOf false Mode.firstn, a1, a2⟩ : CStep)).take (j + 1)
        = r0.steps.take j ++ [(⟨stepOpOf false Mode.firstn, a1, a2⟩ : CStep)] from
          take_succ_set _ _ _ (by omega)]
      rw [List.append_assoc, List.singleton_append]
      rfl
    | chooseIndep =>
      have hval := hvc (Or.inr (Or.inl rfl))
      simp only at hval
      rw [show decompStep m ⟨.chooseIndep, a1, a2⟩
        = .choose false .indep a1 (print_type_name m a2) from rfl]
      have hlk : s.type_id.lookup (print_type_name m a2) = some a2 := by
        rw [hti]
        exact typeIdList_lookup m hC a2 hval
      rw [setRuleSteps, hlk]
      simp only
      rw [set_rule_step_last s.crush pre r0 hrules j ⟨stepOpOf false .indep, a1, a2⟩]
      rw [ih (j + 1)
        { s with crush := { s.crush with
            rules := pre ++ [{ r0 with steps := r0.steps.set j ⟨stepOpOf false .indep, a1, a2⟩ }] } }
        pre { r0 with steps := r0.steps.set j ⟨stepOpOf false .indep, a1, a2⟩ }
        hii hti rfl (by simp only [List.length_set]; omega) hvrest]
      rw [show (r0.steps.set j (⟨stepOpOf false Mode.indep, a1, a2⟩ : CStep)).take (j + 1)
        = r0.steps.take j ++ [(⟨stepOpOf false Mode.indep, a1, a2⟩ : CStep)] from
          take_succ_set _ _ _ (by omega)]
      rw [List.append_assoc, List.singleton_append]
      rfl
    | chooseLeafFirstn =>
      have hval := hvc (Or.inr (Or.inr (Or.inl rfl)))
      simp only at hval
      rw [show decompStep m ⟨.chooseLeafFirstn, a1, a2⟩
        = .choose true .firstn a1 (print_type_name m a2) from rfl]
      have hlk : s.type_id.lookup (print_type_name m a2) = some a2 := by
        rw [hti]
        exact typeIdList_lookup m hC a2 hval
      rw [setRuleSteps, hlk]
      simp only
      rw [set_rule_step_last s.crush pre r0 hrules j ⟨stepOpOf true .firstn, a1, a2⟩]
      rw [ih (j + 1)
        { s with crush := { s.crush with
            rules := pre ++ [{ r0 with steps := r0.steps.set j ⟨stepOpOf true .firstn, a1, a2⟩ }] } }
        pre { r0 with steps := r0.steps.set j ⟨stepOpOf true .firstn, a1, a2⟩ }
        hii hti rfl (by simp only [List.length_set]; omega) hvrest]
      rw [show (r0.steps.set j (⟨stepOpOf true Mode.firstn, a1, a2⟩ : CStep)).take (j + 1)
        = r0.steps.take j ++ [(⟨stepOpOf true Mode.firstn, a1, a2⟩ : CStep)] from
          take_succ_set _ _ _ (by omega)]
      rw [List.append_assoc, List.singleton_append]
      rfl
    | chooseLeafIndep =>
      have hval := hvc (Or.inr (Or.inr (Or.inr rfl)))
      simp only at hval
      rw [show decompStep m ⟨.chooseLeafIndep, a1, a2⟩
        = .choose true .indep a1 (print_type_name m a2) from rfl]
      have hlk : s.type_id.lookup (print_type_name m a2) = some a2 := by
        rw [hti]
        exact typeIdList_lookup m hC a2 hval
      rw [setRuleSteps, hlk]
      simp only
      rw [set_rule_step_last s.crush pre r0 hrules j ⟨stepOpOf true .indep, a1, a2⟩]
      rw [ih (j + 1)
        { s with crush := { s.crush with
            rules := pre ++ [{ r0 with steps := r0.steps.set j ⟨stepOpOf true .indep, a1, a2⟩ }] } }
        pre { r0 with steps := r0.steps.set j ⟨stepOpOf true .indep, a1, a2⟩ }
        hii hti rfl (by simp only [List.length_set]; omega) hvrest]
      rw [show (r0.steps.set j (⟨stepOpOf true Mode.indep, a1, a2⟩ : CStep)).take (j + 1)
        = r0.steps.take j ++ [(⟨stepOpOf true Mode.indep, a1, a2⟩ : CStep)] from
          take_succ_set _ _ _ (by omega)]
      rw [List.append_assoc, List.singleton_append]
      rfl
    | emit =>
      obtain ⟨ha1, ha2⟩ := hve rfl
      simp only at ha1 ha2
      subst ha1
      subst ha2
      rw [show decompStep m ⟨.emit, 0, 0⟩ = .emit from rfl]
      rw [setRuleSteps]
      rw [set_rule_step_last s.crush pre r0 hrules j ⟨.emit, 0, 0⟩]
      rw [ih (j + 1)
        { s with crush := { s.crush with
            rules := pre ++ [{ r0 with steps := r0.steps.set j ⟨.emit, 0, 0⟩ }] } }
        pre { r0 with steps := r0.steps.set j ⟨.emit, 0, 0⟩ }
        hii hti rfl (by simp only [List.length_set]; omega) hvrest]
      rw [show (r0.steps.set j (⟨.emit, 0, 0⟩ : CStep)).take (j + 1)
        = r0.steps.take j ++ [(⟨.emit, 0, 0⟩ : CStep)] from
          take_succ_set _ _ _ (by omega)]
      rw [List.append_assoc, List.singleton_append]

theorem decompPType_inv (t : Int) (h : t = 1 ∨ t = 2) :
    ptypeCode (decompPType t) = some t := by
  rcases h with rfl | rfl <;> rfl

theorem rnUpTo_keys_lt (m : CrushMap) (i : Nat) :
    ∀ q ∈ rnUpTo m i, q.1 < (i : Int) := by
  intro q hq
  obtain ⟨j, hj, hjq, _⟩ := rnUpTo_mem m i q hq
  omega

theorem rule_step (m : CrushMap) (hC : Canonical m) (i : Nat)
    (ii : List (Int × String)) (iw : List (Int × ℚ)) (hi : i < m.rules.length) :
    parse_one (ruleState m i ii iw) (ruleDecl m i)
      = .ok (ruleState m (i + 1) ii iw) := by
  have hrmem : m.rules.getD i dummyRule ∈ m.rules := by
    rw [List.getD_eq_getElem _ _ hi]
    exact List.getElem_mem hi
  obtain ⟨hpt, hrlen, hsts⟩ := hC.rules_ok _ hrmem
  have htk : (m.rules.take i).length = i := by
    rw [List.length_take]
    omega
  have hreta : (⟨((m.rules.getD i dummyRule).steps.length : Int),
      (m.rules.getD i dummyRule).pool, (m.rules.getD i dummyRule).ptype,
      (m.rules.getD i dummyRule).minSize, (m.rules.getD i dummyRule).maxSize,
      (m.rules.getD i dummyRule).steps⟩ : CRule) = m.rules.getD i dummyRule := by
    rw [← hrlen]
  have htksucc : m.rules.take i ++ [m.rules.getD i dummyRule] = m.rules.take (i + 1) := by
    rw [List.take_succ, List.getElem?_eq_getElem hi]
    rw [List.getD_eq_getElem _ _ hi]
    rfl
  rw [show parse_one (ruleState m i ii iw) (ruleDecl m i)
    = parse_rule ⟨m.rule_names.lookup (i : Int), (m.rules.getD i dummyRule).pool,
        decompPType (m.rules.getD i dummyRule).ptype, (m.rules.getD i dummyRule).minSize,
        (m.rules.getD i dummyRule).maxSize,
        (m.rules.getD i dummyRule).steps.map (decompStep m)⟩ (ruleState m i ii iw)
      from rfl]
  rw [parse_rule.eq_def]
  simp only
  cases hnm : m.rule_names.lookup (i : Int) with
  | some n =>
    simp only
    rw [show (ruleState m i ii iw).rule_id = ruleIdUpTo m i from rfl,
      ruleIdUpTo_fresh m hC i n hnm]
    simp only [Option.isSome_none, Bool.false_eq_true, if_false]
    rw [parse_rule_body.eq_def]
    simp only [decompPType_inv _ hpt]
    simp only [ruleState, CrushMap.add_rule, CrushMap.set_rule_name, List.length_map,
      Option.getD_some]
    rw [setRuleSteps_fill m hC n (m.rules.getD i dummyRule).steps 0 _
      (m.rules.take i) _ rfl rfl rfl
      (by simp only [List.length_replicate, Int.toNat_natCast, List.length_nil]; omega)
      hsts]
    simp only [List.take_zero, List.nil_append, Except.ok.injEq, CState.mk.injEq,
      CrushMap.mk.injEq, true_and, and_true]
    rw [htk]
    refine ⟨?_, ?_, ?_⟩
    · rw [ruleIdUpTo_succ_some m i n hnm]
    · rw [hreta]
      exact htksucc
    · rw [mput_append_gt _ _ _ (rnUpTo_keys_lt m i), rnUpTo_succ_some m i n hnm]
  | none =>
    simp only
    rw [parse_rule_body.eq_def]
    simp only [decompPType_inv _ hpt]
    simp only [ruleState, CrushMap.add_rule, List.length_map, Option.getD_none]
    rw [setRuleSteps_fill m hC "" (m.rules.getD i dummyRule).steps 0 _
      (m.rules.take i) _ rfl rfl rfl
      (by simp only [List.length_replicate, Int.toNat_natCast, List.length_nil]; omega)
      hsts]
    simp only [List.take_zero, List.nil_append, Except.ok.injEq, CState.mk.injEq,
      CrushMap.mk.injEq, true_and, and_true]
    refine ⟨?_, ?_, ?_⟩
    · rw [ruleIdUpTo_succ_none m i hnm]
    · rw [hreta]
      exact htksucc
    · rw [rnUpTo_succ_none m i hnm]

theorem rule_phase (m : CrushMap) (hC : Canonical m) :
    ∀ (r i : Nat) (ii : List (Int × String)) (iw : List (Int × ℚ)),
      i + r = m.rules.length →
      (((List.range' i r).map (ruleDecl m)).foldlM parse_one
          (ruleState m i ii iw) : Except CErr CState)
        = .ok (ruleState m m.rules.length ii iw) := by
  intro r
  induction r with
  | zero =>
    intro i ii iw hi
    rw [Nat.add_zero] at hi
    subst hi
    rfl
  | succ r ihr =>
    intro i ii iw hi
    rw [List.range'_succ, List.map_cons, List.foldlM_cons,
      rule_step m hC i ii iw (by omega), except_bind_ok]
    exact ihr (i + 1) ii iw (by omega)

theorem devOffGlobal_lookup_ge (m : CrushMap) :
    ∀ (k : Nat) (j : Int), (k : Int) ≤ j → (devOffGlobal m k).lookup j = none := by
  intro k
  induction k with
  | zero => intro j _; rfl
  | succ k ih =>
    intro j hj
    rw [devOffGlobal_succ]
    by_cases h : m.get_device_offload (k : Int) = 0
    · rw [if_neg (fun hh => hh h), List.nil_append]
      exact ih j (by omega)
    · rw [if_pos h, List.singleton_append, List.lookup]
      have hne : (j == (k : Int)) = false := by
        simp only [beq_eq_false_iff_ne, ne_eq]
        omega
      rw [hne]
      exact ih j (by omega)

theorem devOffGlobal_lookup_lt (m : CrushMap) :
    ∀ (k j : Nat), j < k →
      (devOffGlobal m k).lookup (j : Int)
        = if m.get_device_offload (j : Int) = 0 then none
          else some (m.get_device_offload (j : Int)) := by
  intro k
  induction k with
  | zero => intro j h; omega
  | succ k ih =>
    intro j hj
    rw [devOffGlobal_succ]
    by_cases hjk : j = k
    · subst hjk
      by_cases h : m.get_device_offload (j : Int) = 0
      · rw [if_neg (fun hh => hh h), List.nil_append, if_pos h]
        exact devOffGlobal_lookup_ge m j (j : Int) (le_refl _)
      · rw [if_pos h, List.singleton_append, List.lookup]
        rw [show ((j : Int) == (j : Int)) = true from by simp]
        rw [if_neg h]
    · by_cases h : m.get_device_offload (k : Int) = 0
      · rw [if_neg (fun hh => hh h), List.nil_append]
        exact ih j (by omega)
      · rw [if_pos h, List.singleton_append, List.lookup]
        have hne : ((j : Int) == (k : Int)) = false := by
          simp only [beq_eq_false_iff_ne, ne_eq]
          intro hh
          apply hjk
          exact_mod_cast hh
        rw [hne]
        exact ih j (by omega)

theorem offload_rebuild (m : CrushMap) (hC : Canonical m) :
    ∀ (r j : Nat) (c : CrushMap), j + r = m.max_devices.toNat →
      c.offload = m.offload.take j ++ List.replicate (m.max_devices.toNat - j) 0 →
      List.foldl (offloadStep (devOffGlobal m m.max_devices.toNat)) c
        (List.range' j r) = { c with offload := m.offload } := by
  intro r
  induction r with
  | zero =>
    intro j c hj hco
    rw [Nat.add_zero] at hj
    subst hj
    rw [show List.range' m.max_devices.toNat 0 = [] from rfl, List.foldl_nil]
    have h2 : m.offload = c.offload := by
      rw [hco, Nat.sub_self, List.replicate_zero, List.append_nil, ← hC.off_len,
        List.take_length]
    rw [h2]
  | succ r ih =>
    intro j c hj hco
    have hjN : j < m.max_devices.toNat := by omega
    have hjlen : j < m.offload.length := by rw [hC.off_len]; omega
    have htkl : (m.offload.take j).length = j := by
      rw [List.length_take]
      omega
    have hrepl : List.replicate (m.max_devices.toNat - j) (0 : Int)
        = 0 :: List.replicate (m.max_devices.toNat - (j + 1)) 0 := by
      rw [show m.max_devices.toNat - j = (m.max_devices.toNat - (j + 1)) + 1 from by omega]
      rfl
    have hoffj : m.get_device_offload (j : Int) = m.offload[j] := by
      rw [CrushMap.get_device_offload, Int.toNat_natCast]
      exact List.getD_eq_getElem _ _ hjlen
    have htks : m.offload.take (j + 1) = m.offload.take j ++ [m.offload[j]] := by
      rw [List.take_succ, List.getElem?_eq_getElem hjlen]
      rfl
    rw [List.range'_succ, List.foldl_cons]
    rw [show offloadStep (devOffGlobal m m.max_devices.toNat) c j
      = match (devOffGlobal m m.max_devices.toNat).lookup (j : Int) with
        | some v => c.set_offload (j : Int) v
        | none => c from rfl]
    rw [devOffGlobal_lookup_lt m m.max_devices.toNat j hjN]
    by_cases h : m.get_device_offload (j : Int) = 0
    · rw [if_pos h]
      simp only
      rw [ih (j + 1) c (by omega) (by
        rw [hco, hrepl, htks, List.append_assoc, List.singleton_append, ← hoffj, h])]
    · rw [if_neg h]
      simp only
      rw [show c.set_offload (j : Int) (m.get_device_offload (j : Int))
        = { c with offload := c.offload.set j (m.get_device_offload (j : Int)) } from by
          rw [CrushMap.set_offload, Int.toNat_natCast]]
      have hset := set_len_append (List.take j m.offload)
        (List.replicate (m.max_devices.toNat - (j + 1)) (0 : Int)) 0 (m.offload[j])
      rw [htkl] at hset
      rw [ih (j + 1) _ (by omega) (by
        simp only
        rw [hco, hrepl, hoffj, hset, htks]
        rw [List.append_assoc, List.singleton_append])]

theorem sorted_keys_nodup {β : Type} (l : List (Int × β))
    (h : l.Chain' (fun p q => p.1 < q.1)) : (l.map Prod.fst).Nodup := by
  have hp := (chain'_iff_pairwise_keys l).mp h
  have h2 : l.Pairwise (fun p q => p.1 ≠ q.1) := hp.imp (fun hlt => by omega)
  exact (List.pairwise_map).mpr h2

theorem rnUpTo_sorted (m : CrushMap) : ∀ (i : Nat),
    (rnUpTo m i).Chain' (fun p q => p.1 < q.1) := by
  intro i
  induction i with
  | zero => exact List.chain'_nil
  | succ i ih =>
    cases hl : m.rule_names.lookup (i : Int) with
    | none => rw [rnUpTo_succ_none m i hl]; exact ih
    | some n =>
      rw [rnUpTo_succ_some m i n hl]
      rw [chain'_iff_pairwise_keys] at ih ⊢
      rw [List.pairwise_append]
      refine ⟨ih, List.pairwise_singleton _ _, ?_⟩
      intro a ha b hb
      rw [List.mem_singleton] at hb
      subst hb
      exact rnUpTo_keys_lt m i a ha

theorem rnUpTo_mem_of (m : CrushMap) (i : Nat) (a : Int) (n : String)
    (h0 : 0 ≤ a) (h1 : a.toNat < i) (hl : m.rule_names.lookup a = some n) :
    (a, n) ∈ rnUpTo m i := by
  rw [rnUpTo]
  refine List.mem_filterMap.mpr ⟨a.toNat, List.mem_range.mpr h1, ?_⟩
  rw [show ((a.toNat : Nat) : Int) = a from by omega, hl]
  rfl

theorem rnUpTo_full (m : CrushMap) (hC : Canonical m) :
    rnUpTo m m.rules.length = m.rule_names := by
  apply sorted_assoc_ext _ _ (rnUpTo_sorted m _) hC.rnames_sorted
  intro a
  cases hl : m.rule_names.lookup a with
  | some n =>
    obtain ⟨h0, h1, _⟩ := hC.rnames_keys _ (lookup_mem_of _ _ _ hl)
    apply lookup_of_mem_nodup _ _ _ (sorted_keys_nodup _ (rnUpTo_sorted m _))
    exact rnUpTo_mem_of m m.rules.length a n h0 (by omega) hl
  | none =>
    apply lookup_none_not_mem
    intro hmem
    obtain ⟨p, hp, hpa⟩ := List.mem_map.mp hmem
    obtain ⟨j, _, hja, hjl⟩ := rnUpTo_mem m _ p hp
    rw [hja, hpa] at hjl
    rw [hjl] at hl
    exact Option.noConfusion hl

/-- C1: amended round trip.  For a canonical map — one the compiler can
produce, with list/straw buckets, positive 3-decimal-exact weights and
offloads, dense named devices, sorted name tables and compiled-shape
rules — decompiling and recompiling reproduces the map exactly, and the
binary encodings agree.  (The unrestricted claim is refuted by
`c1_roundtrip_cx`: three-decimal printing loses precision.) -/
theorem c1_roundtrip_amended (m : CrushMap) (hC : Canonical m) :
    ∃ s, compile (decompile_crush m) = .ok s ∧ s.crush = m ∧
      encode s.crush = encode m := by
  obtain ⟨ii0, hfu⟩ := find_used_fields (decompile_crush m) initState
  have hN : ((m.max_devices.toNat : Nat) : Int) = m.max_devices :=
    Int.toNat_of_nonneg hC.max_nonneg
  obtain ⟨ii1, hdev⟩ := dev_phase m hC m.max_devices.toNat 0 ii0 (by omega)
  obtain ⟨ii2, iw2, k2, hk2, habs2, hbuck⟩ :=
    buck_phase m hC m.buckets.length 0 0 ii1 [] (by omega) (le_refl 0)
      (fun j hj1 hj2 => absurd hj2 (by omega))
  have htake : m.buckets.take k2 = m.buckets := by
    rcases hC.last_present with hnil | hlast
    · rw [hnil, List.take_nil]
    · have hk2len : k2 = m.buckets.length := by
        by_contra hne
        have hlt : k2 ≤ m.buckets.length - 1 := by omega
        have hnone := habs2 (m.buckets.length - 1) (by omega) (by
          have : m.buckets ≠ [] := by
            intro he
            rw [he] at hlast
            exact hlast rfl
          have : 0 < m.buckets.length := List.length_pos.mpr this
          omega)
        exact hlast hnone
      rw [hk2len]
      exact List.take_length m.buckets
  have hmid : buckState m m.buckets.length k2 ii2 iw2 = ruleState m 0 ii2 iw2 := by
    rw [buckState, ruleState, htake, inTbl_full m hC]
    rfl
  have hrule := rule_phase m hC m.rules.length 0 ii2 iw2 (by omega)
  have hoffl := offload_rebuild m hC m.max_devices.toNat 0
    ⟨m.max_devices, List.replicate m.max_devices.toNat 0, m.buckets, m.rules,
      m.type_names, m.item_names, m.rule_names⟩ (by omega)
    (by rw [List.take_zero, List.nil_append, Nat.sub_zero])
  refine ⟨⟨buckItemId m m.buckets.length ++ devItemId m m.max_devices.toNat, ii2, iw2,
    devOffGlobal m m.max_devices.toNat, typeIdList m, ruleIdUpTo m m.rules.length,
    m⟩, ?_, rfl, rfl⟩
  rw [compile, parse_crush]
  rw [hfu]
  rw [decompile_crush]
  rw [List.foldlM_append, List.foldlM_append, List.foldlM_append]
  rw [decompDevices, List.range_eq_range']
  have hdev2 : (((List.range' 0 m.max_devices.toNat).map (devDecl m)).foldlM parse_one
      { initState with id_item := ii0 } : Except CErr CState)
    = .ok ⟨devItemId m m.max_devices.toNat, ii1, [],
        devOffGlobal m m.max_devices.toNat, [], [],
        ⟨m.max_devices, List.replicate m.max_devices.toNat 0, [], [], [],
          devNames m m.max_devices.toNat, []⟩⟩ := hdev
  rw [hdev2, except_bind_ok]
  rw [decompTypes]
  obtain ⟨tv0, htv0⟩ := Option.isSome_iff_exists.mp hC.type0
  rw [htv0]
  rw [show (some tv0).isNone = false from rfl]
  rw [if_neg (by intro h; exact Bool.noConfusion h), List.nil_append]
  have htyp2 : ((m.type_names.map fun p => Decl.typ ⟨p.1, p.2⟩).foldlM parse_one
      (⟨devItemId m m.max_devices.toNat, ii1, [],
        devOffGlobal m m.max_devices.toNat, [], [],
        ⟨m.max_devices, List.replicate m.max_devices.toNat 0, [], [], [],
          devNames m m.max_devices.toNat, []⟩⟩ : CState) : Except CErr CState)
    = .ok (buckState m 0 0 ii1 []) := by
    rw [typ_phase, buckState]
    simp only [Except.ok.injEq, CState.mk.injEq, CrushMap.mk.injEq, true_and, and_true]
    refine ⟨?_, ?_, ?_, ?_⟩
    · rw [show buckItemId m 0 = ([] : List (String × Int)) from rfl, List.nil_append]
    · rw [List.append_nil, typeIdList]
    · rw [List.take_zero]
    · refine ⟨?_, rfl⟩
      rw [mputs_asc m.type_names [] (by rw [List.nil_append]; exact hC.tnames_sorted),
        List.nil_append]
  rw [htyp2, except_bind_ok]
  rw [decompBuckets, List.range_eq_range']
  rw [hbuck, except_bind_ok]
  rw [hmid]
  rw [decompRules, List.range_eq_range']
  rw [hrule, except_bind_ok]
  rw [show (ruleState m m.rules.length ii2 iw2).crush.finalize
    = ⟨m.max_devices, List.replicate m.max_devices.toNat 0, m.buckets, m.rules,
        m.type_names, m.item_names, m.rule_names⟩ from by
      rw [CrushMap.finalize, ruleState]
      simp only [CrushMap.mk.injEq, true_and, and_true]
      exact ⟨List.take_length m.rules, rnUpTo_full m hC⟩]
  simp only [apply_offloads, ruleState]
  rw [List.range_eq_range']
  rw [hoffl]
  rfl

/-- C1 witness: the amended round trip at the concrete canonical map
`c1wm`. -/
theorem c1_roundtrip_amended_witness :
    ∃ s, compile (decompile_crush c1wm) = .ok s ∧ s.crush = c1wm ∧
      encode s.crush = encode c1wm :=
  c1_roundtrip_amended c1wm
    ⟨by decide, by decide, by decide,
      List.Chain'.cons (by decide) (List.chain'_singleton _), by decide, by decide,
      fun i hi => by
        have hi2 : i < 1 := hi
        have h0 : i = 0 := by omega
        subst h0
        decide,
      fun idx hidx hp => by
        have hi2 : idx < 1 := hidx
        have h0 : idx = 0 := by omega
        subst h0
        decide,
      List.Chain'.cons (by decide) (List.chain'_singleton _), by decide, by decide,
      by decide, by decide,
      fun idx bk h => by
        by_cases h0 : idx = 0
        · subst h0
          have h2 : some (⟨-1, 4, 1, 1, [0], [65536]⟩ : CBucket) = some bk := h
          injection h2 with h3
          subst h3
          decide
        · exfalso
          have hge : c1wm.buckets.length ≤ idx := by
            have h1 : (1 : Nat) ≤ idx := by omega
            exact h1
          rw [List.getD_eq_getElem?_getD, List.getElem?_eq_none_iff.mpr hge] at h
          simp at h,
      fun r hr => absurd hr (List.not_mem_nil r),
      List.chain'_nil, by decide, by decide⟩

end Crushtool
